import Mathlib

/-!
# Guest memory manager (`toolbox/mm.cpp`)

A shallow embedding of the memory manager of `src/toolbox/mm.cpp`: the file-scope
globals become the fields of `MM.State`, every trap function becomes a function on
that state, and the backing pool allocator (`mplite`), which is not part of the
source file, is an explicit parameter `MM.Allocator`.

* The pool is seen from outside: `MM.Pool` keeps the region given to `mplite_init`
  and the history of `malloc` and `free` requests, so that "no allocator call" and
  "still allocated" can be stated; what `malloc` answers is decided by the
  `Allocator` parameter, and `MM.AllocOK` is the contract the manager relies on.
* Guest memory is the function `Memory : Nat → Nat` from offsets to bytes; 16-bit
  and 32-bit accesses are big-endian and a store outside the arena is dropped.
* `uint32_t` and `uint16_t` arithmetic is arithmetic on `Nat` modulo `2 ^ 32` and
  `2 ^ 16`.
* `HandleQueue.front()` on an empty deque is undefined behaviour: `MM.NewHandle`
  returns `none` there.
-/

namespace MM

/-! ## Machine integers -/

/-- Truncation to `uint16_t`. -/
def u16 (n : Nat) : Nat := n % 2 ^ 16

/-- Truncation to `uint32_t`. -/
def u32 (n : Nat) : Nat := n % 2 ^ 32

/-! ## Data model -/

/-- The `HandleInfo` struct: offset and byte length of the block a handle owns. -/
structure HandleInfo where
  address : Nat
  size : Nat
deriving DecidableEq, Repr

/-- One request received by the backing pool. A `malloc` request is kept together
with the answer it got (`none` is the null pointer, `some p` a block whose first
byte is `Memory + p`); a `free` request is kept with the offset of the pointer it
was given. -/
inductive PoolCall where
  | malloc (size : Nat) (result : Option Nat)
  | free (ptr : Nat)
deriving DecidableEq, Repr

/-- The global `mplite_t pool`, seen from outside: the region handed to
`mplite_init` (as offset from `Memory` and length) and every request made since,
newest first. -/
structure Pool where
  start : Nat
  len : Nat
  calls : List PoolCall
deriving DecidableEq, Repr

/-- Modelled from the spec: the backing allocator (`mplite/mplite.h`, not under
`src/`), "`init(region, length, alignment)` returning ok/fail; `allocate(size) ->
offset|null`; `free(offset)`". `init` gets the region offset and length and says
whether `mplite_init` answers `MPLITE_OK`; `malloc` gets the pool (region and
request history) and the byte count and answers with the offset of the block
relative to `Memory`, or `none` for the null pointer. -/
structure Allocator where
  init : Nat → Nat → Bool
  malloc : Pool → Nat → Option Nat

/-- The globals of `mm.cpp` (`pool`, `Memory`, `MemorySize`, `HandleQueue`, `PtrMap`,
`HandleMap`) together with the two register banks of the emulated CPU that the
traps read and write. `Memory a` is the byte at `Memory[a]`. The two `std::map`s
are lists of records with pairwise different keys, newest record first: the
iteration order of a `std::map` is never observed by `mm.cpp`. `HandleQueue` has
its front at the head of the list. -/
structure State where
  pool : Pool
  Memory : Nat → Nat
  MemorySize : Nat
  HandleQueue : List Nat
  PtrMap : List (Nat × Nat)
  HandleMap : List (Nat × HandleInfo)
  aReg : Nat → Nat
  dReg : Nat → Nat

/-- Modelled from the spec: the constant `memFullErr` of `mm.h` (not under `src/`),
the out-of-memory code; the Memory Manager value -108 as a `uint16_t`. -/
def memFullErr : Nat := 65428

/-- Modelled from the spec: the constant `memWZErr` of `mm.h` (not under `src/`),
the unknown-reference code; the Memory Manager value -111 as a `uint16_t`. -/
def memWZErr : Nat := 65425

/-! ## `std::map` operations used by the source -/

/-- The call `m.find(k)`: the mapped value, or `none` for `m.end()`. -/
def mapFind {V : Type} : List (Nat × V) → Nat → Option V
  | [], _ => none
  | (k', v) :: rest, k => if k' = k then some v else mapFind rest k

/-- The call `m.erase(iter)` for the iterator returned by `m.find(k)`. -/
def mapErase {V : Type} (m : List (Nat × V)) (k : Nat) : List (Nat × V) :=
  m.filter (fun e => decide (e.1 ≠ k))

/-- The call `m.emplace(std::make_pair(k, v))`: nothing is inserted when the key is
already present. -/
def mapEmplace {V : Type} (m : List (Nat × V)) (k : Nat) (v : V) : List (Nat × V) :=
  match mapFind m k with
  | some _ => m
  | none => (k, v) :: m

/-- The keys of a map. -/
def mapKeys {V : Type} (m : List (Nat × V)) : List Nat := m.map Prod.fst

/-! ## CPU registers and guest memory -/

/-- Register read `cpuGetAReg(i)`. -/
def cpuGetAReg (s : State) (i : Nat) : Nat := s.aReg i

/-- Register read `cpuGetDReg(i)`. -/
def cpuGetDReg (s : State) (i : Nat) : Nat := s.dReg i

/-- Register write `cpuSetAReg(i, value)`. -/
def cpuSetAReg (s : State) (i value : Nat) : State :=
  { s with aReg := fun j => if j = i then value else s.aReg j }

/-- Register write `cpuSetDReg(i, value)`, used by the caller of a trap to pass an argument. -/
def cpuSetDReg (s : State) (i value : Nat) : State :=
  { s with dReg := fun j => if j = i then value else s.dReg j }

/-- Modelled from the spec: `memoryWriteWord(data, address)` of `cpu/fmem.h` (not
under `src/`), the "fixed-width word (16-bit)" write to guest memory: the two
bytes at `address`, most significant first as on the emulated 68K; a store that
is not wholly inside the arena is dropped. -/
def memoryWriteWord (s : State) (data address : Nat) : State :=
  if address + 1 < s.MemorySize then
    { s with Memory := fun a =>
        if a = address then data / 2 ^ 8 % 2 ^ 8
        else if a = address + 1 then data % 2 ^ 8
        else s.Memory a }
  else s

/-- Modelled from the spec: `memoryWriteLong(data, address)` of `cpu/fmem.h` (not
under `src/`), the "long (32-bit)" write to guest memory: the four bytes at
`address`, most significant first; a store that is not wholly inside the arena is
dropped. -/
def memoryWriteLong (s : State) (data address : Nat) : State :=
  if address + 3 < s.MemorySize then
    { s with Memory := fun a =>
        if a = address then data / 2 ^ 24 % 2 ^ 8
        else if a = address + 1 then data / 2 ^ 16 % 2 ^ 8
        else if a = address + 2 then data / 2 ^ 8 % 2 ^ 8
        else if a = address + 3 then data % 2 ^ 8
        else s.Memory a }
  else s

/-- Modelled from the spec: `memoryReadWord(address)` of `cpu/fmem.h` (not under
`src/`): the 16-bit value held by the two bytes at `address`. -/
def memoryReadWord (s : State) (address : Nat) : Nat :=
  s.Memory address * 2 ^ 8 + s.Memory (address + 1)

/-- Modelled from the spec: `memoryReadLong(address)` of `cpu/fmem.h` (not under
`src/`): the 32-bit value held by the four bytes at `address`. -/
def memoryReadLong (s : State) (address : Nat) : Nat :=
  s.Memory address * 2 ^ 24 + s.Memory (address + 1) * 2 ^ 16
    + s.Memory (address + 2) * 2 ^ 8 + s.Memory (address + 3)

/-- The call `std::memset(Memory + p, 0, size)`. -/
def memset0 (s : State) (p size : Nat) : State :=
  { s with Memory := fun a => if p ≤ a ∧ a < p + size then 0 else s.Memory a }

/-- The call `std::memmove(Memory + dest, Memory + source, count)`. -/
def memmove (s : State) (dest source count : Nat) : State :=
  { s with Memory := fun a =>
      if dest ≤ a ∧ a < dest + count then s.Memory (source + (a - dest)) else s.Memory a }

/-! ## The backing pool -/

/-- The call `mplite_malloc(&pool, size)`: the answer of the allocator, and the
state with the request recorded. -/
def mplite_malloc (al : Allocator) (s : State) (size : Nat) : Option Nat × State :=
  (al.malloc s.pool size,
    { s with pool := { s.pool with
        calls := PoolCall.malloc size (al.malloc s.pool size) :: s.pool.calls } })

/-- The call `mplite_free(&pool, Memory + ptr)`. -/
def mplite_free (s : State) (ptr : Nat) : State :=
  { s with pool := { s.pool with calls := PoolCall.free ptr :: s.pool.calls } }

/-! ## The functions of `mm.cpp` -/

/-- The helper `SetMemError`: mirror the code at offset `0x0220`, return it. -/
def SetMemError (s : State) (error : Nat) : Nat × State :=
  (error, memoryWriteWord s error 0x0220)

/-- The constant `HandleCount` of `alloc_handle_block`. -/
def HandleCount : Nat := 128

/-- The loop `for ( ; hh < end; hh += sizeof(uint32_t)) HandleQueue.push_back(hh);`
on `uint32_t` counters; `fuel` bounds the number of iterations. -/
def pushHandles : Nat → Nat → Nat → List Nat → List Nat
  | 0, _, _, q => q
  | fuel + 1, hh, endh, q =>
    if hh < endh then pushHandles fuel (u32 (hh + 4)) endh (q ++ [hh]) else q

/-- The function `alloc_handle_block`: one pool block of `4 * HandleCount` bytes,
whose 4-byte cells are pushed on the queue. The loop counter goes up by 4 from a
value below `2 ^ 32`, so `2 ^ 32` iterations are never reached. -/
def alloc_handle_block (al : Allocator) (s : State) : Bool × State :=
  let r := mplite_malloc al s (4 * HandleCount)
  match r.1 with
  | none => (false, r.2)
  | some block =>
    let hh := u32 block
    let endh := u32 (hh + 128 * 4)
    (true, { r.2 with HandleQueue := pushHandles (2 ^ 32) hh endh r.2.HandleQueue })

/-- The state of the globals before `Init` runs: empty containers. -/
def startup : State where
  pool := ⟨0, 0, []⟩
  Memory := fun _ => 0
  MemorySize := 0
  HandleQueue := []
  PtrMap := []
  HandleMap := []
  aReg := fun _ => 0
  dReg := fun _ => 0

/-- The function `MM::Init`; `memory` is the content of the arena, `reserved` the
offset at which the pool region starts. -/
def Init (al : Allocator) (memory : Nat → Nat) (memorySize reserved : Nat) : Bool × State :=
  let s1 : State := { startup with Memory := memory, MemorySize := memorySize }
  if al.init reserved (u32 (memorySize + 2 ^ 32 - reserved)) then
    alloc_handle_block al
      { s1 with pool := ⟨reserved, u32 (memorySize + 2 ^ 32 - reserved), []⟩ }
  else (false, s1)

/-- The flag `bool clear = trap & (1 << 9);` of `NewPtr` and `NewHandle`. -/
def clearFlag (trap : Nat) : Bool := (trap &&& (1 <<< 9)) != 0

/-- The trap `MM::BlockMove`. -/
def BlockMove (_trap : Nat) (s : State) : Nat × State :=
  let source := cpuGetAReg s 0
  let dest := cpuGetAReg s 1
  let count := cpuGetDReg s 0
  (0, memmove s dest source count)

/-- The trap `MM::DisposePtr`. -/
def DisposePtr (_trap : Nat) (s : State) : Nat × State :=
  let mcptr := cpuGetAReg s 0
  match mapFind s.PtrMap mcptr with
  | none => SetMemError s memWZErr
  | some _ =>
    let s1 := { s with PtrMap := mapErase s.PtrMap mcptr }
    let s2 := mplite_free s1 mcptr
    SetMemError s2 0

/-- The trap `MM::DisposeHandle`. -/
def DisposeHandle (_trap : Nat) (s : State) : Nat × State :=
  let hh := cpuGetAReg s 0
  match mapFind s.HandleMap hh with
  | none => SetMemError s memWZErr
  | some info =>
    let s1 := { s with HandleMap := mapErase s.HandleMap hh }
    let s2 := mplite_free s1 info.address
    let s3 := { s2 with HandleQueue := s2.HandleQueue ++ [hh] }
    SetMemError s3 0

/-- The trap `MM::NewPtr`. -/
def NewPtr (al : Allocator) (trap : Nat) (s : State) : Nat × State :=
  let clear := clearFlag trap
  let size := cpuGetDReg s 0
  if size = 0 then
    SetMemError (cpuSetAReg s 0 0) 0
  else
    let r := mplite_malloc al s size
    match r.1 with
    | none => SetMemError (cpuSetAReg r.2 0 0) memFullErr
    | some ptr =>
      let s1 := if clear then memset0 r.2 ptr size else r.2
      let mcptr := u32 ptr
      let s2 := { s1 with PtrMap := mapEmplace s1.PtrMap mcptr size }
      SetMemError (cpuSetAReg s2 0 mcptr) 0

/-- Lines 292-297 of `MM::NewHandle`: record the handle, store the block offset in
the handle's own cell, return the handle. -/
def NewHandle_record (s : State) (hh mcptr size : Nat) : Nat × State :=
  let s1 := { s with HandleMap := mapEmplace s.HandleMap hh ⟨mcptr, size⟩ }
  let s2 := memoryWriteLong s1 mcptr hh
  SetMemError (cpuSetAReg s2 0 hh) 0

/-- Lines 271-297 of `MM::NewHandle`, from `HandleQueue.front()` on. Calling
`front()` on an empty deque is undefined: the result is `none`. -/
def NewHandle_take (al : Allocator) (clear : Bool) (size : Nat) (s : State) :
    Option (Nat × State) :=
  match s.HandleQueue with
  | [] => none
  | hh :: rest =>
    let s1 := { s with HandleQueue := rest }
    if size ≠ 0 then
      let r := mplite_malloc al s1 size
      match r.1 with
      | none =>
        let s2 := { r.2 with HandleQueue := r.2.HandleQueue ++ [hh] }
        some (SetMemError (cpuSetAReg s2 0 0) memFullErr)
      | some ptr =>
        let mcptr := u32 ptr
        let s2 := if clear then memset0 r.2 ptr size else r.2
        some (NewHandle_record s2 hh mcptr size)
    else
      some (NewHandle_record s1 hh 0 size)

/-- The trap `MM::NewHandle`. -/
def NewHandle (al : Allocator) (trap : Nat) (s : State) : Option (Nat × State) :=
  let clear := clearFlag trap
  let size := cpuGetDReg s 0
  if s.HandleQueue.length = 0 then
    match alloc_handle_block al s with
    | (false, s1) => some (SetMemError (cpuSetAReg s1 0 0) memFullErr)
    | (true, s1) => NewHandle_take al clear size s1
  else
    NewHandle_take al clear size s

/-! ## Sequences of traps -/

/-- One trap together with the arguments its caller loads into the registers. -/
inductive Op where
  | NewPtr (trap size : Nat)
  | NewHandle (trap size : Nat)
  | DisposePtr (trap ptr : Nat)
  | DisposeHandle (trap hh : Nat)
  | BlockMove (trap source dest count : Nat)
deriving DecidableEq, Repr

/-- The caller side of a trap: the arguments are loaded into the registers the
trap reads (`D0`, `A0`, `A1`, all 32 bits wide; the trap word is 16 bits wide),
then the trap runs. The result is the code the trap returns and the state it
leaves; `none` when the trap runs into undefined behaviour. -/
def runOp (al : Allocator) : Op → State → Option (Nat × State)
  | Op.NewPtr trap size, s => some (NewPtr al (u16 trap) (cpuSetDReg s 0 (u32 size)))
  | Op.NewHandle trap size, s => NewHandle al (u16 trap) (cpuSetDReg s 0 (u32 size))
  | Op.DisposePtr trap ptr, s => some (DisposePtr (u16 trap) (cpuSetAReg s 0 (u32 ptr)))
  | Op.DisposeHandle trap hh, s => some (DisposeHandle (u16 trap) (cpuSetAReg s 0 (u32 hh)))
  | Op.BlockMove trap source dest count, s =>
    some (BlockMove (u16 trap)
      (cpuSetDReg (cpuSetAReg (cpuSetAReg s 0 (u32 source)) 1 (u32 dest)) 0 (u32 count)))

/-- The states reached from a successful `Init` (arena of `memorySize` bytes, pool
region starting at `reserved`) by a sequence of traps, each of which is allowed by
`ok` in the state it is issued in. -/
inductive ReachableBy (al : Allocator) (memorySize reserved : Nat)
    (ok : State → Op → Prop) : State → Prop where
  | init (memory : Nat → Nat) (s : State) :
      Init al memory memorySize reserved = (true, s) →
      ReachableBy al memorySize reserved ok s
  | step (s : State) (op : Op) (code : Nat) (s' : State) :
      ReachableBy al memorySize reserved ok s → ok s op →
      runOp al op s = some (code, s') →
      ReachableBy al memorySize reserved ok s'

/-- The states reached from a successful `Init` by any sequence of the five traps. -/
def Reachable (al : Allocator) (memorySize reserved : Nat) : State → Prop :=
  ReachableBy al memorySize reserved (fun _ _ => True)

/-! ## The allocator contract -/

/-- The blocks `(offset, size)` of the pool that are allocated after the given
requests (newest first): handed out by a `malloc` and not given to `free` since. -/
def liveSpans : List PoolCall → List (Nat × Nat)
  | [] => []
  | PoolCall.malloc size (some p) :: rest => (p, size) :: liveSpans rest
  | PoolCall.malloc _ none :: rest => liveSpans rest
  | PoolCall.free q :: rest => (liveSpans rest).filter (fun e => decide (e.1 ≠ q))

/-- Two blocks have no byte in common. -/
def SpanDisjoint (e1 e2 : Nat × Nat) : Prop :=
  e1.1 + e1.2 ≤ e2.1 ∨ e2.1 + e2.2 ≤ e1.1

/-- What the memory manager relies on from the pool: a block it hands out lies
inside the region given to `mplite_init` and has no byte in common with a block
that is still allocated. -/
def AllocOK (al : Allocator) : Prop :=
  ∀ (pool : Pool) (size p : Nat), al.malloc pool size = some p →
    pool.start ≤ p ∧ p + size ≤ pool.start + pool.len ∧
    ∀ e ∈ liveSpans pool.calls, SpanDisjoint (p, size) e

/-- The 128 handle cells of the batch that starts at offset `b`, in ascending order. -/
def batchSlots (b : Nat) : List Nat := (List.range HandleCount).map (fun i => b + 4 * i)

/-- The offsets of the blocks owned by the handles of a Handle Table: the recorded
addresses other than 0. -/
def ownedBlocks (m : List (Nat × HandleInfo)) : List Nat :=
  (m.map (fun e => e.2.address)).filter (fun a => decide (a ≠ 0))

/-- The bookkeeping invariant of the memory manager; `B` lists the offsets of the
handle batches minted so far, oldest first. -/
structure Inv (s : State) (B : List Nat) : Prop where
  start_pos : 0 < s.pool.start
  region : s.pool.start + s.pool.len ≤ s.MemorySize
  memsize : s.MemorySize < 2 ^ 32
  live_in : ∀ e ∈ liveSpans s.pool.calls,
    s.pool.start ≤ e.1 ∧ e.1 + e.2 ≤ s.pool.start + s.pool.len ∧ 0 < e.2
  live_disj : (liveSpans s.pool.calls).Pairwise SpanDisjoint
  batches_live : ∀ b ∈ B, (b, 4 * HandleCount) ∈ liveSpans s.pool.calls
  held_nodup : (B ++ (mapKeys s.PtrMap ++ ownedBlocks s.HandleMap)).Nodup
  held_live : ∀ x ∈ mapKeys s.PtrMap ++ ownedBlocks s.HandleMap,
    x ∈ (liveSpans s.pool.calls).map Prod.fst
  ids : (s.HandleQueue ++ mapKeys s.HandleMap).Perm (B.flatMap batchSlots)

/-! ## Concrete allocators and states -/

/-- The first offset above every block of a list, and not below `start`. -/
def spanTop (start : Nat) : List (Nat × Nat) → Nat
  | [] => start
  | e :: rest => max (e.1 + e.2) (spanTop start rest)

/-- A pool that hands out the bytes just above the highest block still allocated. -/
def bumpAllocator : Allocator where
  init := fun _ _ => true
  malloc := fun pool size =>
    if spanTop pool.start (liveSpans pool.calls) + size ≤ pool.start + pool.len then
      some (spanTop pool.start (liveSpans pool.calls))
    else none

/-- A pool that serves the first request only. -/
def onceAllocator : Allocator where
  init := fun _ _ => true
  malloc := fun pool size =>
    if pool.calls = [] ∧ size ≤ pool.len then some pool.start else none

/-- The state after `Init` on a zeroed arena of 1 MiB whose first 64 KiB are
reserved, with the pool that allocates above the highest live block: the first
handle batch is at offset 0x10000. -/
def bootState : State := (Init bumpAllocator (fun _ => 0) 0x100000 0x10000).2

/-- The state after `Init` on a zeroed arena of 1 MiB whose first 64 KiB are
reserved, with the pool that serves the first request only. -/
def bootOnce : State := (Init onceAllocator (fun _ => 0) 0x100000 0x10000).2

/-- Run the traps of a list one after the other. The result lists, for every trap,
the code it returned and the content of `A0` on return, and gives the last state;
`none` when a trap runs into undefined behaviour. -/
def runTrace (al : Allocator) : List Op → State → Option (List (Nat × Nat) × State)
  | [], s => some ([], s)
  | op :: ops, s =>
    match runOp al op s with
    | none => none
    | some r =>
      match runTrace al ops r.2 with
      | none => none
      | some rs => some ((r.1, cpuGetAReg r.2 0) :: rs.1, rs.2)

/-- The codes and `A0` values of a run. -/
def traceOut (al : Allocator) (ops : List Op) (s : State) : Option (List (Nat × Nat)) :=
  (runTrace al ops s).map Prod.fst

/-- The state a run ends in (the start state when a trap runs into undefined behaviour). -/
def afterOps (al : Allocator) (ops : List Op) (s : State) : State :=
  match runTrace al ops s with
  | some rs => rs.2
  | none => s

/-- A trap that leaves the cells of the live handles alone: any trap but a
`BlockMove` whose destination range `[dest, dest + count)` has a byte in common
with the 4-byte cell of a live handle. -/
def slotSafe (s : State) : Op → Prop
  | Op.BlockMove _ _ dest count =>
    ∀ h ∈ mapKeys s.HandleMap,
      h + 4 ≤ u32 dest ∨ u32 dest + u32 count ≤ h ∨ u32 count = 0
  | _ => True

instance slotSafe.decidable (s : State) (op : Op) : Decidable (slotSafe s op) := by
  cases op <;> unfold slotSafe <;> infer_instance

/-- The relocation contract: the cell of every live handle holds the address
recorded for the handle. -/
def CellsMirror (s : State) : Prop :=
  ∀ (h : Nat) (info : HandleInfo), mapFind s.HandleMap h = some info →
    memoryReadLong s h = info.address

/-- The state after `Init` and one `NewPtr` of 16 bytes, which the pool places at
offset 0x10200, right above the first handle batch. -/
def ptrState : State := afterOps bumpAllocator [Op.NewPtr 0 16] bootState

/-- The state after `Init` and two `NewHandle` traps of size 0: the handles
0x10000 and 0x10004 are live, 126 identities are left in the queue. -/
def twoHandles : State :=
  afterOps bumpAllocator [Op.NewHandle 0 0, Op.NewHandle 0 0] bootState

/-- The codes and `A0` values when, in `twoHandles`, the two handles are freed
and 128 `NewHandle` traps of size 0 follow. -/
def fifoOut : List (Nat × Nat) :=
  (traceOut bumpAllocator
    (Op.DisposeHandle 0 0x10000 :: Op.DisposeHandle 0 0x10004 ::
      (List.replicate 128 ((0 : Nat), (0 : Nat))).map (fun a => Op.NewHandle a.1 a.2))
    twoHandles).getD []

/-- The state after `Init` and one `NewHandle` of 16 bytes: the handle 0x10000
owns the block at offset 0x10200. -/
def handleState : State := afterOps bumpAllocator [Op.NewHandle 0 16] bootState

/-- The state `handleState` after a `BlockMove` of 4 bytes from offset 0x20000 to
offset 0x10000, the cell of the live handle. -/
def movedState : State :=
  afterOps bumpAllocator [Op.NewHandle 0 16, Op.BlockMove 0 0x20000 0x10000 4] bootState

/-- The state after `Init` on a 1 MiB arena whose byte at offset `a` is `a % 251`,
with 64 KiB reserved. -/
def patternState : State := (Init bumpAllocator (fun a => a % 251) 0x100000 0x10000).2

/-- The state after `Init` and 128 `NewHandle` traps of size 0 with the pool that
serves the first request only: the free queue is empty and the pool is exhausted. -/
def drainedOnce : State :=
  afterOps onceAllocator (List.replicate 128 (Op.NewHandle 0 0)) bootOnce

/-- The state `patternState` with the arguments of a `BlockMove` of 6 bytes from
offset 0x20000 to offset 0x20002 loaded into `A0`, `A1` and `D0`. -/
def moveArgs : State :=
  cpuSetDReg (cpuSetAReg (cpuSetAReg patternState 0 0x20000) 1 0x20002) 0 6

/-- The state after `Init` and 128 `NewHandle` traps of size 0: all 128 identities
of the first batch are live and the free queue is empty. -/
def drained : State :=
  afterOps bumpAllocator (List.replicate 128 (Op.NewHandle 0 0)) bootState

/-- A pool that answers every request with a block 4 bytes below `2 ^ 32`. -/
def wrapAllocator : Allocator where
  init := fun _ _ => true
  malloc := fun _ _ => some (2 ^ 32 - 4)

/-- The pool region and the arena size of `s'` are those of `s`. -/
def SameRegion (s' s : State) : Prop :=
  s'.pool.start = s.pool.start ∧ s'.pool.len = s.pool.len ∧ s'.MemorySize = s.MemorySize

/-- `NewPtr` gets what it asks for: the size is 0, or the pool serves the request. -/
def NewPtr_succeeds (al : Allocator) (s : State) : Prop :=
  cpuGetDReg s 0 = 0 ∨ (al.malloc s.pool (cpuGetDReg s 0)).isSome = true

/-- `DisposePtr` is given a key of the Direct-Block Map. -/
def DisposePtr_succeeds (s : State) : Prop :=
  (mapFind s.PtrMap (cpuGetAReg s 0)).isSome = true

/-- `DisposeHandle` is given a key of the Handle Table. -/
def DisposeHandle_succeeds (s : State) : Prop :=
  (mapFind s.HandleMap (cpuGetAReg s 0)).isSome = true

/-- `NewHandle` gets what it asks for: when the free queue is empty the pool
serves the request for a batch, and then the size is 0 or the pool serves the
request for the block. -/
def NewHandle_succeeds (al : Allocator) (s : State) : Prop :=
  if s.HandleQueue = [] then
    (al.malloc s.pool (4 * HandleCount)).isSome = true
    ∧ (cpuGetDReg s 0 = 0
      ∨ (al.malloc (mplite_malloc al s (4 * HandleCount)).2.pool (cpuGetDReg s 0)).isSome = true)
  else
    cpuGetDReg s 0 = 0 ∨ (al.malloc s.pool (cpuGetDReg s 0)).isSome = true

/-- The number of handle batches a trap mints in state `s`: 1 for a `NewHandle`
that finds the free queue empty and gets a batch from the pool, 0 otherwise. -/
def minted (al : Allocator) (op : Op) (s : State) : Nat :=
  match op with
  | Op.NewHandle _ _ =>
    if s.HandleQueue = [] ∧ (al.malloc s.pool (4 * HandleCount)).isSome = true then 1 else 0
  | _ => 0

/-- The states reached from a successful `Init` by any sequence of traps, together
with the number of handle batches minted on the way: one by `Init`, and one by
every `NewHandle` that grows the table. -/
inductive ReachableCount (al : Allocator) (memorySize reserved : Nat) : Nat → State → Prop where
  | init (memory : Nat → Nat) (s : State) :
      Init al memory memorySize reserved = (true, s) →
      ReachableCount al memorySize reserved 1 s
  | step (n : Nat) (s : State) (op : Op) (code : Nat) (s' : State) :
      ReachableCount al memorySize reserved n s →
      runOp al op s = some (code, s') →
      ReachableCount al memorySize reserved (n + minted al op s) s'

/-- A byte copy in ascending order, `for (i = 0; i < count; ++i) m[dest + i] =
m[source + i]`, after `count` steps. -/
def copyUp (m : Nat → Nat) (dest source : Nat) : Nat → Nat → Nat
  | 0 => m
  | n + 1 => fun a =>
    if a = dest + n then copyUp m dest source n (source + n) else copyUp m dest source n a

/-- A byte copy in descending order, `for (i = count; i-- > 0; ) m[dest + i] =
m[source + i]`, for `count` steps. -/
def copyDown (m : Nat → Nat) (dest source : Nat) : Nat → Nat → Nat
  | 0 => m
  | n + 1 => copyDown (fun a => if a = dest + n then m (source + n) else m a) dest source n

instance NewPtr_succeeds.decidable (al : Allocator) (s : State) :
    Decidable (NewPtr_succeeds al s) := by
  unfold NewPtr_succeeds; infer_instance

instance DisposePtr_succeeds.decidable (s : State) : Decidable (DisposePtr_succeeds s) := by
  unfold DisposePtr_succeeds; infer_instance

instance DisposeHandle_succeeds.decidable (s : State) :
    Decidable (DisposeHandle_succeeds s) := by
  unfold DisposeHandle_succeeds; infer_instance

instance NewHandle_succeeds.decidable (al : Allocator) (s : State) :
    Decidable (NewHandle_succeeds al s) := by
  unfold NewHandle_succeeds; infer_instance

/-- The state after `Init` on a zeroed arena of 1 MiB whose pool region starts at
offset 0x0200, eight `NewHandle` traps of size 0, which take the identities
0x0200 to 0x021C, and a `NewPtr` of 0x10000 bytes, which the pool places at
offset 0x0400: the front of the free queue is 0x0220, the offset of the error
cell, and the next block the pool hands out is at offset 0x10400. -/
def lowState : State :=
  afterOps bumpAllocator
    (List.replicate 8 (Op.NewHandle 0 0) ++ [Op.NewPtr 0 0x10000])
    (Init bumpAllocator (fun _ => 0) 0x100000 0x0200).2

/-! ## Lemmas

### How the basic operations act on the fields of the state -/

section fields
variable (s : State)

@[simp] theorem cpuSetAReg_pool (i v : Nat) : (cpuSetAReg s i v).pool = s.pool := rfl
@[simp] theorem cpuSetAReg_Memory (i v : Nat) : (cpuSetAReg s i v).Memory = s.Memory := rfl
@[simp] theorem cpuSetAReg_MemorySize (i v : Nat) : (cpuSetAReg s i v).MemorySize = s.MemorySize := rfl
@[simp] theorem cpuSetAReg_HandleQueue (i v : Nat) : (cpuSetAReg s i v).HandleQueue = s.HandleQueue := rfl
@[simp] theorem cpuSetAReg_PtrMap (i v : Nat) : (cpuSetAReg s i v).PtrMap = s.PtrMap := rfl
@[simp] theorem cpuSetAReg_HandleMap (i v : Nat) : (cpuSetAReg s i v).HandleMap = s.HandleMap := rfl
@[simp] theorem cpuSetAReg_dReg (i v : Nat) : (cpuSetAReg s i v).dReg = s.dReg := rfl
@[simp] theorem cpuSetAReg_aReg_same (i v : Nat) : (cpuSetAReg s i v).aReg i = v := by
  simp [cpuSetAReg]

@[simp] theorem memoryWriteWord_pool (d a : Nat) : (memoryWriteWord s d a).pool = s.pool := by
  unfold memoryWriteWord; split <;> rfl
@[simp] theorem memoryWriteWord_MemorySize (d a : Nat) :
    (memoryWriteWord s d a).MemorySize = s.MemorySize := by
  unfold memoryWriteWord; split <;> rfl
@[simp] theorem memoryWriteWord_HandleQueue (d a : Nat) :
    (memoryWriteWord s d a).HandleQueue = s.HandleQueue := by
  unfold memoryWriteWord; split <;> rfl
@[simp] theorem memoryWriteWord_PtrMap (d a : Nat) : (memoryWriteWord s d a).PtrMap = s.PtrMap := by
  unfold memoryWriteWord; split <;> rfl
@[simp] theorem memoryWriteWord_HandleMap (d a : Nat) :
    (memoryWriteWord s d a).HandleMap = s.HandleMap := by
  unfold memoryWriteWord; split <;> rfl
@[simp] theorem memoryWriteWord_aReg (d a : Nat) : (memoryWriteWord s d a).aReg = s.aReg := by
  unfold memoryWriteWord; split <;> rfl
@[simp] theorem memoryWriteWord_dReg (d a : Nat) : (memoryWriteWord s d a).dReg = s.dReg := by
  unfold memoryWriteWord; split <;> rfl

@[simp] theorem memoryWriteLong_pool (d a : Nat) : (memoryWriteLong s d a).pool = s.pool := by
  unfold memoryWriteLong; split <;> rfl
@[simp] theorem memoryWriteLong_MemorySize (d a : Nat) :
    (memoryWriteLong s d a).MemorySize = s.MemorySize := by
  unfold memoryWriteLong; split <;> rfl
@[simp] theorem memoryWriteLong_HandleQueue (d a : Nat) :
    (memoryWriteLong s d a).HandleQueue = s.HandleQueue := by
  unfold memoryWriteLong; split <;> rfl
@[simp] theorem memoryWriteLong_PtrMap (d a : Nat) : (memoryWriteLong s d a).PtrMap = s.PtrMap := by
  unfold memoryWriteLong; split <;> rfl
@[simp] theorem memoryWriteLong_HandleMap (d a : Nat) :
    (memoryWriteLong s d a).HandleMap = s.HandleMap := by
  unfold memoryWriteLong; split <;> rfl
@[simp] theorem memoryWriteLong_aReg (d a : Nat) : (memoryWriteLong s d a).aReg = s.aReg := by
  unfold memoryWriteLong; split <;> rfl
@[simp] theorem memoryWriteLong_dReg (d a : Nat) : (memoryWriteLong s d a).dReg = s.dReg := by
  unfold memoryWriteLong; split <;> rfl

@[simp] theorem SetMemError_fst (e : Nat) : (SetMemError s e).1 = e := rfl
@[simp] theorem SetMemError_pool (e : Nat) : (SetMemError s e).2.pool = s.pool := by
  simp [SetMemError]
@[simp] theorem SetMemError_MemorySize (e : Nat) : (SetMemError s e).2.MemorySize = s.MemorySize := by
  simp [SetMemError]
@[simp] theorem SetMemError_HandleQueue (e : Nat) :
    (SetMemError s e).2.HandleQueue = s.HandleQueue := by
  simp [SetMemError]
@[simp] theorem SetMemError_PtrMap (e : Nat) : (SetMemError s e).2.PtrMap = s.PtrMap := by
  simp [SetMemError]
@[simp] theorem SetMemError_HandleMap (e : Nat) : (SetMemError s e).2.HandleMap = s.HandleMap := by
  simp [SetMemError]
@[simp] theorem SetMemError_aReg (e : Nat) : (SetMemError s e).2.aReg = s.aReg := by
  simp [SetMemError]
@[simp] theorem SetMemError_dReg (e : Nat) : (SetMemError s e).2.dReg = s.dReg := by
  simp [SetMemError]

end fields

theorem mapFind_cons {V : Type} (k' : Nat) (v : V) (m : List (Nat × V)) (k : Nat) :
    mapFind ((k', v) :: m) k = if k' = k then some v else mapFind m k := rfl

theorem mapErase_cons {V : Type} (k' : Nat) (v : V) (m : List (Nat × V)) (k : Nat) :
    mapErase ((k', v) :: m) k = if k' = k then mapErase m k else (k', v) :: mapErase m k := by
  by_cases h : k' = k <;> simp [mapErase, h]

theorem mapFind_erase_self {V : Type} (m : List (Nat × V)) (k : Nat) :
    mapFind (mapErase m k) k = none := by
  induction m with
  | nil => rfl
  | cons e m ih =>
    obtain ⟨k', v⟩ := e
    rw [mapErase_cons]
    split
    · exact ih
    · rw [mapFind_cons, if_neg (by assumption)]; exact ih

theorem mapFind_erase_ne {V : Type} (m : List (Nat × V)) (k j : Nat) (h : j ≠ k) :
    mapFind (mapErase m k) j = mapFind m j := by
  induction m with
  | nil => rfl
  | cons e m ih =>
    obtain ⟨k', v⟩ := e
    rw [mapErase_cons, mapFind_cons]
    by_cases hk : k' = k
    · rw [if_pos hk, if_neg (by omega)]; exact ih
    · rw [if_neg hk, mapFind_cons, ih]


section fieldsMore
variable (s : State)

@[simp] theorem cpuSetDReg_pool (i v : Nat) : (cpuSetDReg s i v).pool = s.pool := rfl
@[simp] theorem cpuSetDReg_Memory (i v : Nat) : (cpuSetDReg s i v).Memory = s.Memory := rfl
@[simp] theorem cpuSetDReg_MemorySize (i v : Nat) : (cpuSetDReg s i v).MemorySize = s.MemorySize := rfl
@[simp] theorem cpuSetDReg_HandleQueue (i v : Nat) : (cpuSetDReg s i v).HandleQueue = s.HandleQueue := rfl
@[simp] theorem cpuSetDReg_PtrMap (i v : Nat) : (cpuSetDReg s i v).PtrMap = s.PtrMap := rfl
@[simp] theorem cpuSetDReg_HandleMap (i v : Nat) : (cpuSetDReg s i v).HandleMap = s.HandleMap := rfl
@[simp] theorem cpuSetDReg_aReg (i v : Nat) : (cpuSetDReg s i v).aReg = s.aReg := rfl
@[simp] theorem cpuSetDReg_dReg_same (i v : Nat) : (cpuSetDReg s i v).dReg i = v := by
  simp [cpuSetDReg]

@[simp] theorem memset0_pool (p n : Nat) : (memset0 s p n).pool = s.pool := rfl
@[simp] theorem memset0_MemorySize (p n : Nat) : (memset0 s p n).MemorySize = s.MemorySize := rfl
@[simp] theorem memset0_HandleQueue (p n : Nat) : (memset0 s p n).HandleQueue = s.HandleQueue := rfl
@[simp] theorem memset0_PtrMap (p n : Nat) : (memset0 s p n).PtrMap = s.PtrMap := rfl
@[simp] theorem memset0_HandleMap (p n : Nat) : (memset0 s p n).HandleMap = s.HandleMap := rfl
@[simp] theorem memset0_aReg (p n : Nat) : (memset0 s p n).aReg = s.aReg := rfl
@[simp] theorem memset0_dReg (p n : Nat) : (memset0 s p n).dReg = s.dReg := rfl

@[simp] theorem memmove_pool (d p n : Nat) : (memmove s d p n).pool = s.pool := rfl
@[simp] theorem memmove_MemorySize (d p n : Nat) : (memmove s d p n).MemorySize = s.MemorySize := rfl
@[simp] theorem memmove_HandleQueue (d p n : Nat) :
    (memmove s d p n).HandleQueue = s.HandleQueue := rfl
@[simp] theorem memmove_PtrMap (d p n : Nat) : (memmove s d p n).PtrMap = s.PtrMap := rfl
@[simp] theorem memmove_HandleMap (d p n : Nat) : (memmove s d p n).HandleMap = s.HandleMap := rfl
@[simp] theorem memmove_aReg (d p n : Nat) : (memmove s d p n).aReg = s.aReg := rfl
@[simp] theorem memmove_dReg (d p n : Nat) : (memmove s d p n).dReg = s.dReg := rfl

@[simp] theorem mplite_free_pool (p : Nat) :
    (mplite_free s p).pool = { s.pool with calls := PoolCall.free p :: s.pool.calls } := rfl
@[simp] theorem mplite_free_Memory (p : Nat) : (mplite_free s p).Memory = s.Memory := rfl
@[simp] theorem mplite_free_MemorySize (p : Nat) : (mplite_free s p).MemorySize = s.MemorySize := rfl
@[simp] theorem mplite_free_HandleQueue (p : Nat) :
    (mplite_free s p).HandleQueue = s.HandleQueue := rfl
@[simp] theorem mplite_free_PtrMap (p : Nat) : (mplite_free s p).PtrMap = s.PtrMap := rfl
@[simp] theorem mplite_free_HandleMap (p : Nat) : (mplite_free s p).HandleMap = s.HandleMap := rfl
@[simp] theorem mplite_free_aReg (p : Nat) : (mplite_free s p).aReg = s.aReg := rfl
@[simp] theorem mplite_free_dReg (p : Nat) : (mplite_free s p).dReg = s.dReg := rfl

variable (al : Allocator)

@[simp] theorem mplite_malloc_fst (n : Nat) : (mplite_malloc al s n).1 = al.malloc s.pool n := rfl
@[simp] theorem mplite_malloc_pool (n : Nat) :
    (mplite_malloc al s n).2.pool =
      { s.pool with calls := PoolCall.malloc n (al.malloc s.pool n) :: s.pool.calls } := rfl
@[simp] theorem mplite_malloc_Memory (n : Nat) : (mplite_malloc al s n).2.Memory = s.Memory := rfl
@[simp] theorem mplite_malloc_MemorySize (n : Nat) :
    (mplite_malloc al s n).2.MemorySize = s.MemorySize := rfl
@[simp] theorem mplite_malloc_HandleQueue (n : Nat) :
    (mplite_malloc al s n).2.HandleQueue = s.HandleQueue := rfl
@[simp] theorem mplite_malloc_PtrMap (n : Nat) : (mplite_malloc al s n).2.PtrMap = s.PtrMap := rfl
@[simp] theorem mplite_malloc_HandleMap (n : Nat) :
    (mplite_malloc al s n).2.HandleMap = s.HandleMap := rfl
@[simp] theorem mplite_malloc_aReg (n : Nat) : (mplite_malloc al s n).2.aReg = s.aReg := rfl
@[simp] theorem mplite_malloc_dReg (n : Nat) : (mplite_malloc al s n).2.dReg = s.dReg := rfl

end fieldsMore

/-! ### Maps -/

theorem mapFind_none_iff {V : Type} (m : List (Nat × V)) (k : Nat) :
    mapFind m k = none ↔ k ∉ mapKeys m := by
  induction m with
  | nil => simp [mapFind, mapKeys]
  | cons e m ih =>
    obtain ⟨k', v⟩ := e
    rw [mapFind_cons]
    by_cases h : k' = k
    · simp [h, mapKeys]
    · rw [if_neg h, ih]
      have h2 : ¬ k = k' := fun e => h e.symm
      simp [mapKeys, h2]

theorem mapFind_some_mem {V : Type} (m : List (Nat × V)) (k : Nat) (v : V)
    (h : mapFind m k = some v) : (k, v) ∈ m := by
  induction m with
  | nil => simp [mapFind] at h
  | cons e m ih =>
    obtain ⟨k', v'⟩ := e
    rw [mapFind_cons] at h
    by_cases hk : k' = k
    · rw [if_pos hk] at h
      cases h
      simp [hk]
    · rw [if_neg hk] at h
      exact List.mem_cons_of_mem _ (ih h)

theorem mapFind_some_key {V : Type} (m : List (Nat × V)) (k : Nat) (v : V)
    (h : mapFind m k = some v) : k ∈ mapKeys m :=
  List.mem_map.mpr ⟨(k, v), mapFind_some_mem m k v h, rfl⟩

theorem mapKeys_erase_sublist {V : Type} (m : List (Nat × V)) (k : Nat) :
    (mapKeys (mapErase m k)).Sublist (mapKeys m) :=
  List.Sublist.map _ (List.filter_sublist m)

theorem not_mem_mapKeys_erase {V : Type} (m : List (Nat × V)) (k : Nat) :
    k ∉ mapKeys (mapErase m k) :=
  (mapFind_none_iff _ _).mp (mapFind_erase_self m k)

theorem mapErase_of_not_mem {V : Type} (m : List (Nat × V)) (k : Nat) (h : k ∉ mapKeys m) :
    mapErase m k = m := by
  unfold mapErase
  rw [List.filter_eq_self]
  intro e he
  have : e.1 ∈ mapKeys m := List.mem_map.mpr ⟨e, he, rfl⟩
  have hne : e.1 ≠ k := fun hh => h (hh ▸ this)
  simpa using hne

theorem mapErase_append {V : Type} (l1 l2 : List (Nat × V)) (k : Nat) :
    mapErase (l1 ++ l2) k = mapErase l1 k ++ mapErase l2 k := by
  simp [mapErase]

theorem mapFind_split {V : Type} (m : List (Nat × V)) (k : Nat) (v : V)
    (h : mapFind m k = some v) (hnd : (mapKeys m).Nodup) :
    ∃ l1 l2, m = l1 ++ (k, v) :: l2 ∧ mapErase m k = l1 ++ l2 := by
  induction m with
  | nil => simp [mapFind] at h
  | cons e m ih =>
    obtain ⟨k', v'⟩ := e
    have hnd2 : k' ∉ mapKeys m ∧ (mapKeys m).Nodup := by
      simpa [mapKeys] using hnd
    rw [mapFind_cons] at h
    by_cases hk : k' = k
    · rw [if_pos hk] at h
      cases h
      subst hk
      refine ⟨[], m, rfl, ?_⟩
      rw [mapErase_cons, if_pos rfl]
      simpa using mapErase_of_not_mem m k' hnd2.1
    · rw [if_neg hk] at h
      obtain ⟨l1, l2, h1, h2⟩ := ih h hnd2.2
      refine ⟨(k', v') :: l1, l2, by simp [h1], ?_⟩
      rw [mapErase_cons, if_neg hk, h2]
      rfl

theorem mapEmplace_of_not_mem {V : Type} (m : List (Nat × V)) (k : Nat) (v : V)
    (h : k ∉ mapKeys m) : mapEmplace m k v = (k, v) :: m := by
  unfold mapEmplace
  rw [(mapFind_none_iff m k).mpr h]

theorem ownedBlocks_append (l1 l2 : List (Nat × HandleInfo)) :
    ownedBlocks (l1 ++ l2) = ownedBlocks l1 ++ ownedBlocks l2 := by
  simp [ownedBlocks]

theorem ownedBlocks_cons (h : Nat) (info : HandleInfo) (m : List (Nat × HandleInfo)) :
    ownedBlocks ((h, info) :: m) =
      if info.address = 0 then ownedBlocks m else info.address :: ownedBlocks m := by
  by_cases h0 : info.address = 0 <;> simp [ownedBlocks, h0]

theorem ownedBlocks_erase_sublist (m : List (Nat × HandleInfo)) (k : Nat) :
    (ownedBlocks (mapErase m k)).Sublist (ownedBlocks m) :=
  List.Sublist.filter _ (List.Sublist.map _ (List.filter_sublist m))

theorem mem_ownedBlocks_pos (m : List (Nat × HandleInfo)) (x : Nat) (h : x ∈ ownedBlocks m) :
    x ≠ 0 := by
  simpa using (List.mem_filter.mp h).2

/-! ### The pool history -/

theorem liveSpans_free (q : Nat) (calls : List PoolCall) :
    liveSpans (PoolCall.free q :: calls) =
      (liveSpans calls).filter (fun e => decide (e.1 ≠ q)) := rfl

theorem liveSpans_malloc_some (n p : Nat) (calls : List PoolCall) :
    liveSpans (PoolCall.malloc n (some p) :: calls) = (p, n) :: liveSpans calls := rfl

theorem liveSpans_malloc_none (n : Nat) (calls : List PoolCall) :
    liveSpans (PoolCall.malloc n none :: calls) = liveSpans calls := rfl

theorem mem_liveSpans_free (q : Nat) (calls : List PoolCall) (e : Nat × Nat) :
    e ∈ liveSpans (PoolCall.free q :: calls) ↔ e ∈ liveSpans calls ∧ e.1 ≠ q := by
  rw [liveSpans_free, List.mem_filter]
  simp

theorem mem_offsets_free (q x : Nat) (calls : List PoolCall)
    (hx : x ∈ (liveSpans calls).map Prod.fst) (hne : x ≠ q) :
    x ∈ (liveSpans (PoolCall.free q :: calls)).map Prod.fst := by
  obtain ⟨e, he, rfl⟩ := List.mem_map.mp hx
  exact List.mem_map.mpr ⟨e, (mem_liveSpans_free q calls e).mpr ⟨he, hne⟩, rfl⟩

theorem SpanDisjoint_symm (e1 e2 : Nat × Nat) (h : SpanDisjoint e1 e2) : SpanDisjoint e2 e1 :=
  Or.symm h

/-- A block handed out by a pool that keeps its contract does not start where a
live block of positive size starts. -/
theorem fresh_offset (al : Allocator) (hal : AllocOK al) (pool : Pool) (n p : Nat)
    (hm : al.malloc pool n = some p) (hn : 0 < n)
    (hpos : ∀ e ∈ liveSpans pool.calls, 0 < e.2) :
    p ∉ (liveSpans pool.calls).map Prod.fst := by
  intro hmem
  obtain ⟨e, he, hep⟩ := List.mem_map.mp hmem
  have hd := (hal pool n p hm).2.2 e he
  have := hpos e he
  unfold SpanDisjoint at hd
  simp only at hd
  omega

/-! ### The handle cells of a batch -/

theorem pushHandles_eq (n : Nat) : ∀ (fuel hh : Nat) (q : List Nat),
    n ≤ fuel → hh + 4 * n < 2 ^ 32 →
    pushHandles fuel hh (hh + 4 * n) q = q ++ (List.range n).map (fun i => hh + 4 * i) := by
  induction n with
  | zero =>
    intro fuel hh q _ _
    cases fuel <;> simp [pushHandles]
  | succ n ih =>
    intro fuel hh q hf hlt
    cases fuel with
    | zero => omega
    | succ fuel =>
      have h1 : hh < hh + 4 * (n + 1) := by omega
      have h2 : u32 (hh + 4) = hh + 4 := by
        unfold u32; exact Nat.mod_eq_of_lt (by omega)
      have h3 : hh + 4 * (n + 1) = (hh + 4) + 4 * n := by ring
      rw [pushHandles, if_pos h1, h2, h3, ih fuel (hh + 4) (q ++ [hh]) (by omega) (by omega)]
      rw [List.range_succ_eq_map, List.map_cons, List.map_map, List.append_assoc]
      congr 1
      simp only [List.singleton_append, Nat.mul_zero, Nat.add_zero, List.cons.injEq, true_and]
      apply List.map_congr_left
      intro i _
      simp only [Function.comp, Nat.succ_eq_add_one]
      ring

theorem mem_batchSlots (b x : Nat) :
    x ∈ batchSlots b ↔ ∃ i, i < HandleCount ∧ x = b + 4 * i := by
  unfold batchSlots
  simp only [List.mem_map, List.mem_range]
  constructor
  · rintro ⟨i, hi, rfl⟩; exact ⟨i, hi, rfl⟩
  · rintro ⟨i, hi, rfl⟩; exact ⟨i, hi, rfl⟩

theorem batchSlots_nodup (b : Nat) : (batchSlots b).Nodup := by
  unfold batchSlots
  apply List.Nodup.map
  · intro i j h
    simp only at h
    omega
  · exact List.nodup_range _

theorem batchSlots_length (b : Nat) : (batchSlots b).length = 128 := by
  simp [batchSlots, HandleCount]

/-! ### Consequences of the invariant -/

theorem Inv.batch_bounds {s : State} {B : List Nat} (h : Inv s B) (b : Nat) (hb : b ∈ B) :
    s.pool.start ≤ b ∧ b + 4 * HandleCount ≤ s.pool.start + s.pool.len := by
  have := h.live_in _ (h.batches_live b hb)
  exact ⟨this.1, this.2.1⟩

theorem Inv.batches_nodup {s : State} {B : List Nat} (h : Inv s B) : B.Nodup :=
  (List.nodup_append.mp h.held_nodup).1

theorem Inv.batches_offsets {s : State} {B : List Nat} (h : Inv s B) (b : Nat) (hb : b ∈ B) :
    b ∈ (liveSpans s.pool.calls).map Prod.fst :=
  List.mem_map.mpr ⟨_, h.batches_live b hb, rfl⟩

theorem Inv.batches_disjoint {s : State} {B : List Nat} (h : Inv s B) (b1 b2 : Nat)
    (h1 : b1 ∈ B) (h2 : b2 ∈ B) (hne : b1 ≠ b2) :
    b1 + 4 * HandleCount ≤ b2 ∨ b2 + 4 * HandleCount ≤ b1 := by
  have hsym : Symmetric SpanDisjoint := fun a b hab => SpanDisjoint_symm a b hab
  have hne2 : (b1, 4 * HandleCount) ≠ (b2, 4 * HandleCount) := by
    intro heq
    exact hne (congrArg Prod.fst heq)
  exact h.live_disj.forall hsym (h.batches_live b1 h1) (h.batches_live b2 h2) hne2

theorem Inv.slots_nodup {s : State} {B : List Nat} (h : Inv s B) :
    (B.flatMap batchSlots).Nodup := by
  rw [List.nodup_flatMap]
  refine ⟨fun b _ => batchSlots_nodup b, ?_⟩
  apply h.batches_nodup.pairwise_of_forall_ne
  intro b1 h1 b2 h2 hne
  have hd := h.batches_disjoint b1 b2 h1 h2 hne
  simp only [Function.onFun]
  rw [List.disjoint_left]
  intro x hx1 hx2
  obtain ⟨i, hi, rfl⟩ := (mem_batchSlots b1 x).mp hx1
  obtain ⟨j, hj, hx⟩ := (mem_batchSlots b2 _).mp hx2
  unfold HandleCount at *
  omega

theorem Inv.ids_nodup {s : State} {B : List Nat} (h : Inv s B) :
    (s.HandleQueue ++ mapKeys s.HandleMap).Nodup :=
  (h.ids.nodup_iff).mpr h.slots_nodup

theorem Inv.handle_keys_nodup {s : State} {B : List Nat} (h : Inv s B) :
    (mapKeys s.HandleMap).Nodup :=
  (List.nodup_append.mp h.ids_nodup).2.1

theorem Inv.queue_nodup {s : State} {B : List Nat} (h : Inv s B) : s.HandleQueue.Nodup :=
  (List.nodup_append.mp h.ids_nodup).1

theorem Inv.ptr_keys_nodup {s : State} {B : List Nat} (h : Inv s B) :
    (mapKeys s.PtrMap).Nodup :=
  (List.nodup_append.mp (List.nodup_append.mp h.held_nodup).2.1).1

theorem Inv.offset_pos {s : State} {B : List Nat} (h : Inv s B) (x : Nat)
    (hx : x ∈ (liveSpans s.pool.calls).map Prod.fst) : 0 < x := by
  obtain ⟨e, he, rfl⟩ := List.mem_map.mp hx
  have := h.live_in e he
  have := h.start_pos
  omega

theorem Inv.held_offsets {s : State} {B : List Nat} (h : Inv s B) (x : Nat)
    (hx : x ∈ B ++ (mapKeys s.PtrMap ++ ownedBlocks s.HandleMap)) :
    x ∈ (liveSpans s.pool.calls).map Prod.fst := by
  rcases List.mem_append.mp hx with hb | hr
  · exact h.batches_offsets x hb
  · exact h.held_live x hr

/-! ### Preservation of the invariant by the changes the traps make -/

/-- The live blocks, the two maps and the identities in the queue stay the same;
the order of the queue may change. -/
theorem Inv.of_perm {s s' : State} {B : List Nat} (h : Inv s B)
    (hst : s'.pool.start = s.pool.start) (hlen : s'.pool.len = s.pool.len)
    (hlive : liveSpans s'.pool.calls = liveSpans s.pool.calls)
    (hms : s'.MemorySize = s.MemorySize)
    (hq : s'.HandleQueue.Perm s.HandleQueue) (hpm : s'.PtrMap = s.PtrMap)
    (hhm : s'.HandleMap = s.HandleMap) : Inv s' B where
  start_pos := by rw [hst]; exact h.start_pos
  region := by rw [hst, hlen, hms]; exact h.region
  memsize := by rw [hms]; exact h.memsize
  live_in := by rw [hst, hlen, hlive]; exact h.live_in
  live_disj := by rw [hlive]; exact h.live_disj
  batches_live := by rw [hlive]; exact h.batches_live
  held_nodup := by rw [hpm, hhm]; exact h.held_nodup
  held_live := by rw [hlive, hpm, hhm]; exact h.held_live
  ids := by rw [hhm]; exact (List.Perm.append_right _ hq).trans h.ids

/-- A direct block is released: its record is erased and its offset freed. -/
theorem Inv.free_ptr {s s' : State} {B : List Nat} (h : Inv s B) (k : Nat)
    (hk : k ∈ mapKeys s.PtrMap)
    (hst : s'.pool.start = s.pool.start) (hlen : s'.pool.len = s.pool.len)
    (hcalls : s'.pool.calls = PoolCall.free k :: s.pool.calls)
    (hms : s'.MemorySize = s.MemorySize)
    (hq : s'.HandleQueue = s.HandleQueue) (hpm : s'.PtrMap = mapErase s.PtrMap k)
    (hhm : s'.HandleMap = s.HandleMap) : Inv s' B where
  start_pos := by rw [hst]; exact h.start_pos
  region := by rw [hst, hlen, hms]; exact h.region
  memsize := by rw [hms]; exact h.memsize
  live_in := by
    rw [hst, hlen, hcalls]
    intro e he
    exact h.live_in e ((mem_liveSpans_free k _ e).mp he).1
  live_disj := by
    rw [hcalls, liveSpans_free]
    exact h.live_disj.sublist (List.filter_sublist _)
  batches_live := by
    rw [hcalls]
    intro b hb
    refine (mem_liveSpans_free k _ _).mpr ⟨h.batches_live b hb, ?_⟩
    have hd := List.disjoint_of_nodup_append h.held_nodup
    intro hbk
    have hbk2 : b = k := hbk
    exact hd hb (List.mem_append_left _ (hbk2 ▸ hk))
  held_nodup := by
    rw [hpm, hhm]
    exact h.held_nodup.sublist
      ((List.Sublist.refl B).append
        ((mapKeys_erase_sublist s.PtrMap k).append (List.Sublist.refl _)))
  held_live := by
    rw [hcalls, hpm, hhm]
    intro x hx
    have hd := List.disjoint_of_nodup_append (List.nodup_append.mp h.held_nodup).2.1
    rcases List.mem_append.mp hx with hx1 | hx2
    · refine mem_offsets_free k x _
        (h.held_live x (List.mem_append_left _ ((mapKeys_erase_sublist _ k).subset hx1))) ?_
      intro hxk
      exact not_mem_mapKeys_erase s.PtrMap k (hxk ▸ hx1)
    · refine mem_offsets_free k x _ (h.held_live x (List.mem_append_right _ hx2)) ?_
      intro hxk
      exact hd hk (hxk ▸ hx2)
  ids := by rw [hq, hhm]; exact h.ids

/-- A handle is released: its record is erased, the recorded address freed and
the identity appended to the queue. -/
theorem Inv.free_handle {s s' : State} {B : List Nat} (h : Inv s B) (hh : Nat)
    (info : HandleInfo) (hfind : mapFind s.HandleMap hh = some info)
    (hst : s'.pool.start = s.pool.start) (hlen : s'.pool.len = s.pool.len)
    (hcalls : s'.pool.calls = PoolCall.free info.address :: s.pool.calls)
    (hms : s'.MemorySize = s.MemorySize)
    (hq : s'.HandleQueue = s.HandleQueue ++ [hh]) (hpm : s'.PtrMap = s.PtrMap)
    (hhm : s'.HandleMap = mapErase s.HandleMap hh) : Inv s' B := by
  obtain ⟨l1, l2, hsplit, herase⟩ := mapFind_split _ _ _ hfind h.handle_keys_nodup
  have hnd := h.held_nodup
  rw [hsplit, ownedBlocks_append, ownedBlocks_cons] at hnd
  -- the freed address is not the offset of anything still held
  have key : ∀ x ∈ B ++ (mapKeys s.PtrMap ++ (ownedBlocks l1 ++ ownedBlocks l2)),
      x ≠ info.address := by
    intro x hx hxa
    have hpos : 0 < x := by
      apply h.offset_pos x
      apply h.held_offsets x
      rw [hsplit, ownedBlocks_append, ownedBlocks_cons]
      split
      · exact hx
      · simp only [List.mem_append, List.mem_cons] at hx ⊢
        tauto
    have ha : info.address ≠ 0 := by omega
    rw [if_neg ha] at hnd
    have hperm : (B ++ (mapKeys s.PtrMap ++ (ownedBlocks l1 ++ info.address :: ownedBlocks l2))).Perm
        (info.address :: (B ++ (mapKeys s.PtrMap ++ (ownedBlocks l1 ++ ownedBlocks l2)))) := by
      rw [← List.append_assoc, ← List.append_assoc, ← List.append_assoc, ← List.append_assoc]
      exact List.perm_middle
    have hnd2 := (hperm.nodup_iff).mp hnd
    exact (List.nodup_cons.mp hnd2).1 (hxa ▸ hx)
  have hown : ownedBlocks (mapErase s.HandleMap hh) = ownedBlocks l1 ++ ownedBlocks l2 := by
    rw [herase, ownedBlocks_append]
  exact {
    start_pos := by rw [hst]; exact h.start_pos
    region := by rw [hst, hlen, hms]; exact h.region
    memsize := by rw [hms]; exact h.memsize
    live_in := by
      rw [hst, hlen, hcalls]
      intro e he
      exact h.live_in e ((mem_liveSpans_free _ _ e).mp he).1
    live_disj := by
      rw [hcalls, liveSpans_free]
      exact h.live_disj.sublist (List.filter_sublist _)
    batches_live := by
      rw [hcalls]
      intro b hb
      exact (mem_liveSpans_free _ _ _).mpr
        ⟨h.batches_live b hb, key b (List.mem_append_left _ hb)⟩
    held_nodup := by
      rw [hpm, hhm]
      exact h.held_nodup.sublist
        ((List.Sublist.refl B).append
          ((List.Sublist.refl _).append (ownedBlocks_erase_sublist s.HandleMap hh)))
    held_live := by
      rw [hcalls, hpm, hhm]
      intro x hx
      have hx0 : x ∈ mapKeys s.PtrMap ++ ownedBlocks s.HandleMap := by
        rcases List.mem_append.mp hx with hx1 | hx2
        · exact List.mem_append_left _ hx1
        · exact List.mem_append_right _ ((ownedBlocks_erase_sublist _ hh).subset hx2)
      refine mem_offsets_free _ x _ (h.held_live x hx0) ?_
      rw [hown] at hx
      exact key x (List.mem_append_right _ hx)
    ids := by
      rw [hq, hhm, herase]
      refine List.Perm.trans ?_ h.ids
      rw [hsplit]
      simp only [mapKeys, List.map_append, List.map_cons, List.append_assoc]
      refine List.Perm.append_left _ ?_
      simp only [List.singleton_append]
      exact List.perm_middle.symm }

theorem Inv.u32_offset {s : State} {B : List Nat} (h : Inv s B) {al : Allocator}
    (hal : AllocOK al) {n p : Nat} (hm : al.malloc s.pool n = some p) : u32 p = p := by
  have h1 := hal s.pool n p hm
  have h2 := h.region
  have h3 := h.memsize
  unfold u32
  exact Nat.mod_eq_of_lt (by omega)

theorem Inv.fresh {s : State} {B : List Nat} (h : Inv s B) {al : Allocator}
    (hal : AllocOK al) {n p : Nat} (hm : al.malloc s.pool n = some p) (hn : 0 < n) :
    p ∉ B ++ (mapKeys s.PtrMap ++ ownedBlocks s.HandleMap) := by
  intro hmem
  exact fresh_offset al hal s.pool n p hm hn (fun e he => (h.live_in e he).2.2)
    (h.held_offsets p hmem)

/-- The live blocks after a successful `malloc` still lie in the region, have
positive size and are pairwise disjoint. -/
theorem Inv.live_after_malloc {s : State} {B : List Nat} (h : Inv s B) {al : Allocator}
    (hal : AllocOK al) {n p : Nat} (hm : al.malloc s.pool n = some p) (hn : 0 < n) :
    (∀ e ∈ (p, n) :: liveSpans s.pool.calls,
      s.pool.start ≤ e.1 ∧ e.1 + e.2 ≤ s.pool.start + s.pool.len ∧ 0 < e.2)
    ∧ ((p, n) :: liveSpans s.pool.calls).Pairwise SpanDisjoint := by
  have h1 := hal s.pool n p hm
  constructor
  · intro e he
    rcases List.mem_cons.mp he with rfl | he2
    · exact ⟨h1.1, h1.2.1, hn⟩
    · exact h.live_in e he2
  · exact List.pairwise_cons.mpr ⟨h1.2.2, h.live_disj⟩

/-- A direct block is allocated and recorded. -/
theorem Inv.new_ptr {s s' : State} {B : List Nat} (h : Inv s B) {al : Allocator}
    (hal : AllocOK al) {n p : Nat} (hm : al.malloc s.pool n = some p) (hn : 0 < n)
    (hst : s'.pool.start = s.pool.start) (hlen : s'.pool.len = s.pool.len)
    (hcalls : s'.pool.calls = PoolCall.malloc n (some p) :: s.pool.calls)
    (hms : s'.MemorySize = s.MemorySize)
    (hq : s'.HandleQueue = s.HandleQueue)
    (hpm : s'.PtrMap = mapEmplace s.PtrMap (u32 p) n)
    (hhm : s'.HandleMap = s.HandleMap) : Inv s' B := by
  have hfresh := h.fresh hal hm hn
  have hlive := h.live_after_malloc hal hm hn
  have hpk : p ∉ mapKeys s.PtrMap := fun hx =>
    hfresh (List.mem_append_right _ (List.mem_append_left _ hx))
  rw [h.u32_offset hal hm, mapEmplace_of_not_mem _ _ _ hpk] at hpm
  exact {
    start_pos := by rw [hst]; exact h.start_pos
    region := by rw [hst, hlen, hms]; exact h.region
    memsize := by rw [hms]; exact h.memsize
    live_in := by rw [hst, hlen, hcalls]; exact hlive.1
    live_disj := by rw [hcalls]; exact hlive.2
    batches_live := by
      rw [hcalls]
      intro b hb
      exact List.mem_cons_of_mem _ (h.batches_live b hb)
    held_nodup := by
      rw [hpm, hhm]
      have hperm : (B ++ (mapKeys ((p, n) :: s.PtrMap) ++ ownedBlocks s.HandleMap)).Perm
          (p :: (B ++ (mapKeys s.PtrMap ++ ownedBlocks s.HandleMap))) := by
        simp only [mapKeys, List.map_cons, List.cons_append]
        exact List.perm_middle
      exact (hperm.nodup_iff).mpr (List.nodup_cons.mpr ⟨hfresh, h.held_nodup⟩)
    held_live := by
      rw [hcalls, hpm, hhm, liveSpans_malloc_some]
      intro x hx
      simp only [mapKeys, List.map_cons, List.cons_append, List.mem_cons] at hx ⊢
      rcases hx with rfl | hx
      · exact Or.inl rfl
      · exact Or.inr (h.held_live x hx)
    ids := by rw [hq, hhm]; exact h.ids }

/-- The identity at the front of the queue becomes a live handle that owns the
block just allocated. -/
theorem Inv.new_handle_block {s s' : State} {B : List Nat} (h : Inv s B) {al : Allocator}
    (hal : AllocOK al) {n p : Nat} (hm : al.malloc s.pool n = some p) (hn : 0 < n)
    (hh : Nat) (rest : List Nat) (hq0 : s.HandleQueue = hh :: rest)
    (hst : s'.pool.start = s.pool.start) (hlen : s'.pool.len = s.pool.len)
    (hcalls : s'.pool.calls = PoolCall.malloc n (some p) :: s.pool.calls)
    (hms : s'.MemorySize = s.MemorySize)
    (hq : s'.HandleQueue = rest) (hpm : s'.PtrMap = s.PtrMap)
    (hhm : s'.HandleMap = mapEmplace s.HandleMap hh ⟨u32 p, n⟩) : Inv s' B := by
  have hfresh := h.fresh hal hm hn
  have hlive := h.live_after_malloc hal hm hn
  have hp0 : p ≠ 0 := by
    have := (hal s.pool n p hm).1
    have := h.start_pos
    omega
  have hidn := h.ids_nodup
  rw [hq0] at hidn
  have hhk : hh ∉ mapKeys s.HandleMap := fun hx =>
    (List.nodup_cons.mp hidn).1 (List.mem_append_right _ hx)
  rw [h.u32_offset hal hm, mapEmplace_of_not_mem _ _ _ hhk] at hhm
  have hown : ownedBlocks s'.HandleMap = p :: ownedBlocks s.HandleMap := by
    rw [hhm, ownedBlocks_cons, if_neg hp0]
  exact {
    start_pos := by rw [hst]; exact h.start_pos
    region := by rw [hst, hlen, hms]; exact h.region
    memsize := by rw [hms]; exact h.memsize
    live_in := by rw [hst, hlen, hcalls]; exact hlive.1
    live_disj := by rw [hcalls]; exact hlive.2
    batches_live := by
      rw [hcalls]
      intro b hb
      exact List.mem_cons_of_mem _ (h.batches_live b hb)
    held_nodup := by
      rw [hpm, hown]
      have hperm : (B ++ (mapKeys s.PtrMap ++ p :: ownedBlocks s.HandleMap)).Perm
          (p :: (B ++ (mapKeys s.PtrMap ++ ownedBlocks s.HandleMap))) := by
        rw [← List.append_assoc, ← List.append_assoc]
        exact List.perm_middle
      exact (hperm.nodup_iff).mpr (List.nodup_cons.mpr ⟨hfresh, h.held_nodup⟩)
    held_live := by
      rw [hcalls, hpm, hown, liveSpans_malloc_some]
      intro x hx
      simp only [List.mem_append, List.mem_cons, List.map_cons] at hx ⊢
      rcases hx with hx | rfl | hx
      · exact Or.inr (h.held_live x (List.mem_append_left _ hx))
      · exact Or.inl rfl
      · exact Or.inr (h.held_live x (List.mem_append_right _ hx))
    ids := by
      rw [hq, hhm]
      refine List.Perm.trans ?_ h.ids
      rw [hq0]
      simp only [mapKeys, List.map_cons, List.cons_append]
      exact List.perm_middle }

/-- The identity at the front of the queue becomes a live handle without a block. -/
theorem Inv.new_handle_empty {s s' : State} {B : List Nat} (h : Inv s B) (n : Nat)
    (hh : Nat) (rest : List Nat) (hq0 : s.HandleQueue = hh :: rest)
    (hp : s'.pool = s.pool) (hms : s'.MemorySize = s.MemorySize)
    (hq : s'.HandleQueue = rest) (hpm : s'.PtrMap = s.PtrMap)
    (hhm : s'.HandleMap = mapEmplace s.HandleMap hh ⟨0, n⟩) : Inv s' B := by
  have hidn := h.ids_nodup
  rw [hq0] at hidn
  have hhk : hh ∉ mapKeys s.HandleMap := fun hx =>
    (List.nodup_cons.mp hidn).1 (List.mem_append_right _ hx)
  rw [mapEmplace_of_not_mem _ _ _ hhk] at hhm
  have hown : ownedBlocks s'.HandleMap = ownedBlocks s.HandleMap := by
    rw [hhm, ownedBlocks_cons, if_pos rfl]
  exact {
    start_pos := by rw [hp]; exact h.start_pos
    region := by rw [hp, hms]; exact h.region
    memsize := by rw [hms]; exact h.memsize
    live_in := by rw [hp]; exact h.live_in
    live_disj := by rw [hp]; exact h.live_disj
    batches_live := by rw [hp]; exact h.batches_live
    held_nodup := by rw [hpm, hown]; exact h.held_nodup
    held_live := by rw [hp, hpm, hown]; exact h.held_live
    ids := by
      rw [hq, hhm]
      refine List.Perm.trans ?_ h.ids
      rw [hq0]
      simp only [mapKeys, List.map_cons, List.cons_append]
      exact List.perm_middle }

/-- A new batch of handle cells is minted. -/
theorem Inv.new_batch {s s' : State} {B : List Nat} (h : Inv s B) {al : Allocator}
    (hal : AllocOK al) {b : Nat} (hm : al.malloc s.pool (4 * HandleCount) = some b)
    (hst : s'.pool.start = s.pool.start) (hlen : s'.pool.len = s.pool.len)
    (hcalls : s'.pool.calls = PoolCall.malloc (4 * HandleCount) (some b) :: s.pool.calls)
    (hms : s'.MemorySize = s.MemorySize)
    (hq : s'.HandleQueue = s.HandleQueue ++ batchSlots b) (hpm : s'.PtrMap = s.PtrMap)
    (hhm : s'.HandleMap = s.HandleMap) : Inv s' (B ++ [b]) := by
  have hn : 0 < 4 * HandleCount := by decide
  have hfresh := h.fresh hal hm hn
  have hlive := h.live_after_malloc hal hm hn
  exact {
    start_pos := by rw [hst]; exact h.start_pos
    region := by rw [hst, hlen, hms]; exact h.region
    memsize := by rw [hms]; exact h.memsize
    live_in := by rw [hst, hlen, hcalls]; exact hlive.1
    live_disj := by rw [hcalls]; exact hlive.2
    batches_live := by
      rw [hcalls, liveSpans_malloc_some]
      intro x hx
      rcases List.mem_append.mp hx with hx | hx
      · exact List.mem_cons_of_mem _ (h.batches_live x hx)
      · rw [List.mem_singleton.mp hx]
        exact List.mem_cons_self _ _
    held_nodup := by
      rw [hpm, hhm]
      have hperm : ((B ++ [b]) ++ (mapKeys s.PtrMap ++ ownedBlocks s.HandleMap)).Perm
          (b :: (B ++ (mapKeys s.PtrMap ++ ownedBlocks s.HandleMap))) := by
        simp only [List.append_assoc, List.singleton_append]
        exact List.perm_middle
      exact (hperm.nodup_iff).mpr (List.nodup_cons.mpr ⟨hfresh, h.held_nodup⟩)
    held_live := by
      rw [hcalls, hpm, hhm, liveSpans_malloc_some]
      intro x hx
      exact List.mem_map.mpr
        (by
          obtain ⟨e, he, hex⟩ := List.mem_map.mp (h.held_live x hx)
          exact ⟨e, List.mem_cons_of_mem _ he, hex⟩)
    ids := by
      rw [hq, hhm, List.flatMap_append]
      simp only [List.flatMap_cons, List.flatMap_nil, List.append_nil]
      refine List.Perm.trans ?_ (List.Perm.append_right _ h.ids)
      rw [List.append_assoc, List.append_assoc]
      exact List.Perm.append_left _ List.perm_append_comm }

/-- The queue after the loop of `alloc_handle_block`, for a batch handed out by a
pool that keeps its contract. -/
theorem Inv.pushHandles_batch {s : State} {B : List Nat} (h : Inv s B) {al : Allocator}
    (hal : AllocOK al) {b : Nat} (hm : al.malloc s.pool (4 * HandleCount) = some b)
    (q : List Nat) :
    pushHandles (2 ^ 32) (u32 b) (u32 (u32 b + 128 * 4)) q = q ++ batchSlots b := by
  have h1 := hal s.pool _ b hm
  have h2 := h.region
  have h3 := h.memsize
  have hc : 4 * HandleCount = 512 := by decide
  rw [hc] at h1
  have hb : u32 b = b := h.u32_offset hal hm
  have he : u32 (b + 128 * 4) = b + 4 * 128 := by
    unfold u32; exact Nat.mod_eq_of_lt (by omega)
  rw [hb, he, pushHandles_eq 128 _ b q (by norm_num) (by omega)]
  rfl

/-! ### The traps, branch by branch -/

section
variable (s : State) (c : Bool) (p n : Nat)

@[simp] theorem clear_pool : (if c = true then memset0 s p n else s).pool = s.pool := by
  split <;> rfl
@[simp] theorem clear_MemorySize :
    (if c = true then memset0 s p n else s).MemorySize = s.MemorySize := by
  split <;> rfl
@[simp] theorem clear_HandleQueue :
    (if c = true then memset0 s p n else s).HandleQueue = s.HandleQueue := by
  split <;> rfl
@[simp] theorem clear_PtrMap : (if c = true then memset0 s p n else s).PtrMap = s.PtrMap := by
  split <;> rfl
@[simp] theorem clear_HandleMap :
    (if c = true then memset0 s p n else s).HandleMap = s.HandleMap := by
  split <;> rfl
@[simp] theorem clear_aReg : (if c = true then memset0 s p n else s).aReg = s.aReg := by
  split <;> rfl
@[simp] theorem clear_dReg : (if c = true then memset0 s p n else s).dReg = s.dReg := by
  split <;> rfl
end

theorem DisposePtr_absent (t : Nat) (s : State) (h : mapFind s.PtrMap (cpuGetAReg s 0) = none) :
    DisposePtr t s = SetMemError s memWZErr := by
  simp [DisposePtr, h]

theorem DisposePtr_present (t : Nat) (s : State) (sz : Nat)
    (h : mapFind s.PtrMap (cpuGetAReg s 0) = some sz) :
    DisposePtr t s = SetMemError
      (mplite_free { s with PtrMap := mapErase s.PtrMap (cpuGetAReg s 0) } (cpuGetAReg s 0)) 0 := by
  simp [DisposePtr, h]

theorem DisposeHandle_absent (t : Nat) (s : State)
    (h : mapFind s.HandleMap (cpuGetAReg s 0) = none) :
    DisposeHandle t s = SetMemError s memWZErr := by
  simp [DisposeHandle, h]

theorem DisposeHandle_present (t : Nat) (s : State) (info : HandleInfo)
    (h : mapFind s.HandleMap (cpuGetAReg s 0) = some info) :
    DisposeHandle t s = SetMemError
      { mplite_free { s with HandleMap := mapErase s.HandleMap (cpuGetAReg s 0) } info.address with
        HandleQueue := s.HandleQueue ++ [cpuGetAReg s 0] } 0 := by
  simp [DisposeHandle, h]

theorem NewPtr_zero (al : Allocator) (t : Nat) (s : State) (h0 : cpuGetDReg s 0 = 0) :
    NewPtr al t s = SetMemError (cpuSetAReg s 0 0) 0 := by
  simp [NewPtr, h0]

theorem NewPtr_fail (al : Allocator) (t : Nat) (s : State) (h0 : cpuGetDReg s 0 ≠ 0)
    (hm : al.malloc s.pool (cpuGetDReg s 0) = none) :
    NewPtr al t s =
      SetMemError (cpuSetAReg (mplite_malloc al s (cpuGetDReg s 0)).2 0 0) memFullErr := by
  simp [NewPtr, h0, hm]

theorem NewPtr_ok (al : Allocator) (t : Nat) (s : State) (p : Nat) (h0 : cpuGetDReg s 0 ≠ 0)
    (hm : al.malloc s.pool (cpuGetDReg s 0) = some p) :
    NewPtr al t s =
      SetMemError (cpuSetAReg
        { (if clearFlag t = true
            then memset0 (mplite_malloc al s (cpuGetDReg s 0)).2 p (cpuGetDReg s 0)
            else (mplite_malloc al s (cpuGetDReg s 0)).2) with
          PtrMap := mapEmplace s.PtrMap (u32 p) (cpuGetDReg s 0) } 0 (u32 p)) 0 := by
  simp only [NewPtr, if_neg h0, mplite_malloc_fst, hm, clear_PtrMap, mplite_malloc_PtrMap]

theorem alloc_handle_block_fail (al : Allocator) (s : State)
    (hm : al.malloc s.pool (4 * HandleCount) = none) :
    alloc_handle_block al s = (false, (mplite_malloc al s (4 * HandleCount)).2) := by
  simp [alloc_handle_block, hm]

theorem alloc_handle_block_ok (al : Allocator) (s : State) (b : Nat)
    (hm : al.malloc s.pool (4 * HandleCount) = some b) :
    alloc_handle_block al s =
      (true, { (mplite_malloc al s (4 * HandleCount)).2 with
        HandleQueue := pushHandles (2 ^ 32) (u32 b) (u32 (u32 b + 128 * 4)) s.HandleQueue }) := by
  simp [alloc_handle_block, hm]

theorem NewHandle_take_empty (al : Allocator) (c : Bool) (s : State) (hh : Nat)
    (rest : List Nat) (hq : s.HandleQueue = hh :: rest) :
    NewHandle_take al c 0 s = some (NewHandle_record { s with HandleQueue := rest } hh 0 0) := by
  simp [NewHandle_take, hq]

theorem NewHandle_take_fail (al : Allocator) (c : Bool) (n : Nat) (s : State) (hh : Nat)
    (rest : List Nat) (hq : s.HandleQueue = hh :: rest) (hn : n ≠ 0)
    (hm : al.malloc s.pool n = none) :
    NewHandle_take al c n s = some (SetMemError (cpuSetAReg
      { (mplite_malloc al s n).2 with HandleQueue := rest ++ [hh] } 0 0) memFullErr) := by
  simp [NewHandle_take, hq, hn, hm, mplite_malloc]

theorem NewHandle_take_ok (al : Allocator) (c : Bool) (n : Nat) (s : State) (hh : Nat)
    (rest : List Nat) (p : Nat) (hq : s.HandleQueue = hh :: rest) (hn : n ≠ 0)
    (hm : al.malloc s.pool n = some p) :
    NewHandle_take al c n s = some (NewHandle_record
      (if c = true then memset0 (mplite_malloc al { s with HandleQueue := rest } n).2 p n
        else (mplite_malloc al { s with HandleQueue := rest } n).2) hh (u32 p) n) := by
  simp [NewHandle_take, hq, hn, hm, mplite_malloc]

theorem NewHandle_nonempty (al : Allocator) (t : Nat) (s : State) (hq : s.HandleQueue ≠ []) :
    NewHandle al t s = NewHandle_take al (clearFlag t) (cpuGetDReg s 0) s := by
  have : s.HandleQueue.length ≠ 0 := by simpa using hq
  simp only [NewHandle, if_neg this]

theorem NewHandle_grow_fail (al : Allocator) (t : Nat) (s : State) (hq : s.HandleQueue = [])
    (hm : al.malloc s.pool (4 * HandleCount) = none) :
    NewHandle al t s = some (SetMemError
      (cpuSetAReg (mplite_malloc al s (4 * HandleCount)).2 0 0) memFullErr) := by
  simp [NewHandle, hq, alloc_handle_block_fail al s hm]

theorem NewHandle_grow_ok (al : Allocator) (t : Nat) (s : State) (b : Nat)
    (hq : s.HandleQueue = [])
    (hm : al.malloc s.pool (4 * HandleCount) = some b) :
    NewHandle al t s = NewHandle_take al (clearFlag t) (cpuGetDReg s 0)
      { (mplite_malloc al s (4 * HandleCount)).2 with
        HandleQueue := pushHandles (2 ^ 32) (u32 b) (u32 (u32 b + 128 * 4)) s.HandleQueue } := by
  simp [NewHandle, hq, alloc_handle_block_ok al s b hm]

section
variable (s : State) (hh a n : Nat)
@[simp] theorem NewHandle_record_fst : (NewHandle_record s hh a n).1 = 0 := rfl
@[simp] theorem NewHandle_record_pool : (NewHandle_record s hh a n).2.pool = s.pool := by
  simp [NewHandle_record]
@[simp] theorem NewHandle_record_MemorySize :
    (NewHandle_record s hh a n).2.MemorySize = s.MemorySize := by
  simp [NewHandle_record]
@[simp] theorem NewHandle_record_HandleQueue :
    (NewHandle_record s hh a n).2.HandleQueue = s.HandleQueue := by
  simp [NewHandle_record]
@[simp] theorem NewHandle_record_PtrMap : (NewHandle_record s hh a n).2.PtrMap = s.PtrMap := by
  simp [NewHandle_record]
@[simp] theorem NewHandle_record_HandleMap :
    (NewHandle_record s hh a n).2.HandleMap = mapEmplace s.HandleMap hh ⟨a, n⟩ := by
  simp [NewHandle_record]
@[simp] theorem NewHandle_record_aReg0 : (NewHandle_record s hh a n).2.aReg 0 = hh := by
  simp [NewHandle_record]
@[simp] theorem NewHandle_record_dReg : (NewHandle_record s hh a n).2.dReg = s.dReg := by
  simp [NewHandle_record]
end

/-! ### The invariant along a run -/

theorem Inv.setA {s : State} {B : List Nat} (h : Inv s B) (i v : Nat) :
    Inv (cpuSetAReg s i v) B :=
  h.of_perm rfl rfl rfl rfl (List.Perm.refl _) rfl rfl

theorem Inv.setD {s : State} {B : List Nat} (h : Inv s B) (i v : Nat) :
    Inv (cpuSetDReg s i v) B :=
  h.of_perm rfl rfl rfl rfl (List.Perm.refl _) rfl rfl

theorem BlockMove_inv {s : State} {B : List Nat} (h : Inv s B) (t : Nat) :
    Inv (BlockMove t s).2 B :=
  h.of_perm rfl rfl rfl rfl (List.Perm.refl _) rfl rfl

theorem DisposePtr_inv {s : State} {B : List Nat} (h : Inv s B) (t : Nat) :
    Inv (DisposePtr t s).2 B := by
  cases hf : mapFind s.PtrMap (cpuGetAReg s 0) with
  | none =>
    rw [DisposePtr_absent t s hf]
    exact h.of_perm (by simp) (by simp) (by simp) (by simp) (by simp) (by simp) (by simp)
  | some sz =>
    rw [DisposePtr_present t s sz hf]
    exact h.free_ptr (cpuGetAReg s 0) (mapFind_some_key _ _ _ hf)
      (by simp) (by simp) (by simp) (by simp) (by simp) (by simp) (by simp)

theorem DisposeHandle_inv {s : State} {B : List Nat} (h : Inv s B) (t : Nat) :
    Inv (DisposeHandle t s).2 B := by
  cases hf : mapFind s.HandleMap (cpuGetAReg s 0) with
  | none =>
    rw [DisposeHandle_absent t s hf]
    exact h.of_perm (by simp) (by simp) (by simp) (by simp) (by simp) (by simp) (by simp)
  | some info =>
    rw [DisposeHandle_present t s info hf]
    exact h.free_handle (cpuGetAReg s 0) info hf
      (by simp) (by simp) (by simp) (by simp) (by simp) (by simp) (by simp)

theorem NewPtr_inv {s : State} {B : List Nat} (h : Inv s B) {al : Allocator}
    (hal : AllocOK al) (t : Nat) : Inv (NewPtr al t s).2 B := by
  by_cases h0 : cpuGetDReg s 0 = 0
  · rw [NewPtr_zero al t s h0]
    exact h.of_perm (by simp) (by simp) (by simp) (by simp) (by simp) (by simp) (by simp)
  · cases hm : al.malloc s.pool (cpuGetDReg s 0) with
    | none =>
      rw [NewPtr_fail al t s h0 hm]
      exact h.of_perm (by simp) (by simp) (by simp [hm, liveSpans_malloc_none]) (by simp)
        (by simp) (by simp) (by simp)
    | some p =>
      rw [NewPtr_ok al t s p h0 hm]
      exact h.new_ptr hal hm (Nat.pos_of_ne_zero h0)
        (by simp) (by simp) (by simp [hm]) (by simp) (by simp) (by simp) (by simp)

theorem NewHandle_take_inv {s : State} {B : List Nat} (h : Inv s B) {al : Allocator}
    (hal : AllocOK al) (c : Bool) (n : Nat) (r : Nat × State)
    (hr : NewHandle_take al c n s = some r) : Inv r.2 B := by
  cases hq : s.HandleQueue with
  | nil => simp [NewHandle_take, hq] at hr
  | cons hh rest =>
    by_cases hn : n = 0
    · subst hn
      rw [NewHandle_take_empty al c s hh rest hq] at hr
      cases hr
      exact h.new_handle_empty 0 hh rest hq
        (by simp) (by simp) (by simp) (by simp) (by simp)
    · cases hm : al.malloc s.pool n with
      | none =>
        rw [NewHandle_take_fail al c n s hh rest hq hn hm] at hr
        cases hr
        exact h.of_perm (by simp) (by simp) (by simp [hm, liveSpans_malloc_none]) (by simp)
          (by simp [hq]) (by simp) (by simp)
      | some p =>
        rw [NewHandle_take_ok al c n s hh rest p hq hn hm] at hr
        cases hr
        exact h.new_handle_block hal hm (Nat.pos_of_ne_zero hn) hh rest hq
          (by simp) (by simp) (by simp [hm]) (by simp) (by simp) (by simp) (by simp)

/-- The result of `alloc_handle_block` when the pool keeps its contract and hands
out a batch at offset `b`: the 128 cells of the batch are appended to the queue. -/
theorem Inv.alloc_handle_block_eq {s : State} {B : List Nat} (h : Inv s B) {al : Allocator}
    (hal : AllocOK al) (b : Nat) (hm : al.malloc s.pool (4 * HandleCount) = some b) :
    alloc_handle_block al s =
      (true, { (mplite_malloc al s (4 * HandleCount)).2 with
        HandleQueue := s.HandleQueue ++ batchSlots b }) := by
  rw [alloc_handle_block_ok al s b hm, h.pushHandles_batch hal hm s.HandleQueue]

theorem alloc_handle_block_inv {s : State} {B : List Nat} (h : Inv s B) {al : Allocator}
    (hal : AllocOK al) (b : Nat) (hm : al.malloc s.pool (4 * HandleCount) = some b) :
    Inv (alloc_handle_block al s).2 (B ++ [b])
    ∧ (alloc_handle_block al s).2.HandleQueue = s.HandleQueue ++ batchSlots b := by
  rw [h.alloc_handle_block_eq hal b hm]
  exact ⟨h.new_batch hal hm (by simp) (by simp) (by simp [hm]) (by simp) (by simp)
    (by simp) (by simp), by simp⟩

theorem NewHandle_inv {s : State} {B : List Nat} (h : Inv s B) {al : Allocator}
    (hal : AllocOK al) (t : Nat) (r : Nat × State) (hr : NewHandle al t s = some r) :
    ∃ B', Inv r.2 B' ∧ (B' = B ∨ ∃ b, B' = B ++ [b]) := by
  by_cases hq : s.HandleQueue = []
  · cases hm : al.malloc s.pool (4 * HandleCount) with
    | none =>
      rw [NewHandle_grow_fail al t s hq hm] at hr
      cases hr
      exact ⟨B, h.of_perm (by simp) (by simp) (by simp [hm, liveSpans_malloc_none]) (by simp)
        (by simp) (by simp) (by simp), Or.inl rfl⟩
    | some b =>
      have hgrow := (alloc_handle_block_inv h hal b hm).1
      rw [alloc_handle_block_ok al s b hm] at hgrow
      rw [NewHandle_grow_ok al t s b hq hm] at hr
      exact ⟨B ++ [b], NewHandle_take_inv hgrow hal _ _ r hr, Or.inr ⟨b, rfl⟩⟩
  · rw [NewHandle_nonempty al t s hq] at hr
    exact ⟨B, NewHandle_take_inv h hal _ _ r hr, Or.inl rfl⟩

theorem runOp_inv {s : State} {B : List Nat} (h : Inv s B) {al : Allocator}
    (hal : AllocOK al) (op : Op) (r : Nat × State) (hr : runOp al op s = some r) :
    ∃ B', Inv r.2 B' ∧ (B' = B ∨ ∃ b, B' = B ++ [b]) := by
  cases op with
  | NewPtr trap size =>
    simp only [runOp, Option.some.injEq] at hr
    subst hr
    exact ⟨B, NewPtr_inv (h.setD _ _) hal _, Or.inl rfl⟩
  | NewHandle trap size =>
    exact NewHandle_inv (h.setD 0 (u32 size)) hal _ r hr
  | DisposePtr trap ptr =>
    simp only [runOp, Option.some.injEq] at hr
    subst hr
    exact ⟨B, DisposePtr_inv (h.setA _ _) _, Or.inl rfl⟩
  | DisposeHandle trap hh =>
    simp only [runOp, Option.some.injEq] at hr
    subst hr
    exact ⟨B, DisposeHandle_inv (h.setA _ _) _, Or.inl rfl⟩
  | BlockMove trap source dest count =>
    simp only [runOp, Option.some.injEq] at hr
    subst hr
    exact ⟨B, BlockMove_inv (((h.setA _ _).setA _ _).setD _ _) _, Or.inl rfl⟩

theorem u32_sub_reserved (memorySize reserved : Nat) (hle : reserved ≤ memorySize)
    (hms : memorySize < 2 ^ 32) : u32 (memorySize + 2 ^ 32 - reserved) = memorySize - reserved := by
  unfold u32
  have : memorySize + 2 ^ 32 - reserved = (memorySize - reserved) + 2 ^ 32 := by omega
  rw [this, Nat.add_mod_right]
  exact Nat.mod_eq_of_lt (by omega)

/-- The state `Init` hands to `alloc_handle_block` satisfies the invariant. -/
theorem Inv.at_startup (memory : Nat → Nat) (memorySize reserved : Nat) (hres : 0 < reserved)
    (hle : reserved ≤ memorySize) (hms : memorySize < 2 ^ 32) :
    Inv { ({ startup with Memory := memory, MemorySize := memorySize } : State) with
          pool := ⟨reserved, u32 (memorySize + 2 ^ 32 - reserved), []⟩ } [] where
  start_pos := hres
  region := by
    simp only [u32_sub_reserved memorySize reserved hle hms]
    omega
  memsize := hms
  live_in := by intro e he; simp [liveSpans] at he
  live_disj := by simp [liveSpans]
  batches_live := by intro b hb; simp at hb
  held_nodup := by simp [startup, mapKeys, ownedBlocks]
  held_live := by intro x hx; simp [startup, mapKeys, ownedBlocks] at hx
  ids := by simp [startup, mapKeys]

theorem Init_inv {al : Allocator} (hal : AllocOK al) (memory : Nat → Nat)
    (memorySize reserved : Nat) (hres : 0 < reserved) (hle : reserved ≤ memorySize)
    (hms : memorySize < 2 ^ 32) (s : State)
    (hinit : Init al memory memorySize reserved = (true, s)) :
    ∃ b, Inv s [b] ∧ s.HandleQueue = batchSlots b ∧ s.HandleMap = [] ∧ s.PtrMap = [] := by
  have h0 := Inv.at_startup memory memorySize reserved hres hle hms
  unfold Init at hinit
  split at hinit
  · cases hm : al.malloc (⟨reserved, u32 (memorySize + 2 ^ 32 - reserved), []⟩ : Pool)
      (4 * HandleCount) with
    | none =>
      rw [alloc_handle_block_fail al _ hm] at hinit
      simp at hinit
    | some b =>
      have hb := alloc_handle_block_inv h0 hal b hm
      rw [h0.alloc_handle_block_eq hal b hm] at hinit hb
      simp only [Prod.mk.injEq, true_and] at hinit
      subst hinit
      exact ⟨b, hb.1, rfl, rfl, rfl⟩
  · simp at hinit

theorem ReachableBy.inv {al : Allocator} (hal : AllocOK al) {memorySize reserved : Nat}
    (hres : 0 < reserved) (hle : reserved ≤ memorySize) (hms : memorySize < 2 ^ 32)
    {ok : State → Op → Prop} {s : State} (hr : ReachableBy al memorySize reserved ok s) :
    ∃ B, Inv s B := by
  induction hr with
  | init memory s hinit =>
    obtain ⟨b, hb, _⟩ := Init_inv hal memory memorySize reserved hres hle hms s hinit
    exact ⟨[b], hb⟩
  | step s op code s' _ _ hrun ih =>
    obtain ⟨B, hB⟩ := ih
    obtain ⟨B', hB', _⟩ := runOp_inv hB hal op (code, s') hrun
    exact ⟨B', hB'⟩


/-! ### The concrete pools keep the contract -/

theorem spanTop_ge_start (start : Nat) (l : List (Nat × Nat)) : start ≤ spanTop start l := by
  induction l with
  | nil => exact Nat.le_refl _
  | cons e l ih => exact Nat.le_trans ih (Nat.le_max_right _ _)

theorem spanTop_ge_mem (start : Nat) (l : List (Nat × Nat)) (e : Nat × Nat) (he : e ∈ l) :
    e.1 + e.2 ≤ spanTop start l := by
  induction l with
  | nil => simp at he
  | cons x l ih =>
    rcases List.mem_cons.mp he with rfl | h
    · exact Nat.le_max_left _ _
    · exact Nat.le_trans (ih h) (Nat.le_max_right _ _)

theorem bumpAllocator_ok : AllocOK bumpAllocator := by
  intro pool size p hm
  simp only [bumpAllocator] at hm
  split at hm
  · cases hm
    refine ⟨spanTop_ge_start _ _, by assumption, ?_⟩
    intro e he
    exact Or.inr (spanTop_ge_mem _ _ e he)
  · cases hm

theorem onceAllocator_ok : AllocOK onceAllocator := by
  intro pool size p hm
  simp only [onceAllocator] at hm
  split at hm
  · cases hm
    rename_i h
    refine ⟨Nat.le_refl _, by omega, ?_⟩
    intro e he
    rw [h.1] at he
    simp [liveSpans] at he
  · cases hm

/-! ### Runs -/

theorem ReachableBy.runTrace {al : Allocator} {memorySize reserved : Nat} (ops : List Op) :
    ∀ (s : State) (rs : List (Nat × Nat) × State),
      ReachableBy al memorySize reserved (fun _ _ => True) s →
      MM.runTrace al ops s = some rs →
      ReachableBy al memorySize reserved (fun _ _ => True) rs.2 := by
  induction ops with
  | nil =>
    intro s rs hs hrun
    simp only [MM.runTrace, Option.some.injEq] at hrun
    subst hrun
    exact hs
  | cons op ops ih =>
    intro s rs hs hrun
    rw [MM.runTrace] at hrun
    cases hop : runOp al op s with
    | none => simp [hop] at hrun
    | some r =>
      simp only [hop] at hrun
      cases hrest : MM.runTrace al ops r.2 with
      | none => simp [hrest] at hrun
      | some rs2 =>
        simp only [hrest, Option.some.injEq] at hrun
        subst hrun
        exact ih r.2 rs2 (ReachableBy.step s op r.1 r.2 hs trivial hop) hrest

theorem Reachable.afterOps {al : Allocator} {memorySize reserved : Nat} (ops : List Op)
    (s : State) (hs : Reachable al memorySize reserved s) :
    Reachable al memorySize reserved (MM.afterOps al ops s) := by
  unfold MM.afterOps
  cases hrun : MM.runTrace al ops s with
  | none => exact hs
  | some rs => exact ReachableBy.runTrace ops s rs hs hrun

theorem bootState_reachable : Reachable bumpAllocator 0x100000 0x10000 bootState :=
  ReachableBy.init (fun _ => 0) bootState (Prod.ext (by decide) rfl)

theorem bootOnce_reachable : Reachable onceAllocator 0x100000 0x10000 bootOnce :=
  ReachableBy.init (fun _ => 0) bootOnce (Prod.ext (by decide) rfl)

theorem memFullErr_ne_zero : memFullErr ≠ 0 := by decide

theorem mapFind_emplace_new {V : Type} (m : List (Nat × V)) (k : Nat) (v : V)
    (h : k ∉ mapKeys m) (j : Nat) :
    mapFind (mapEmplace m k v) j = if j = k then some v else mapFind m j := by
  rw [mapEmplace_of_not_mem m k v h, mapFind_cons]
  by_cases hj : j = k
  · rw [if_pos hj.symm, if_pos hj]
  · rw [if_neg (fun e => hj e.symm), if_neg hj]

theorem mem_mapKeys_emplace {V : Type} (m : List (Nat × V)) (k : Nat) (v : V) :
    k ∈ mapKeys (mapEmplace m k v) := by
  unfold mapEmplace
  cases hf : mapFind m k with
  | none => simp [mapKeys]
  | some w => exact mapFind_some_key m k w hf

/-- No direct block is recorded at offset 0. -/
theorem Inv.ptr_zero {s : State} {B : List Nat} (h : Inv s B) : mapFind s.PtrMap 0 = none := by
  rw [mapFind_none_iff]
  intro h0
  have := h.offset_pos 0 (h.held_live 0 (List.mem_append_left _ h0))
  omega

/-! ### When `NewHandle` has a result -/

/-- On a non-empty queue `NewHandle_take` has a result. -/
theorem NewHandle_take_returns (al : Allocator) (c : Bool) (n : Nat) (x : State)
    (hx : x.HandleQueue ≠ []) : ∃ r, NewHandle_take al c n x = some r := by
  cases hq : x.HandleQueue with
  | nil => exact absurd hq hx
  | cons hh rest =>
    by_cases hn : n = 0
    · subst hn
      exact ⟨_, NewHandle_take_empty al c x hh rest hq⟩
    · cases hm : al.malloc x.pool n with
      | none => exact ⟨_, NewHandle_take_fail al c n x hh rest hq hn hm⟩
      | some p => exact ⟨_, NewHandle_take_ok al c n x hh rest p hq hn hm⟩

/-- The loop of `alloc_handle_block` only appends to the queue. -/
theorem pushHandles_prefix : ∀ (fuel hh endh : Nat) (q : List Nat),
    ∃ t, pushHandles fuel hh endh q = q ++ t := by
  intro fuel
  induction fuel with
  | zero => intro hh endh q; exact ⟨[], by simp [pushHandles]⟩
  | succ fuel ih =>
    intro hh endh q
    by_cases h : hh < endh
    · obtain ⟨t, ht⟩ := ih (u32 (hh + 4)) endh (q ++ [hh])
      exact ⟨hh :: t, by rw [pushHandles, if_pos h, ht]; simp⟩
    · exact ⟨[], by rw [pushHandles, if_neg h]; simp⟩

/-- The loop of `alloc_handle_block` pushes at least one identity when its start
lies below its end. -/
theorem pushHandles_ne_nil (hh endh : Nat) (q : List Nat) (h : hh < endh) :
    pushHandles (2 ^ 32) hh endh q ≠ [] := by
  have h32 : (2 : Nat) ^ 32 = (2 ^ 32 - 1) + 1 := by norm_num
  rw [h32, pushHandles, if_pos h]
  obtain ⟨t, ht⟩ := pushHandles_prefix (2 ^ 32 - 1) (u32 (hh + 4)) endh (q ++ [hh])
  rw [ht]
  simp

/-- `NewHandle` has a result whenever the free queue is not empty, or the batch it
asks the pool for is refused, or the 32-bit end of that batch lies above its
start, so that the loop of `alloc_handle_block` pushes an identity: `front()` is
not called on an empty queue. -/
theorem NewHandle_returns (al : Allocator) (t : Nat) (s : State)
    (hdef : s.HandleQueue ≠ []
      ∨ ∀ b, al.malloc s.pool (4 * HandleCount) = some b → u32 b < u32 (u32 b + 128 * 4)) :
    ∃ r, NewHandle al t s = some r := by
  by_cases hq : s.HandleQueue = []
  · cases hm : al.malloc s.pool (4 * HandleCount) with
    | none => exact ⟨_, NewHandle_grow_fail al t s hq hm⟩
    | some b =>
      rw [NewHandle_grow_ok al t s b hq hm]
      refine NewHandle_take_returns al _ _ _ ?_
      rcases hdef with h | h
      · exact absurd hq h
      · have hne := pushHandles_ne_nil (u32 b) (u32 (u32 b + 128 * 4)) s.HandleQueue (h b hm)
        simpa using hne
  · rw [NewHandle_nonempty al t s hq]
    exact NewHandle_take_returns al _ _ s hq

/-- The condition of `NewHandle_returns` is exact: otherwise the queue is still
empty when `front()` is called. -/
theorem NewHandle_undefined (al : Allocator) (t : Nat) (s : State) (b : Nat)
    (hq : s.HandleQueue = []) (hm : al.malloc s.pool (4 * HandleCount) = some b)
    (hwrap : ¬ u32 b < u32 (u32 b + 128 * 4)) : NewHandle al t s = none := by
  have h32 : (2 : Nat) ^ 32 = (2 ^ 32 - 1) + 1 := by norm_num
  rw [NewHandle_grow_ok al t s b hq hm, h32, pushHandles, if_neg hwrap, hq]
  simp [NewHandle_take]

/-- A batch that ends inside an arena smaller than `2 ^ 32` bytes does not wrap. -/
theorem batch_no_wrap (b memorySize : Nat) (h : b + 512 ≤ memorySize)
    (hms : memorySize < 2 ^ 32) : u32 b < u32 (u32 b + 128 * 4) := by
  have hu : u32 b = b := Nat.mod_eq_of_lt (by omega)
  have he : u32 (b + 128 * 4) = b + 128 * 4 := by
    unfold u32; exact Nat.mod_eq_of_lt (by omega)
  rw [hu, he]
  omega

/-! ## The claims -/

set_option maxRecDepth 4000 in
/-- C2, evaluated on the code: after `Init`, `NewHandle` with size 0 creates the
empty handle 0x10000 (recorded address 0) without any request to the pool, and
`DisposeHandle` of that handle returns 0 and does send a `free` request to the
pool, for offset 0: the source calls `mplite_free(&pool, info.address + Memory)`
whatever the recorded address is. -/
theorem C2_dispose_empty_handle_calls_free :
    (Init bumpAllocator (fun _ => 0) 0x100000 0x10000).1 = true
    ∧ traceOut bumpAllocator [Op.NewHandle 0 0, Op.DisposeHandle 0 0x10000] bootState
        = some [(0, 0x10000), (0, 0x10000)]
    ∧ (afterOps bumpAllocator [Op.NewHandle 0 0] bootState).HandleMap = [(0x10000, ⟨0, 0⟩)]
    ∧ (afterOps bumpAllocator [Op.NewHandle 0 0] bootState).pool.calls = bootState.pool.calls
    ∧ (afterOps bumpAllocator [Op.NewHandle 0 0, Op.DisposeHandle 0 0x10000] bootState).pool.calls
        = PoolCall.free 0 :: bootState.pool.calls := by
  decide

set_option maxRecDepth 4000 in
/-- C3 fails as stated: after `Init` the queue holds 128 identities; a `NewHandle`
of 8 bytes that the pool cannot serve returns the out-of-memory code with
`A0 = 0`, and the queue is not what it was before: the front identity 0x10000 has
moved to the tail. -/
theorem C3_counterexample :
    (Init onceAllocator (fun _ => 0) 0x100000 0x10000).1 = true
    ∧ bootOnce.HandleQueue.take 2 = [0x10000, 0x10004]
    ∧ traceOut onceAllocator [Op.NewHandle 0 8] bootOnce = some [(memFullErr, 0)]
    ∧ (afterOps onceAllocator [Op.NewHandle 0 8] bootOnce).HandleQueue.take 2
        = [0x10004, 0x10008]
    ∧ (afterOps onceAllocator [Op.NewHandle 0 8] bootOnce).HandleQueue
        ≠ bootOnce.HandleQueue := by
  decide

/-- C3, amended: when the free queue is `hh :: rest`, the requested size is not 0
and the pool cannot serve it, `NewHandle` returns the out-of-memory code with
`A0 = 0`, leaves the Handle Table and the Direct-Block Map unchanged and puts the
dequeued identity back at the tail: the queue is `rest ++ [hh]`, which holds the
same identities as before. -/
theorem C3_new_handle_undo (al : Allocator) (trap : Nat) (s : State) (hh : Nat)
    (rest : List Nat) (hq : s.HandleQueue = hh :: rest) (hsize : cpuGetDReg s 0 ≠ 0)
    (hfail : al.malloc s.pool (cpuGetDReg s 0) = none) :
    ∃ s', NewHandle al trap s = some (memFullErr, s')
      ∧ cpuGetAReg s' 0 = 0
      ∧ s'.HandleMap = s.HandleMap
      ∧ s'.PtrMap = s.PtrMap
      ∧ s'.HandleQueue = rest ++ [hh]
      ∧ s'.HandleQueue.Perm s.HandleQueue := by
  have hne : s.HandleQueue ≠ [] := by rw [hq]; simp
  rw [NewHandle_nonempty al trap s hne,
    NewHandle_take_fail al _ _ s hh rest hq hsize hfail]
  refine ⟨_, rfl, ?_, ?_, ?_, ?_, ?_⟩
  · simp [cpuGetAReg]
  · simp
  · simp
  · simp
  · simp [hq]

set_option maxRecDepth 4000 in
/-- Witness for C3: the state after `Init` with the pool that serves the first
request only, and a request of 8 bytes. -/
theorem C3_new_handle_undo_witness :
    ∃ s', NewHandle onceAllocator 0 (cpuSetDReg bootOnce 0 8) = some (memFullErr, s')
      ∧ cpuGetAReg s' 0 = 0
      ∧ s'.HandleMap = (cpuSetDReg bootOnce 0 8).HandleMap
      ∧ s'.PtrMap = (cpuSetDReg bootOnce 0 8).PtrMap
      ∧ s'.HandleQueue = (batchSlots 0x10000).tail ++ [0x10000]
      ∧ s'.HandleQueue.Perm (cpuSetDReg bootOnce 0 8).HandleQueue :=
  C3_new_handle_undo onceAllocator 0 (cpuSetDReg bootOnce 0 8) 0x10000
    (batchSlots 0x10000).tail (by decide) (by decide) (by decide)

/-- C7: in every state reached from a successful `Init` (pool that keeps its
contract, region starting past offset 0 inside a 32-bit arena), `NewPtr` with
`D0 = 0` returns 0 with `A0 = 0` for every trap word, so for both values of the
clear flag, sends no request to the pool and leaves the Direct-Block Map
unchanged; `DisposePtr` right after it (it reads `A0 = 0`) returns `memWZErr`. -/
theorem C7_new_ptr_zero (al : Allocator) (hal : AllocOK al) (memorySize reserved : Nat)
    (hres : 0 < reserved) (hle : reserved ≤ memorySize) (hms : memorySize < 2 ^ 32)
    (s : State) (hr : Reachable al memorySize reserved s) (trap trap2 : Nat) :
    (NewPtr al trap (cpuSetDReg s 0 0)).1 = 0
    ∧ cpuGetAReg (NewPtr al trap (cpuSetDReg s 0 0)).2 0 = 0
    ∧ (NewPtr al trap (cpuSetDReg s 0 0)).2.pool = s.pool
    ∧ (NewPtr al trap (cpuSetDReg s 0 0)).2.PtrMap = s.PtrMap
    ∧ (DisposePtr trap2 (NewPtr al trap (cpuSetDReg s 0 0)).2).1 = memWZErr := by
  obtain ⟨B, hB⟩ := ReachableBy.inv hal hres hle hms hr
  have h0 : cpuGetDReg (cpuSetDReg s 0 0) 0 = 0 := by simp [cpuGetDReg]
  rw [NewPtr_zero al trap _ h0]
  refine ⟨rfl, by simp [cpuGetAReg], by simp, by simp, ?_⟩
  rw [DisposePtr_absent]
  · rfl
  · simpa [cpuGetAReg] using hB.ptr_zero

/-- Witness for C7: the state after `Init` on a 1 MiB arena with 64 KiB reserved. -/
theorem C7_new_ptr_zero_witness :
    (NewPtr bumpAllocator 0x11E (cpuSetDReg bootState 0 0)).1 = 0
    ∧ cpuGetAReg (NewPtr bumpAllocator 0x11E (cpuSetDReg bootState 0 0)).2 0 = 0
    ∧ (NewPtr bumpAllocator 0x11E (cpuSetDReg bootState 0 0)).2.pool = bootState.pool
    ∧ (NewPtr bumpAllocator 0x11E (cpuSetDReg bootState 0 0)).2.PtrMap = bootState.PtrMap
    ∧ (DisposePtr 0x1F (NewPtr bumpAllocator 0x11E (cpuSetDReg bootState 0 0)).2).1 = memWZErr :=
  C7_new_ptr_zero bumpAllocator bumpAllocator_ok 0x100000 0x10000 (by decide) (by decide)
    (by decide) bootState bootState_reachable 0x11E 0x1F

/-- C8: when `A0 = p` and `p` is a key of the Direct-Block Map, `DisposePtr` returns
0, erases the record of `p` and no other, and sends exactly one request to the
pool, `free p`; a second `DisposePtr` right after it returns `memWZErr` and sends
no request to the pool. -/
theorem C8_double_free_direct (t1 t2 : Nat) (s : State) (p sz : Nat)
    (hp : cpuGetAReg s 0 = p) (hlive : mapFind s.PtrMap p = some sz) :
    (DisposePtr t1 s).1 = 0
    ∧ mapFind (DisposePtr t1 s).2.PtrMap p = none
    ∧ (∀ k, k ≠ p → mapFind (DisposePtr t1 s).2.PtrMap k = mapFind s.PtrMap k)
    ∧ (DisposePtr t1 s).2.pool.calls = PoolCall.free p :: s.pool.calls
    ∧ (DisposePtr t2 (DisposePtr t1 s).2).1 = memWZErr
    ∧ (DisposePtr t2 (DisposePtr t1 s).2).2.pool = (DisposePtr t1 s).2.pool := by
  subst hp
  have h1 := DisposePtr_present t1 s sz hlive
  have hA : cpuGetAReg (DisposePtr t1 s).2 0 = cpuGetAReg s 0 := by
    rw [h1]; simp [cpuGetAReg]
  have hnone : mapFind (DisposePtr t1 s).2.PtrMap (cpuGetAReg (DisposePtr t1 s).2 0) = none := by
    rw [hA, h1]; simp [mapFind_erase_self]
  have h2 := DisposePtr_absent t2 _ hnone
  refine ⟨?_, ?_, ?_, ?_, ?_, ?_⟩
  · rw [h1]; simp
  · rw [h1]; simp [mapFind_erase_self]
  · intro k hk; rw [h1]; simp [mapFind_erase_ne _ _ _ hk]
  · rw [h1]; simp
  · rw [h2]; simp
  · rw [h2]; simp

/-- Witness for C8: the block of 16 bytes allocated right after `Init`. -/
theorem C8_double_free_direct_witness :
    (DisposePtr 0 ptrState).1 = 0
    ∧ mapFind (DisposePtr 0 ptrState).2.PtrMap 0x10200 = none
    ∧ (∀ k, k ≠ 0x10200 → mapFind (DisposePtr 0 ptrState).2.PtrMap k = mapFind ptrState.PtrMap k)
    ∧ (DisposePtr 0 ptrState).2.pool.calls = PoolCall.free 0x10200 :: ptrState.pool.calls
    ∧ (DisposePtr 0 (DisposePtr 0 ptrState).2).1 = memWZErr
    ∧ (DisposePtr 0 (DisposePtr 0 ptrState).2).2.pool = (DisposePtr 0 ptrState).2.pool :=
  C8_double_free_direct 0 0 ptrState 0x10200 16 (by decide) (by decide)

/-- C9: `DisposePtr` with `A0` not a key of the Direct-Block Map, and
`DisposeHandle` with `A0` not a key of the Handle Table, return `memWZErr`, send no
request to the pool and leave the Direct-Block Map, the Handle Table and the free
queue unchanged. -/
theorem C9_unknown_reference (t1 t2 : Nat) (s1 s2 : State)
    (h1 : mapFind s1.PtrMap (cpuGetAReg s1 0) = none)
    (h2 : mapFind s2.HandleMap (cpuGetAReg s2 0) = none) :
    ((DisposePtr t1 s1).1 = memWZErr
      ∧ (DisposePtr t1 s1).2.pool = s1.pool
      ∧ (DisposePtr t1 s1).2.PtrMap = s1.PtrMap
      ∧ (DisposePtr t1 s1).2.HandleMap = s1.HandleMap
      ∧ (DisposePtr t1 s1).2.HandleQueue = s1.HandleQueue)
    ∧ ((DisposeHandle t2 s2).1 = memWZErr
      ∧ (DisposeHandle t2 s2).2.pool = s2.pool
      ∧ (DisposeHandle t2 s2).2.PtrMap = s2.PtrMap
      ∧ (DisposeHandle t2 s2).2.HandleMap = s2.HandleMap
      ∧ (DisposeHandle t2 s2).2.HandleQueue = s2.HandleQueue) := by
  rw [DisposePtr_absent t1 s1 h1, DisposeHandle_absent t2 s2 h2]
  simp

/-- Witness for C9: offset 0x10200 is a direct block in `ptrState` but no handle,
offset 0x10000 is a free handle cell but no direct block. -/
theorem C9_unknown_reference_witness :
    ((DisposePtr 0 (cpuSetAReg ptrState 0 0x10000)).1 = memWZErr
      ∧ (DisposePtr 0 (cpuSetAReg ptrState 0 0x10000)).2.pool = (cpuSetAReg ptrState 0 0x10000).pool
      ∧ (DisposePtr 0 (cpuSetAReg ptrState 0 0x10000)).2.PtrMap
          = (cpuSetAReg ptrState 0 0x10000).PtrMap
      ∧ (DisposePtr 0 (cpuSetAReg ptrState 0 0x10000)).2.HandleMap
          = (cpuSetAReg ptrState 0 0x10000).HandleMap
      ∧ (DisposePtr 0 (cpuSetAReg ptrState 0 0x10000)).2.HandleQueue
          = (cpuSetAReg ptrState 0 0x10000).HandleQueue)
    ∧ ((DisposeHandle 0 ptrState).1 = memWZErr
      ∧ (DisposeHandle 0 ptrState).2.pool = ptrState.pool
      ∧ (DisposeHandle 0 ptrState).2.PtrMap = ptrState.PtrMap
      ∧ (DisposeHandle 0 ptrState).2.HandleMap = ptrState.HandleMap
      ∧ (DisposeHandle 0 ptrState).2.HandleQueue = ptrState.HandleQueue) :=
  C9_unknown_reference 0 0 (cpuSetAReg ptrState 0 0x10000) ptrState (by decide) (by decide)

/-- C10: in a state reached from a successful `Init` (pool that keeps its contract,
region starting past offset 0 inside a 32-bit arena), `NewPtr` with `D0 = size`,
`size` not 0, sends the one request `malloc size` to the pool. When the pool
answers with offset `p`, the trap returns 0 with `A0 = p` and the Direct-Block Map
is the old map, which had no record for `p`, plus the record `(p, size)`; when the
pool fails, the trap returns `memFullErr` with `A0 = 0` and the Direct-Block Map is
unchanged. The Handle Table and the free queue are unchanged either way. -/
theorem C10_new_ptr (al : Allocator) (hal : AllocOK al) (memorySize reserved : Nat)
    (hres : 0 < reserved) (hle : reserved ≤ memorySize) (hms : memorySize < 2 ^ 32)
    (s : State) (hr : Reachable al memorySize reserved s) (trap size : Nat)
    (hsize : size ≠ 0) :
    (∀ p, al.malloc s.pool size = some p →
      (NewPtr al trap (cpuSetDReg s 0 size)).1 = 0
      ∧ cpuGetAReg (NewPtr al trap (cpuSetDReg s 0 size)).2 0 = p
      ∧ mapFind s.PtrMap p = none
      ∧ (NewPtr al trap (cpuSetDReg s 0 size)).2.PtrMap = (p, size) :: s.PtrMap
      ∧ ∀ k, mapFind (NewPtr al trap (cpuSetDReg s 0 size)).2.PtrMap k
          = if k = p then some size else mapFind s.PtrMap k)
    ∧ (al.malloc s.pool size = none →
      (NewPtr al trap (cpuSetDReg s 0 size)).1 = memFullErr
      ∧ cpuGetAReg (NewPtr al trap (cpuSetDReg s 0 size)).2 0 = 0
      ∧ (NewPtr al trap (cpuSetDReg s 0 size)).2.PtrMap = s.PtrMap)
    ∧ (NewPtr al trap (cpuSetDReg s 0 size)).2.pool.calls
        = PoolCall.malloc size (al.malloc s.pool size) :: s.pool.calls
    ∧ (NewPtr al trap (cpuSetDReg s 0 size)).2.HandleMap = s.HandleMap
    ∧ (NewPtr al trap (cpuSetDReg s 0 size)).2.HandleQueue = s.HandleQueue := by
  obtain ⟨B, hB⟩ := ReachableBy.inv hal hres hle hms hr
  have hD : cpuGetDReg (cpuSetDReg s 0 size) 0 = size := by simp [cpuGetDReg]
  have h0 : cpuGetDReg (cpuSetDReg s 0 size) 0 ≠ 0 := by rw [hD]; exact hsize
  cases hm : al.malloc s.pool size with
  | none =>
    have hm2 : al.malloc (cpuSetDReg s 0 size).pool (cpuGetDReg (cpuSetDReg s 0 size) 0)
        = none := by rw [hD]; exact hm
    rw [NewPtr_fail al trap _ h0 hm2]
    refine ⟨fun p hp => (by cases hp), fun _ => ⟨rfl, by simp [cpuGetAReg], by simp⟩, ?_, ?_, ?_⟩
    · simp [hD, hm]
    · simp
    · simp
  | some p =>
    have hm2 : al.malloc (cpuSetDReg s 0 size).pool (cpuGetDReg (cpuSetDReg s 0 size) 0)
        = some p := by rw [hD]; exact hm
    have hfresh : p ∉ mapKeys s.PtrMap := fun hx =>
      hB.fresh hal hm (Nat.pos_of_ne_zero hsize)
        (List.mem_append_right _ (List.mem_append_left _ hx))
    have hu : u32 p = p := hB.u32_offset hal hm
    rw [NewPtr_ok al trap _ p h0 hm2, hu, hD]
    refine ⟨?_, fun h => (by cases h), ?_, ?_, ?_⟩
    · intro p' hp'
      cases hp'
      refine ⟨rfl, by simp [cpuGetAReg], (mapFind_none_iff _ _).mpr hfresh, ?_, ?_⟩
      · simp [mapEmplace_of_not_mem _ _ _ hfresh]
      · intro k
        simpa using mapFind_emplace_new s.PtrMap p size hfresh k
    · simp [hm]
    · simp
    · simp

/-- Witness for C10: a request of 16 bytes right after `Init`. -/
theorem C10_new_ptr_witness :
    (∀ p, bumpAllocator.malloc bootState.pool 16 = some p →
      (NewPtr bumpAllocator 0 (cpuSetDReg bootState 0 16)).1 = 0
      ∧ cpuGetAReg (NewPtr bumpAllocator 0 (cpuSetDReg bootState 0 16)).2 0 = p
      ∧ mapFind bootState.PtrMap p = none
      ∧ (NewPtr bumpAllocator 0 (cpuSetDReg bootState 0 16)).2.PtrMap = (p, 16) :: bootState.PtrMap
      ∧ ∀ k, mapFind (NewPtr bumpAllocator 0 (cpuSetDReg bootState 0 16)).2.PtrMap k
          = if k = p then some 16 else mapFind bootState.PtrMap k)
    ∧ (bumpAllocator.malloc bootState.pool 16 = none →
      (NewPtr bumpAllocator 0 (cpuSetDReg bootState 0 16)).1 = memFullErr
      ∧ cpuGetAReg (NewPtr bumpAllocator 0 (cpuSetDReg bootState 0 16)).2 0 = 0
      ∧ (NewPtr bumpAllocator 0 (cpuSetDReg bootState 0 16)).2.PtrMap = bootState.PtrMap)
    ∧ (NewPtr bumpAllocator 0 (cpuSetDReg bootState 0 16)).2.pool.calls
        = PoolCall.malloc 16 (bumpAllocator.malloc bootState.pool 16) :: bootState.pool.calls
    ∧ (NewPtr bumpAllocator 0 (cpuSetDReg bootState 0 16)).2.HandleMap = bootState.HandleMap
    ∧ (NewPtr bumpAllocator 0 (cpuSetDReg bootState 0 16)).2.HandleQueue
        = bootState.HandleQueue :=
  C10_new_ptr bumpAllocator bumpAllocator_ok 0x100000 0x10000 (by decide) (by decide)
    (by decide) bootState bootState_reachable 0 16 (by decide)

theorem runTrace_cons (al : Allocator) (op : Op) (ops : List Op) (s : State) (r : Nat × State)
    (hop : runOp al op s = some r) :
    runTrace al (op :: ops) s =
      (runTrace al ops r.2).map (fun rs => ((r.1, cpuGetAReg r.2 0) :: rs.1, rs.2)) := by
  rw [runTrace]
  simp only [hop]
  cases runTrace al ops r.2 <;> rfl

theorem traceOut_cons (al : Allocator) (op : Op) (ops : List Op) (s : State) (r : Nat × State)
    (hop : runOp al op s = some r) :
    traceOut al (op :: ops) s =
      (traceOut al ops r.2).map (fun out => (r.1, cpuGetAReg r.2 0) :: out) := by
  unfold traceOut
  rw [runTrace_cons al op ops s r hop]
  cases runTrace al ops r.2 <;> rfl

/-- What `NewHandle_take` does when it returns 0: the identity at the front of
the queue is returned in `A0`, leaves the queue and is a key of the Handle Table. -/
theorem NewHandle_take_success (al : Allocator) (c : Bool) (n : Nat) (s : State) (hh : Nat)
    (rest : List Nat) (hq : s.HandleQueue = hh :: rest) (r : Nat × State)
    (hr : NewHandle_take al c n s = some r) (hcode : r.1 = 0) :
    cpuGetAReg r.2 0 = hh ∧ r.2.HandleQueue = rest ∧ hh ∈ mapKeys r.2.HandleMap := by
  by_cases hn : n = 0
  · subst hn
    rw [NewHandle_take_empty al c s hh rest hq] at hr
    cases hr
    exact ⟨by simp [cpuGetAReg], by simp, by simpa using mem_mapKeys_emplace _ _ _⟩
  · cases hm : al.malloc s.pool n with
    | none =>
      rw [NewHandle_take_fail al c n s hh rest hq hn hm] at hr
      cases hr
      exact absurd hcode memFullErr_ne_zero
    | some p =>
      rw [NewHandle_take_ok al c n s hh rest p hq hn hm] at hr
      cases hr
      exact ⟨by simp [cpuGetAReg], by simp, by simpa using mem_mapKeys_emplace _ _ _⟩

/-- A `NewHandle` that succeeds on a non-empty queue returns the identity at the
front of the queue and removes it from the queue. -/
theorem NewHandle_success_front (al : Allocator) (t : Nat) (s : State) (hh : Nat)
    (rest : List Nat) (hq : s.HandleQueue = hh :: rest) (r : Nat × State)
    (hr : NewHandle al t s = some r) (hcode : r.1 = 0) :
    cpuGetAReg r.2 0 = hh ∧ r.2.HandleQueue = rest ∧ hh ∈ mapKeys r.2.HandleMap := by
  have hne : s.HandleQueue ≠ [] := by rw [hq]; simp
  rw [NewHandle_nonempty al t s hne] at hr
  exact NewHandle_take_success al _ _ s hh rest hq r hr hcode

/-- First in, first out: a run of `NewHandle` traps that all succeed, no longer
than the free queue, returns the identities of the queue from its front on. -/
theorem fifo_run (al : Allocator) : ∀ (args : List (Nat × Nat)) (s : State)
    (rs : List (Nat × Nat) × State),
    runTrace al (args.map (fun a => Op.NewHandle a.1 a.2)) s = some rs →
    (∀ r ∈ rs.1, r.1 = 0) → args.length ≤ s.HandleQueue.length →
    rs.1.map Prod.snd = s.HandleQueue.take args.length
      ∧ rs.2.HandleQueue = s.HandleQueue.drop args.length := by
  intro args
  induction args with
  | nil =>
    intro s rs hrun _ _
    simp only [List.map_nil, runTrace, Option.some.injEq] at hrun
    subst hrun
    simp
  | cons a args ih =>
    intro s rs hrun hok hlen
    cases hq : s.HandleQueue with
    | nil => rw [hq] at hlen; simp at hlen
    | cons hh rest =>
      rw [List.map_cons] at hrun
      cases hop : runOp al (Op.NewHandle a.1 a.2) s with
      | none => simp [runTrace, hop] at hrun
      | some r =>
        rw [runTrace_cons al _ _ s r hop] at hrun
        cases hrest : runTrace al (args.map (fun a => Op.NewHandle a.1 a.2)) r.2 with
        | none => simp [hrest] at hrun
        | some rs2 =>
          simp only [hrest, Option.map_some', Option.some.injEq] at hrun
          subst hrun
          have hcode : r.1 = 0 := hok (r.1, cpuGetAReg r.2 0) (List.mem_cons_self _ _)
          have hfront := NewHandle_success_front al _ (cpuSetDReg s 0 (u32 a.2)) hh rest
            (by simpa using hq) r hop hcode
          have hlen2 : args.length ≤ r.2.HandleQueue.length := by
            rw [hfront.2.1]
            rw [hq] at hlen
            simpa using hlen
          have ih2 := ih r.2 rs2 hrest
            (fun x hx => hok x (List.mem_cons_of_mem _ hx)) hlen2
          simp only [List.map_cons, List.length_cons, List.take_succ_cons, List.drop_succ_cons]
          rw [ih2.1, ih2.2, hfront.1, hfront.2.1]
          exact ⟨rfl, rfl⟩

set_option maxRecDepth 4000 in
/-- C1 fails as stated: after `Init` two handles 0x10000 and 0x10004 are allocated
and then freed in that order, both with success; the next two `NewHandle` traps
succeed and return 0x10008 and 0x1000C, the identities that were already waiting
in the queue, not the two handles just freed. -/
theorem C1_counterexample :
    (Init bumpAllocator (fun _ => 0) 0x100000 0x10000).1 = true
    ∧ traceOut bumpAllocator
        [Op.NewHandle 0 0, Op.NewHandle 0 0, Op.DisposeHandle 0 0x10000,
          Op.DisposeHandle 0 0x10004, Op.NewHandle 0 0, Op.NewHandle 0 0] bootState
      = some [(0, 0x10000), (0, 0x10004), (0, 0x10000), (0, 0x10004),
          (0, 0x10008), (0, 0x1000C)] := by
  decide

/-- C1, amended: `h1` and `h2` are distinct live handles and the free queue holds
`n` identities. `DisposeHandle h1` and then `DisposeHandle h2` both return 0, and
when the next `n + 2` `NewHandle` traps all succeed, they return first the `n`
identities that were already in the queue, in queue order, then `h1`, then `h2`.
So `h1` is reused before `h2`, and the two are the very next identities handed
out exactly when the queue was empty before the two frees. -/
theorem C1_fifo_reuse (al : Allocator) (s : State) (t1 t2 h1 h2 : Nat) (i1 i2 : HandleInfo)
    (hlt1 : h1 < 2 ^ 32) (hlt2 : h2 < 2 ^ 32) (hne : h1 ≠ h2)
    (hl1 : mapFind s.HandleMap h1 = some i1) (hl2 : mapFind s.HandleMap h2 = some i2)
    (args : List (Nat × Nat)) (out : List (Nat × Nat))
    (hlen : args.length = s.HandleQueue.length + 2)
    (hrun : traceOut al (Op.DisposeHandle t1 h1 :: Op.DisposeHandle t2 h2 ::
      args.map (fun a => Op.NewHandle a.1 a.2)) s = some out)
    (hok : ∀ r ∈ out.drop 2, r.1 = 0) :
    out.take 2 = [(0, h1), (0, h2)]
    ∧ (out.drop 2).map Prod.snd = s.HandleQueue ++ [h1, h2] := by
  have hu1 : u32 h1 = h1 := Nat.mod_eq_of_lt hlt1
  have hu2 : u32 h2 = h2 := Nat.mod_eq_of_lt hlt2
  -- first free
  have hf1 : mapFind (cpuSetAReg s 0 h1).HandleMap (cpuGetAReg (cpuSetAReg s 0 h1) 0)
      = some i1 := by simpa [cpuGetAReg] using hl1
  have e1 := DisposeHandle_present (u16 t1) (cpuSetAReg s 0 h1) i1 hf1
  have hop1 : runOp al (Op.DisposeHandle t1 h1) s
      = some (DisposeHandle (u16 t1) (cpuSetAReg s 0 h1)) := by
    simp only [runOp, hu1]
  -- second free
  generalize hs1 : DisposeHandle (u16 t1) (cpuSetAReg s 0 h1) = r1 at e1 hop1
  have hq1 : r1.2.HandleQueue = s.HandleQueue ++ [h1] := by
    rw [e1]; simp [cpuGetAReg]
  have hm1 : r1.2.HandleMap = mapErase s.HandleMap h1 := by
    rw [e1]; simp [cpuGetAReg]
  have hc1 : r1.1 = 0 := by rw [e1]; rfl
  have ha1 : cpuGetAReg r1.2 0 = h1 := by rw [e1]; simp [cpuGetAReg]
  have hf2 : mapFind (cpuSetAReg r1.2 0 h2).HandleMap (cpuGetAReg (cpuSetAReg r1.2 0 h2) 0)
      = some i2 := by
    simp only [cpuSetAReg_HandleMap, cpuGetAReg, cpuSetAReg_aReg_same, hm1]
    rw [mapFind_erase_ne _ _ _ (fun e => hne e.symm)]
    exact hl2
  have e2 := DisposeHandle_present (u16 t2) (cpuSetAReg r1.2 0 h2) i2 hf2
  have hop2 : runOp al (Op.DisposeHandle t2 h2) r1.2
      = some (DisposeHandle (u16 t2) (cpuSetAReg r1.2 0 h2)) := by
    simp only [runOp, hu2]
  generalize hs2 : DisposeHandle (u16 t2) (cpuSetAReg r1.2 0 h2) = r2 at e2 hop2
  have hq2 : r2.2.HandleQueue = s.HandleQueue ++ [h1, h2] := by
    rw [e2]; simp [cpuGetAReg, hq1]
  have hc2 : r2.1 = 0 := by rw [e2]; rfl
  have ha2 : cpuGetAReg r2.2 0 = h2 := by rw [e2]; simp [cpuGetAReg]
  -- the allocations
  unfold traceOut at hrun
  rw [runTrace_cons al _ _ s r1 hop1, runTrace_cons al _ _ r1.2 r2 hop2] at hrun
  cases hrest : runTrace al (args.map (fun a => Op.NewHandle a.1 a.2)) r2.2 with
  | none => simp [hrest] at hrun
  | some rs =>
    simp only [hrest, Option.map_some', Option.some.injEq] at hrun
    subst hrun
    simp only [List.drop_succ_cons, List.drop_zero] at hok
    have hfifo := fifo_run al args r2.2 rs hrest hok (by rw [hq2, hlen]; simp)
    refine ⟨by simp [hc1, hc2, ha1, ha2], ?_⟩
    simp only [List.drop_succ_cons, List.drop_zero]
    rw [hfifo.1, hq2, hlen]
    apply List.take_of_length_le
    simp

set_option maxRecDepth 4000 in
/-- Witness for C1: after `Init` and two allocations the queue holds 126
identities; the two handles are freed and 128 allocations follow. -/
theorem C1_fifo_reuse_witness :
    (fifoOut.take 2 = [(0, 0x10000), (0, 0x10004)]
    ∧ (fifoOut.drop 2).map Prod.snd = twoHandles.HandleQueue ++ [0x10000, 0x10004]) :=
  C1_fifo_reuse bumpAllocator twoHandles 0 0 0x10000 0x10004 ⟨0, 0⟩ ⟨0, 0⟩
    (by decide) (by decide) (by decide) (by decide) (by decide)
    (List.replicate 128 (0, 0)) fifoOut (by decide) (by decide) (by decide)

/-! ### The error cell -/

theorem memWZErr_ne_zero : memWZErr ≠ 0 := by decide

/-- Reading the error cell back right after `SetMemError`. -/
theorem SetMemError_cell (s : State) (e : Nat) (hsize : 0x0222 ≤ s.MemorySize)
    (he : e < 2 ^ 16) : memoryReadWord (SetMemError s e).2 0x0220 = e := by
  have hin : 0x0220 + 1 < s.MemorySize := by omega
  simp only [SetMemError, memoryWriteWord, if_pos hin, memoryReadWord]
  simp only [if_true, Nat.reduceAdd, Nat.reduceEqDiff, if_false]
  omega

theorem NewHandle_record_eq (s : State) (hh a n : Nat) :
    NewHandle_record s hh a n =
      SetMemError (cpuSetAReg
        (memoryWriteLong { s with HandleMap := mapEmplace s.HandleMap hh ⟨a, n⟩ } a hh) 0 hh) 0 :=
  rfl

set_option maxRecDepth 4000 in
/-- A `BlockMove` onto the error cell: on the arena whose byte at offset `a` is
`a % 251`, `DisposePtr` of the unknown offset 0x12345 stores `memWZErr` in the
cell; the `BlockMove` of 2 bytes from offset 0x20000 to offset 0x0220 that follows
returns 0 and leaves the copied bytes 50 and 51 in the cell, which then holds
neither the code of `DisposePtr` nor the code of `BlockMove`. -/
theorem BlockMove_overwrites_error_cell :
    traceOut bumpAllocator [Op.DisposePtr 0 0x12345, Op.BlockMove 0 0x20000 0x0220 2]
        patternState = some [(memWZErr, 0x12345), (0, 0x20000)]
    ∧ memoryReadWord (afterOps bumpAllocator [Op.DisposePtr 0 0x12345] patternState) 0x0220
        = memWZErr
    ∧ memoryReadWord (afterOps bumpAllocator
        [Op.DisposePtr 0 0x12345, Op.BlockMove 0 0x20000 0x0220 2] patternState) 0x0220
        = 50 * 2 ^ 8 + 51
    ∧ 50 * 2 ^ 8 + 51 ≠ memWZErr ∧ 50 * 2 ^ 8 + 51 ≠ 0 := by
  decide

theorem batchSlots_head (b : Nat) : ∃ rest, batchSlots b = b :: rest := by
  refine ⟨(List.range 127).map (fun i => b + 4 * (i + 1)), ?_⟩
  unfold batchSlots HandleCount
  rw [List.range_succ_eq_map]
  simp [Function.comp]

set_option maxRecDepth 4000 in
/-- C6 fails as stated: the pool keeps its contract, the state after `Init` and
128 `NewHandle` traps is reachable and its free queue is empty; the next
`NewHandle` succeeds and returns the identity 0x10200, the first cell of the
batch it has just minted, which was not in the free queue before the call. -/
theorem C6_counterexample :
    AllocOK bumpAllocator
    ∧ Reachable bumpAllocator 0x100000 0x10000
        (afterOps bumpAllocator (List.replicate 128 (Op.NewHandle 0 0)) bootState)
    ∧ (afterOps bumpAllocator (List.replicate 128 (Op.NewHandle 0 0)) bootState).HandleQueue = []
    ∧ traceOut bumpAllocator [Op.NewHandle 0 0]
        (afterOps bumpAllocator (List.replicate 128 (Op.NewHandle 0 0)) bootState)
        = some [(0, 0x10200)] :=
  ⟨bumpAllocator_ok, Reachable.afterOps _ _ bootState_reachable, by decide, by decide⟩

/-- C6, amended: the pool keeps its contract (every block it hands out lies in
its region and overlaps no block still allocated), the region starts past offset
0 and the arena is smaller than 2^32 bytes. Then in every state reached from a
successful `Init` by any sequence of traps no identity of the free queue is a key
of the Handle Table, and no identity occurs twice in the free queue. An identity
returned by a successful `NewHandle` was in the free queue right before the call
or, when the queue was empty, is the first cell of the batch the call has minted;
right after the call it is a key of the Handle Table and not in the free queue. -/
theorem C6_identity_lifecycle (al : Allocator) (hal : AllocOK al) (memorySize reserved : Nat)
    (hres : 0 < reserved) (hle : reserved ≤ memorySize) (hms : memorySize < 2 ^ 32)
    (s : State) (hr : Reachable al memorySize reserved s) :
    (∀ h ∈ s.HandleQueue, h ∉ mapKeys s.HandleMap)
    ∧ s.HandleQueue.Nodup
    ∧ ∀ (trap size : Nat) (r : Nat × State),
        runOp al (Op.NewHandle trap size) s = some r → r.1 = 0 →
        (cpuGetAReg r.2 0 ∈ s.HandleQueue
          ∨ (s.HandleQueue = []
              ∧ al.malloc s.pool (4 * HandleCount) = some (cpuGetAReg r.2 0)))
        ∧ cpuGetAReg r.2 0 ∈ mapKeys r.2.HandleMap
        ∧ cpuGetAReg r.2 0 ∉ r.2.HandleQueue := by
  obtain ⟨B, hB⟩ := ReachableBy.inv hal hres hle hms hr
  refine ⟨?_, hB.queue_nodup, ?_⟩
  · intro h hq hk
    exact List.disjoint_of_nodup_append hB.ids_nodup hq hk
  · intro trap size r hrun hcode
    have hr' : Reachable al memorySize reserved r.2 :=
      ReachableBy.step s (Op.NewHandle trap size) r.1 r.2 hr trivial hrun
    obtain ⟨B', hB'⟩ := ReachableBy.inv hal hres hle hms hr'
    have hafter : ∀ h, h ∈ mapKeys r.2.HandleMap → h ∉ r.2.HandleQueue := fun h hk hq =>
      List.disjoint_of_nodup_append hB'.ids_nodup hq hk
    simp only [runOp] at hrun
    have hB0 : Inv (cpuSetDReg s 0 (u32 size)) B := hB.setD 0 (u32 size)
    generalize hs0 : cpuSetDReg s 0 (u32 size) = s0 at hrun hB0
    have hq0 : s0.HandleQueue = s.HandleQueue := by rw [← hs0]; rfl
    have hp0 : s0.pool = s.pool := by rw [← hs0]; rfl
    cases hq : s0.HandleQueue with
    | cons hh rest =>
      have hfront := NewHandle_success_front al _ s0 hh rest hq r hrun hcode
      refine ⟨Or.inl ?_, ?_, ?_⟩
      · rw [← hq0, hq, hfront.1]
        exact List.mem_cons_self _ _
      · rw [hfront.1]; exact hfront.2.2
      · exact hafter _ (by rw [hfront.1]; exact hfront.2.2)
    | nil =>
      cases hm : al.malloc s0.pool (4 * HandleCount) with
      | none =>
        rw [NewHandle_grow_fail al _ s0 hq hm] at hrun
        cases hrun
        exact absurd hcode memFullErr_ne_zero
      | some b =>
        rw [NewHandle_grow_ok al _ s0 b hq hm,
          hB0.pushHandles_batch hal hm s0.HandleQueue, hq, List.nil_append] at hrun
        obtain ⟨rest, hrest⟩ := batchSlots_head b
        have htake := NewHandle_take_success al _ _ _ b rest (by simpa using hrest) r hrun hcode
        refine ⟨Or.inr ⟨by rw [← hq0, hq], ?_⟩, ?_, ?_⟩
        · rw [← hp0, hm, htake.1]
        · rw [htake.1]; exact htake.2.2
        · exact hafter _ (by rw [htake.1]; exact htake.2.2)

/-- Witness for C6: the state right after `Init` on a 1 MiB arena with 64 KiB
reserved. -/
theorem C6_identity_lifecycle_witness :
    (∀ h ∈ bootState.HandleQueue, h ∉ mapKeys bootState.HandleMap)
    ∧ bootState.HandleQueue.Nodup
    ∧ ∀ (trap size : Nat) (r : Nat × State),
        runOp bumpAllocator (Op.NewHandle trap size) bootState = some r → r.1 = 0 →
        (cpuGetAReg r.2 0 ∈ bootState.HandleQueue
          ∨ (bootState.HandleQueue = []
              ∧ bumpAllocator.malloc bootState.pool (4 * HandleCount)
                  = some (cpuGetAReg r.2 0)))
        ∧ cpuGetAReg r.2 0 ∈ mapKeys r.2.HandleMap
        ∧ cpuGetAReg r.2 0 ∉ r.2.HandleQueue :=
  C6_identity_lifecycle bumpAllocator bumpAllocator_ok 0x100000 0x10000 (by decide)
    (by decide) (by decide) bootState bootState_reachable

/-! ### Guest memory -/

theorem memoryReadLong_congr (s s' : State) (h : Nat)
    (hsame : ∀ a, h ≤ a → a < h + 4 → s'.Memory a = s.Memory a) :
    memoryReadLong s' h = memoryReadLong s h := by
  unfold memoryReadLong
  rw [hsame h (by omega) (by omega), hsame (h + 1) (by omega) (by omega),
    hsame (h + 2) (by omega) (by omega), hsame (h + 3) (by omega) (by omega)]

theorem memoryWriteWord_Memory_out (s : State) (d addr a : Nat) (h : a < addr ∨ addr + 2 ≤ a) :
    (memoryWriteWord s d addr).Memory a = s.Memory a := by
  unfold memoryWriteWord
  split
  · have h1 : a ≠ addr := by omega
    have h2 : a ≠ addr + 1 := by omega
    simp [h1, h2]
  · rfl

theorem memoryWriteLong_Memory_out (s : State) (d addr a : Nat) (h : a < addr ∨ addr + 4 ≤ a) :
    (memoryWriteLong s d addr).Memory a = s.Memory a := by
  unfold memoryWriteLong
  split
  · have h1 : a ≠ addr := by omega
    have h2 : a ≠ addr + 1 := by omega
    have h3 : a ≠ addr + 2 := by omega
    have h4 : a ≠ addr + 3 := by omega
    simp [h1, h2, h3, h4]
  · rfl

theorem memoryReadLong_write (s : State) (d addr : Nat) (hin : addr + 3 < s.MemorySize)
    (hd : d < 2 ^ 32) : memoryReadLong (memoryWriteLong s d addr) addr = d := by
  unfold memoryReadLong memoryWriteLong
  rw [if_pos hin]
  simp only [if_true, Nat.add_right_cancel_iff, Nat.reduceEqDiff, if_false,
    Nat.add_eq_left, OfNat.ofNat_ne_zero, Nat.succ_ne_self]
  omega

theorem clear_Memory_out (s : State) (c : Bool) (p n a : Nat) (h : a < p ∨ p + n ≤ a) :
    (if c = true then memset0 s p n else s).Memory a = s.Memory a := by
  split
  · have : ¬ (p ≤ a ∧ a < p + n) := by omega
    simp [memset0, this]
  · rfl

theorem memmove_Memory_out (s : State) (dest source count a : Nat)
    (h : a < dest ∨ dest + count ≤ a) :
    (memmove s dest source count).Memory a = s.Memory a := by
  have : ¬ (dest ≤ a ∧ a < dest + count) := by omega
  simp [memmove, this]

theorem mapFind_erase_some {V : Type} (m : List (Nat × V)) (k j : Nat) (v : V)
    (h : mapFind (mapErase m k) j = some v) : mapFind m j = some v := by
  by_cases hj : j = k
  · subst hj
    rw [mapFind_erase_self] at h
    cases h
  · rwa [mapFind_erase_ne m k j hj] at h

/-! ### The cells of the live handles -/

/-- The relocation contract carries over to a state whose live handles were live
before, with the same record, and whose cells for them hold what they held. -/
theorem CellsMirror.frame {s s' : State} (hs : CellsMirror s)
    (hf : ∀ h info, mapFind s'.HandleMap h = some info →
      mapFind s.HandleMap h = some info
        ∧ ∀ a, h ≤ a → a < h + 4 → s'.Memory a = s.Memory a) :
    CellsMirror s' := by
  intro h info hfind
  obtain ⟨h1, h2⟩ := hf h info hfind
  rw [memoryReadLong_congr s s' h h2]
  exact hs h info h1

/-- The relocation contract after `SetMemError`, when no live handle cell lies in
the first 0x222 bytes. -/
theorem CellsMirror.setMemError {x : State} (hx : CellsMirror x) (e : Nat)
    (hkeys : ∀ h ∈ mapKeys x.HandleMap, 0x222 ≤ h) : CellsMirror (SetMemError x e).2 := by
  apply hx.frame
  intro h info hfind
  rw [SetMemError_HandleMap] at hfind
  refine ⟨hfind, ?_⟩
  intro a ha _
  have := hkeys h (mapFind_some_key _ _ _ hfind)
  exact memoryWriteWord_Memory_out x e 0x220 a (by omega)

/-- The relocation contract after lines 292-296 of `NewHandle`: the new handle
`hh` is recorded with address `a`, and `a` is stored in its cell. -/
theorem CellsMirror.record (z : State) (hh a n : Nat)
    (hz : ∀ h info, mapFind z.HandleMap h = some info →
      memoryReadLong z h = info.address ∧ (h + 4 ≤ hh ∨ hh + 4 ≤ h))
    (hnew : hh ∉ mapKeys z.HandleMap) (hin : hh + 3 < z.MemorySize) (ha : a < 2 ^ 32) :
    CellsMirror (cpuSetAReg
      (memoryWriteLong { z with HandleMap := mapEmplace z.HandleMap hh ⟨a, n⟩ } a hh) 0 hh) := by
  intro h info hfind
  simp only [cpuSetAReg_HandleMap, memoryWriteLong_HandleMap] at hfind
  rw [mapFind_emplace_new _ _ _ hnew] at hfind
  by_cases hh' : h = hh
  · rw [if_pos hh'] at hfind
    cases hfind
    subst hh'
    exact memoryReadLong_write _ a h hin ha
  · rw [if_neg hh'] at hfind
    obtain ⟨h1, h2⟩ := hz h info hfind
    rw [← h1]
    apply memoryReadLong_congr
    intro x hx1 hx2
    exact memoryWriteLong_Memory_out _ a hh x (by omega)

/-! ### Where the handle cells lie -/

theorem Inv.slot_batch {s : State} {B : List Nat} (_h : Inv s B) (x : Nat)
    (hx : x ∈ B.flatMap batchSlots) : ∃ b ∈ B, ∃ i, i < HandleCount ∧ x = b + 4 * i := by
  obtain ⟨b, hb, hxb⟩ := List.mem_flatMap.mp hx
  exact ⟨b, hb, (mem_batchSlots b x).mp hxb⟩

theorem Inv.key_slot {s : State} {B : List Nat} (h : Inv s B) (x : Nat)
    (hx : x ∈ mapKeys s.HandleMap) : x ∈ B.flatMap batchSlots :=
  h.ids.subset (List.mem_append_right _ hx)

theorem Inv.queue_slot {s : State} {B : List Nat} (h : Inv s B) (x : Nat)
    (hx : x ∈ s.HandleQueue) : x ∈ B.flatMap batchSlots :=
  h.ids.subset (List.mem_append_left _ hx)

/-- A handle cell lies inside the pool region. -/
theorem Inv.slot_bounds {s : State} {B : List Nat} (h : Inv s B) (x : Nat)
    (hx : x ∈ B.flatMap batchSlots) :
    s.pool.start ≤ x ∧ x + 4 ≤ s.pool.start + s.pool.len := by
  obtain ⟨b, hb, i, hi, rfl⟩ := h.slot_batch x hx
  have := h.batch_bounds b hb
  unfold HandleCount at *
  omega

/-- Two different handle cells have no byte in common. -/
theorem Inv.slot_apart {s : State} {B : List Nat} (h : Inv s B) (x y : Nat)
    (hx : x ∈ B.flatMap batchSlots) (hy : y ∈ B.flatMap batchSlots) (hne : x ≠ y) :
    x + 4 ≤ y ∨ y + 4 ≤ x := by
  obtain ⟨b1, hb1, i, hi, rfl⟩ := h.slot_batch x hx
  obtain ⟨b2, hb2, j, hj, rfl⟩ := h.slot_batch y hy
  by_cases hb : b1 = b2
  · subst hb
    omega
  · have := h.batches_disjoint b1 b2 hb1 hb2 hb
    unfold HandleCount at *
    omega

/-- A block handed out by the pool has no byte in common with a handle cell. -/
theorem Inv.slot_block {s : State} {B : List Nat} (h : Inv s B) {al : Allocator}
    (hal : AllocOK al) {n p : Nat} (hm : al.malloc s.pool n = some p) (x : Nat)
    (hx : x ∈ B.flatMap batchSlots) : x + 4 ≤ p ∨ p + n ≤ x := by
  obtain ⟨b, hb, i, hi, rfl⟩ := h.slot_batch x hx
  have hd := (hal s.pool n p hm).2.2 _ (h.batches_live b hb)
  unfold SpanDisjoint at hd
  unfold HandleCount at *
  simp only at hd
  omega

/-! ### The relocation contract along a run -/

theorem cells_finish {s x : State} {e : Nat} {B' : List Nat}
    (hB' : Inv (SetMemError x e).2 B') (hst : x.pool.start = s.pool.start)
    (hlo : 0x222 ≤ s.pool.start) (hx : CellsMirror x) :
    CellsMirror (SetMemError x e).2 ∧ (SetMemError x e).2.pool.start = s.pool.start := by
  refine ⟨hx.setMemError e ?_, by simp [hst]⟩
  intro h hk
  have hk' : h ∈ mapKeys (SetMemError x e).2.HandleMap := by simpa using hk
  have hb := hB'.slot_bounds h (hB'.key_slot h hk')
  have : (SetMemError x e).2.pool.start = s.pool.start := by simp [hst]
  omega

theorem DisposePtr_cells {s : State} {B : List Nat} (h : Inv s B) (hc : CellsMirror s)
    (hlo : 0x222 ≤ s.pool.start) (t : Nat) :
    CellsMirror (DisposePtr t s).2 ∧ (DisposePtr t s).2.pool.start = s.pool.start := by
  have hB' := DisposePtr_inv h t
  cases hf : mapFind s.PtrMap (cpuGetAReg s 0) with
  | none =>
    rw [DisposePtr_absent t s hf] at hB' ⊢
    exact cells_finish hB' rfl hlo hc
  | some sz =>
    rw [DisposePtr_present t s sz hf] at hB' ⊢
    exact cells_finish hB' rfl hlo (hc.frame (fun _ _ hfind => ⟨hfind, fun _ _ _ => rfl⟩))

theorem DisposeHandle_cells {s : State} {B : List Nat} (h : Inv s B) (hc : CellsMirror s)
    (hlo : 0x222 ≤ s.pool.start) (t : Nat) :
    CellsMirror (DisposeHandle t s).2 ∧ (DisposeHandle t s).2.pool.start = s.pool.start := by
  have hB' := DisposeHandle_inv h t
  cases hf : mapFind s.HandleMap (cpuGetAReg s 0) with
  | none =>
    rw [DisposeHandle_absent t s hf] at hB' ⊢
    exact cells_finish hB' rfl hlo hc
  | some info =>
    rw [DisposeHandle_present t s info hf] at hB' ⊢
    exact cells_finish hB' rfl hlo
      (hc.frame (fun _ _ hfind => ⟨mapFind_erase_some _ _ _ _ hfind, fun _ _ _ => rfl⟩))

theorem NewPtr_cells {s : State} {B : List Nat} (h : Inv s B) {al : Allocator}
    (hal : AllocOK al) (hc : CellsMirror s) (hlo : 0x222 ≤ s.pool.start) (t : Nat) :
    CellsMirror (NewPtr al t s).2 ∧ (NewPtr al t s).2.pool.start = s.pool.start := by
  have hB' := NewPtr_inv h hal t
  by_cases h0 : cpuGetDReg s 0 = 0
  · rw [NewPtr_zero al t s h0] at hB' ⊢
    exact cells_finish hB' rfl hlo (hc.frame (fun _ _ hfind => ⟨hfind, fun _ _ _ => rfl⟩))
  · cases hm : al.malloc s.pool (cpuGetDReg s 0) with
    | none =>
      rw [NewPtr_fail al t s h0 hm] at hB' ⊢
      exact cells_finish hB' rfl hlo (hc.frame (fun _ _ hfind => ⟨hfind, fun _ _ _ => rfl⟩))
    | some p =>
      rw [NewPtr_ok al t s p h0 hm] at hB' ⊢
      refine cells_finish hB' (by simp) hlo (hc.frame ?_)
      intro x info hfind
      have hfind' : mapFind s.HandleMap x = some info := by simpa using hfind
      refine ⟨hfind', ?_⟩
      intro a ha1 ha2
      have hsl := h.slot_block hal hm x (h.key_slot x (mapFind_some_key _ _ _ hfind'))
      simp only [cpuSetAReg_Memory]
      exact clear_Memory_out _ _ p _ a (by omega)

theorem BlockMove_cells {s : State} (hc : CellsMirror s) (t : Nat)
    (hsafe : ∀ h ∈ mapKeys s.HandleMap,
      h + 4 ≤ cpuGetAReg s 1 ∨ cpuGetAReg s 1 + cpuGetDReg s 0 ≤ h ∨ cpuGetDReg s 0 = 0) :
    CellsMirror (BlockMove t s).2 ∧ (BlockMove t s).2.pool.start = s.pool.start := by
  refine ⟨hc.frame ?_, rfl⟩
  intro x info hfind
  have hfind' : mapFind s.HandleMap x = some info := hfind
  refine ⟨hfind', ?_⟩
  intro a ha1 ha2
  have := hsafe x (mapFind_some_key _ _ _ hfind')
  exact memmove_Memory_out s _ _ _ a (by omega)

theorem NewHandle_take_cells {s : State} {B : List Nat} (h : Inv s B) {al : Allocator}
    (hal : AllocOK al) (hc : CellsMirror s) (hlo : 0x222 ≤ s.pool.start) (c : Bool) (n : Nat)
    (r : Nat × State) (hr : NewHandle_take al c n s = some r) :
    CellsMirror r.2 ∧ r.2.pool.start = s.pool.start := by
  have hB' := NewHandle_take_inv h hal c n r hr
  cases hq : s.HandleQueue with
  | nil => simp [NewHandle_take, hq] at hr
  | cons hh rest =>
    have hidn := h.ids_nodup
    rw [hq] at hidn
    have hnew : hh ∉ mapKeys s.HandleMap := fun hx =>
      (List.nodup_cons.mp hidn).1 (List.mem_append_right _ hx)
    have hhslot : hh ∈ B.flatMap batchSlots :=
      h.queue_slot hh (by rw [hq]; exact List.mem_cons_self _ _)
    have hin : hh + 3 < s.MemorySize := by
      have := h.slot_bounds hh hhslot
      have := h.region
      omega
    have hapart : ∀ x info, mapFind s.HandleMap x = some info → x + 4 ≤ hh ∨ hh + 4 ≤ x := by
      intro x info hfind
      have hk := mapFind_some_key _ _ _ hfind
      exact h.slot_apart x hh (h.key_slot x hk) hhslot (fun e => hnew (e ▸ hk))
    by_cases hn : n = 0
    · subst hn
      rw [NewHandle_take_empty al c s hh rest hq, NewHandle_record_eq] at hr
      cases hr
      refine cells_finish hB' (by simp) hlo (CellsMirror.record _ hh 0 0 ?_ hnew hin (by decide))
      intro x info hfind
      exact ⟨hc x info hfind, hapart x info hfind⟩
    · cases hm : al.malloc s.pool n with
      | none =>
        rw [NewHandle_take_fail al c n s hh rest hq hn hm] at hr
        cases hr
        exact cells_finish hB' (by simp) hlo
          (hc.frame (fun _ _ hfind => ⟨hfind, fun _ _ _ => rfl⟩))
      | some p =>
        rw [NewHandle_take_ok al c n s hh rest p hq hn hm, NewHandle_record_eq] at hr
        cases hr
        refine cells_finish hB' (by simp) hlo
          (CellsMirror.record _ hh (u32 p) n ?_ (by simpa using hnew) (by simpa using hin)
            (Nat.mod_lt _ (by decide)))
        intro x info hfind
        have hfind' : mapFind s.HandleMap x = some info := by simpa using hfind
        refine ⟨?_, hapart x info hfind'⟩
        rw [← hc x info hfind']
        apply memoryReadLong_congr
        intro a ha1 ha2
        have hsl := h.slot_block hal hm x (h.key_slot x (mapFind_some_key _ _ _ hfind'))
        exact clear_Memory_out _ _ p _ a (by omega)

theorem NewHandle_cells {s : State} {B : List Nat} (h : Inv s B) {al : Allocator}
    (hal : AllocOK al) (hc : CellsMirror s) (hlo : 0x222 ≤ s.pool.start) (t : Nat)
    (r : Nat × State) (hr : NewHandle al t s = some r) :
    CellsMirror r.2 ∧ r.2.pool.start = s.pool.start := by
  by_cases hq : s.HandleQueue = []
  · cases hm : al.malloc s.pool (4 * HandleCount) with
    | none =>
      obtain ⟨B', hB', _⟩ := NewHandle_inv h hal t r hr
      rw [NewHandle_grow_fail al t s hq hm] at hr
      cases hr
      exact cells_finish hB' rfl hlo (hc.frame (fun _ _ hfind => ⟨hfind, fun _ _ _ => rfl⟩))
    | some b =>
      have hgrow := (alloc_handle_block_inv h hal b hm).1
      rw [alloc_handle_block_ok al s b hm] at hgrow
      rw [NewHandle_grow_ok al t s b hq hm] at hr
      exact NewHandle_take_cells hgrow hal
        (hc.frame (fun _ _ hfind => ⟨hfind, fun _ _ _ => rfl⟩)) hlo _ _ r hr
  · rw [NewHandle_nonempty al t s hq] at hr
    exact NewHandle_take_cells h hal hc hlo _ _ r hr

theorem runOp_cells {s : State} {B : List Nat} (h : Inv s B) {al : Allocator}
    (hal : AllocOK al) (hc : CellsMirror s) (hlo : 0x222 ≤ s.pool.start) (op : Op)
    (hsafe : slotSafe s op) (r : Nat × State) (hrun : runOp al op s = some r) :
    CellsMirror r.2 ∧ r.2.pool.start = s.pool.start := by
  cases op with
  | NewPtr trap size =>
    simp only [runOp, Option.some.injEq] at hrun
    subst hrun
    exact NewPtr_cells (h.setD _ _) hal
      (hc.frame (fun _ _ hfind => ⟨hfind, fun _ _ _ => rfl⟩)) hlo _
  | NewHandle trap size =>
    exact NewHandle_cells (h.setD 0 (u32 size)) hal
      (hc.frame (fun _ _ hfind => ⟨hfind, fun _ _ _ => rfl⟩)) hlo _ r hrun
  | DisposePtr trap ptr =>
    simp only [runOp, Option.some.injEq] at hrun
    subst hrun
    exact DisposePtr_cells (h.setA _ _)
      (hc.frame (fun _ _ hfind => ⟨hfind, fun _ _ _ => rfl⟩)) hlo _
  | DisposeHandle trap hh =>
    simp only [runOp, Option.some.injEq] at hrun
    subst hrun
    exact DisposeHandle_cells (h.setA _ _)
      (hc.frame (fun _ _ hfind => ⟨hfind, fun _ _ _ => rfl⟩)) hlo _
  | BlockMove trap source dest count =>
    simp only [runOp, Option.some.injEq] at hrun
    subst hrun
    have hS : CellsMirror
        (cpuSetDReg (cpuSetAReg (cpuSetAReg s 0 (u32 source)) 1 (u32 dest)) 0 (u32 count)) :=
      hc.frame (fun _ _ hfind => ⟨hfind, fun _ _ _ => rfl⟩)
    have hsafe' : ∀ h ∈ mapKeys s.HandleMap,
        h + 4 ≤ u32 dest ∨ u32 dest + u32 count ≤ h ∨ u32 count = 0 := hsafe
    exact BlockMove_cells hS (u16 trap) hsafe'

/-- The relocation contract holds in every state reached by traps that leave the
cells of the live handles alone, when the pool region starts past the error cell. -/
theorem ReachableBy.cells {al : Allocator} (hal : AllocOK al) {memorySize reserved : Nat}
    (hres : 0x222 ≤ reserved) (hle : reserved ≤ memorySize) (hms : memorySize < 2 ^ 32)
    {s : State} (hr : ReachableBy al memorySize reserved slotSafe s) :
    (∃ B, Inv s B) ∧ CellsMirror s ∧ 0x222 ≤ s.pool.start := by
  have hres0 : 0 < reserved := by omega
  induction hr with
  | init memory s hinit =>
    obtain ⟨b, hb, _, hmap, _⟩ := Init_inv hal memory memorySize reserved hres0 hle hms s hinit
    refine ⟨⟨[b], hb⟩, ?_, ?_⟩
    · intro h info hfind
      rw [hmap] at hfind
      cases hfind
    · unfold Init at hinit
      split at hinit
      · cases hm : al.malloc (⟨reserved, u32 (memorySize + 2 ^ 32 - reserved), []⟩ : Pool)
          (4 * HandleCount) with
        | none =>
          rw [alloc_handle_block_fail al _ hm] at hinit
          simp at hinit
        | some b2 =>
          rw [alloc_handle_block_ok al _ b2 hm] at hinit
          simp only [Prod.mk.injEq, true_and] at hinit
          subst hinit
          exact hres
      · simp at hinit
  | step s op code s' _ hok hrun ih =>
    obtain ⟨⟨B, hB⟩, hc, hlo⟩ := ih
    obtain ⟨B', hB', _⟩ := runOp_inv hB hal op (code, s') hrun
    obtain ⟨hc', hst⟩ := runOp_cells hB hal hc hlo op hok (code, s') hrun
    exact ⟨⟨B', hB'⟩, hc', by rw [hst]; exact hlo⟩

theorem runOp_eq_afterOps (al : Allocator) (op : Op) (s : State) (code : Nat)
    (h : (runOp al op s).map Prod.fst = some code) :
    runOp al op s = some (code, afterOps al [op] s) := by
  cases hr : runOp al op s with
  | none => simp [hr] at h
  | some r =>
    have hc : r.1 = code := by simpa [hr] using h
    simp [afterOps, runTrace, hr, ← hc]

set_option maxRecDepth 4000 in
/-- C4 fails as stated: after `Init` and a `NewHandle` of 16 bytes the handle
0x10000 is live with recorded address 0x10200, and its cell holds 0x10200. A
`BlockMove` of 4 bytes from offset 0x20000 to offset 0x10000 then overwrites the
cell: in the state so reached the record still says 0x10200 but the 32-bit value
at offset 0x10000 is 0. -/
theorem C4_counterexample :
    AllocOK bumpAllocator
    ∧ Reachable bumpAllocator 0x100000 0x10000 movedState
    ∧ mapFind handleState.HandleMap 0x10000 = some ⟨0x10200, 16⟩
    ∧ memoryReadLong handleState 0x10000 = 0x10200
    ∧ mapFind movedState.HandleMap 0x10000 = some ⟨0x10200, 16⟩
    ∧ memoryReadLong movedState 0x10000 = 0 :=
  ⟨bumpAllocator_ok, Reachable.afterOps _ _ bootState_reachable, by decide, by decide,
    by decide, by decide⟩

/-- C4, amended: the pool keeps its contract (every block it hands out lies in
its region and overlaps no block still allocated), the pool region starts at or
above offset 0x0222, past the error cell, and the arena is smaller than 2^32
bytes. Then in every state reached from a successful `Init` by a sequence of the
five traps in which no `BlockMove` has a destination range that meets the 4-byte
cell of a handle live at that time, the 32-bit value stored at the offset of
every live handle equals the address recorded for it in the Handle Table. -/
theorem C4_relocation_contract (al : Allocator) (hal : AllocOK al) (memorySize reserved : Nat)
    (hres : 0x222 ≤ reserved) (hle : reserved ≤ memorySize) (hms : memorySize < 2 ^ 32)
    (s : State) (hr : ReachableBy al memorySize reserved slotSafe s)
    (h : Nat) (info : HandleInfo) (hlive : mapFind s.HandleMap h = some info) :
    memoryReadLong s h = info.address :=
  (ReachableBy.cells hal hres hle hms hr).2.1 h info hlive

set_option maxRecDepth 4000 in
/-- Witness for C4: the state after `Init`, a `NewHandle` of 16 bytes and a
`BlockMove` of 8 bytes into the block of the handle. -/
theorem C4_relocation_contract_witness :
    memoryReadLong (afterOps bumpAllocator [Op.BlockMove 0 0x20000 0x10200 8] handleState) 0x10000
      = (⟨0x10200, 16⟩ : HandleInfo).address :=
  C4_relocation_contract bumpAllocator bumpAllocator_ok 0x100000 0x10000 (by decide) (by decide)
    (by decide) (afterOps bumpAllocator [Op.BlockMove 0 0x20000 0x10200 8] handleState)
    (ReachableBy.step handleState (Op.BlockMove 0 0x20000 0x10200 8) 0 _
      (ReachableBy.step bootState (Op.NewHandle 0 16) 0 handleState
        (ReachableBy.init (fun _ => 0) bootState (Prod.ext (by decide) rfl)) trivial
        (runOp_eq_afterOps bumpAllocator (Op.NewHandle 0 16) bootState 0 (by decide)))
      (by decide)
      (runOp_eq_afterOps bumpAllocator (Op.BlockMove 0 0x20000 0x10200 8) handleState 0
        (by decide)))
    0x10000 ⟨0x10200, 16⟩ (by decide)

/-! ### Clearing a block -/

/-- The clear flag is bit 9 of the trap word. -/
theorem clearFlag_eq_testBit (trap : Nat) : clearFlag trap = trap.testBit 9 := by
  unfold clearFlag
  rw [Nat.one_shiftLeft, Nat.and_two_pow]
  cases trap.testBit 9 <;> simp


theorem SetMemError_zero_Memory (x : State) (a : Nat) (h : x.Memory a = 0) :
    (SetMemError x 0).2.Memory a = 0 := by
  simp only [SetMemError, memoryWriteWord]
  split
  · simp only [Nat.zero_div, Nat.zero_mod]
    split
    · rfl
    · split
      · rfl
      · exact h
  · exact h

theorem clear_Memory_in (s : State) (p n a : Nat) (h1 : p ≤ a) (h2 : a < p + n) :
    (if true = true then memset0 s p n else s).Memory a = 0 := by
  simp [memset0, h1, h2]

/-- The codes and results of `NewHandle` when the requested size is not 0: what
the last pool request of the call was. -/
theorem NewHandle_take_last_call (al : Allocator) (c : Bool) (n : Nat) (s : State)
    (hn : n ≠ 0) (r : Nat × State) (hr : NewHandle_take al c n s = some r) :
    ∃ hh rest, s.HandleQueue = hh :: rest
      ∧ r.2.pool.calls = PoolCall.malloc n (al.malloc s.pool n) :: s.pool.calls
      ∧ ∀ p, al.malloc s.pool n = some p →
          r = NewHandle_record
            (if c = true then memset0 (mplite_malloc al { s with HandleQueue := rest } n).2 p n
              else (mplite_malloc al { s with HandleQueue := rest } n).2) hh (u32 p) n := by
  cases hq : s.HandleQueue with
  | nil => simp [NewHandle_take, hq] at hr
  | cons hh rest =>
    refine ⟨hh, rest, rfl, ?_⟩
    cases hm : al.malloc s.pool n with
    | none =>
      rw [NewHandle_take_fail al c n s hh rest hq hn hm] at hr
      cases hr
      exact ⟨by simp [hm], fun p hp => by cases hp⟩
    | some p =>
      rw [NewHandle_take_ok al c n s hh rest p hq hn hm] at hr
      cases hr
      refine ⟨by simp [hm], ?_⟩
      intro p' hp'
      cases hp'
      rfl

/-- C11: `NewPtr` and `NewHandle` are invoked with the clear flag set (bit 9 of the
trap word) and `D0 = size`, `size` not 0. When the pool answers the request of
`NewPtr` with offset `p`, every byte of `[p, p + size)` is 0 when `NewPtr`
returns. When `NewHandle` returns and its last pool request was the request for
`size` bytes, answered with offset `p`, and the block has no byte in common with
the 4-byte cell of the handle returned in `A0`, every byte of `[p, p + size)` is
0 on return. -/
theorem C11_clear_on_allocate (al : Allocator) (trap1 trap2 size p : Nat) (s1 s2 : State)
    (r : Nat × State) (hbit1 : trap1.testBit 9 = true) (hbit2 : trap2.testBit 9 = true)
    (hsize : size ≠ 0)
    (hd1 : cpuGetDReg s1 0 = size) (hm1 : al.malloc s1.pool size = some p)
    (hd2 : cpuGetDReg s2 0 = size) (hr : NewHandle al trap2 s2 = some r)
    (hlast : r.2.pool.calls.head? = some (PoolCall.malloc size (some p)))
    (hcell : cpuGetAReg r.2 0 + 4 ≤ p ∨ p + size ≤ cpuGetAReg r.2 0) :
    (∀ a, p ≤ a → a < p + size → (NewPtr al trap1 s1).2.Memory a = 0)
    ∧ (∀ a, p ≤ a → a < p + size → r.2.Memory a = 0) := by
  have hclear1 : clearFlag trap1 = true := by rw [clearFlag_eq_testBit]; exact hbit1
  have hclear2 : clearFlag trap2 = true := by rw [clearFlag_eq_testBit]; exact hbit2
  constructor
  · intro a ha1 ha2
    have h0 : cpuGetDReg s1 0 ≠ 0 := by rw [hd1]; exact hsize
    rw [NewPtr_ok al trap1 s1 p h0 (by rw [hd1]; exact hm1), hclear1, hd1]
    apply SetMemError_zero_Memory
    simp only [cpuSetAReg_Memory]
    exact clear_Memory_in _ p size a ha1 ha2
  · intro a ha1 ha2
    -- the state in which the handle is taken from the queue
    have key : ∀ (x : State),
        NewHandle_take al (clearFlag trap2) size x = some r → r.2.Memory a = 0 := by
      intro x hx
      obtain ⟨hh, rest, _, hcalls, hrec⟩ := NewHandle_take_last_call al _ size x hsize r hx
      rw [hcalls] at hlast
      simp only [List.head?_cons, Option.some.injEq, PoolCall.malloc.injEq, true_and] at hlast
      have hr2 := hrec p hlast
      have hA : cpuGetAReg r.2 0 = hh := by rw [hr2]; simp [cpuGetAReg]
      rw [hA] at hcell
      rw [hr2, NewHandle_record_eq, hclear2]
      apply SetMemError_zero_Memory
      simp only [cpuSetAReg_Memory]
      rw [memoryWriteLong_Memory_out _ _ hh a (by omega)]
      exact clear_Memory_in _ p size a ha1 ha2
    by_cases hq : s2.HandleQueue = []
    · cases hm : al.malloc s2.pool (4 * HandleCount) with
      | none =>
        rw [NewHandle_grow_fail al trap2 s2 hq hm] at hr
        cases hr
        simp [hm] at hlast
      | some b =>
        rw [NewHandle_grow_ok al trap2 s2 b hq hm, hd2] at hr
        exact key _ hr
    · rw [NewHandle_nonempty al trap2 s2 hq, hd2] at hr
      exact key _ hr

set_option maxRecDepth 4000 in
/-- Witness for C11: right after `Init` on an arena filled with the pattern
`a % 251`, a request of 16 bytes with trap word 0x31E (`NewPtr`) and 0x322
(`NewHandle`), both with bit 9 set; the pool answers with offset 0x10200. -/
theorem C11_clear_on_allocate_witness :
    (∀ a, 0x10200 ≤ a → a < 0x10200 + 16 →
      (NewPtr bumpAllocator 0x31E (cpuSetDReg patternState 0 16)).2.Memory a = 0)
    ∧ (∀ a, 0x10200 ≤ a → a < 0x10200 + 16 →
      (afterOps bumpAllocator [Op.NewHandle 0x322 16] patternState).Memory a = 0) :=
  C11_clear_on_allocate bumpAllocator 0x31E 0x322 16 0x10200
    (cpuSetDReg patternState 0 16) (cpuSetDReg patternState 0 16)
    (0, afterOps bumpAllocator [Op.NewHandle 0x322 16] patternState)
    (by decide) (by decide) (by decide) (by decide) (by decide) (by decide)
    (runOp_eq_afterOps bumpAllocator (Op.NewHandle 0x322 16) patternState 0 (by decide))
    (by decide) (by decide)

/-- C15: when `NewHandle` is invoked with an empty free queue and the pool cannot
supply the batch of `4 * HandleCount` = 512 bytes, the trap returns `memFullErr`
with `A0 = 0`; the failed batch request is the only request it sends to the pool,
and the free queue (still empty), the Handle Table and the Direct-Block Map are
unchanged. -/
theorem C15_growth_failure (al : Allocator) (trap : Nat) (s : State)
    (hq : s.HandleQueue = []) (hfail : al.malloc s.pool (4 * HandleCount) = none) :
    ∃ s', NewHandle al trap s = some (memFullErr, s')
      ∧ cpuGetAReg s' 0 = 0
      ∧ s'.pool.calls = PoolCall.malloc 512 none :: s.pool.calls
      ∧ s'.HandleQueue = []
      ∧ s'.HandleMap = s.HandleMap
      ∧ s'.PtrMap = s.PtrMap := by
  rw [NewHandle_grow_fail al trap s hq hfail]
  refine ⟨_, rfl, by simp [cpuGetAReg], ?_, by simp [hq], by simp, by simp⟩
  have hfail' : al.malloc s.pool 512 = none := hfail
  simp [hfail', HandleCount]

set_option maxRecDepth 4000 in
/-- Witness for C15: the pool that serves the first request only, after `Init`
and 128 allocations of empty handles; the request is for 8 bytes. -/
theorem C15_growth_failure_witness :
    ∃ s', NewHandle onceAllocator 0x122 (cpuSetDReg drainedOnce 0 8) = some (memFullErr, s')
      ∧ cpuGetAReg s' 0 = 0
      ∧ s'.pool.calls = PoolCall.malloc 512 none :: (cpuSetDReg drainedOnce 0 8).pool.calls
      ∧ s'.HandleQueue = []
      ∧ s'.HandleMap = (cpuSetDReg drainedOnce 0 8).HandleMap
      ∧ s'.PtrMap = (cpuSetDReg drainedOnce 0 8).PtrMap :=
  C15_growth_failure onceAllocator 0x122 (cpuSetDReg drainedOnce 0 8) (by decide) (by decide)

/-- C20: the arena is smaller than `2 ^ 32` bytes and a batch handed out by the
pool ends inside the arena, `b + 512 ≤ MemorySize`. Then `alloc_handle_block`,
when the pool hands out a batch at `b`, reports success and appends exactly the
128 identities `b, b + 4, ..., b + 508` to the free queue; and `NewHandle` always
returns: it never calls `front()` on an empty queue. -/
theorem C20_never_empty_front (al : Allocator) (trap : Nat) (s : State)
    (hms : s.MemorySize < 2 ^ 32)
    (hb : ∀ b, al.malloc s.pool (4 * HandleCount) = some b → b + 512 ≤ s.MemorySize) :
    (∀ b, al.malloc s.pool (4 * HandleCount) = some b →
      (alloc_handle_block al s).1 = true
      ∧ (alloc_handle_block al s).2.HandleQueue = s.HandleQueue ++ batchSlots b
      ∧ (batchSlots b).length = 128)
    ∧ ∃ r, NewHandle al trap s = some r := by
  have hpush : ∀ b, al.malloc s.pool (4 * HandleCount) = some b →
      pushHandles (2 ^ 32) (u32 b) (u32 (u32 b + 128 * 4)) s.HandleQueue
        = s.HandleQueue ++ batchSlots b := by
    intro b hm
    have h1 := hb b hm
    have hu : u32 b = b := Nat.mod_eq_of_lt (by omega)
    have he : u32 (b + 128 * 4) = b + 4 * 128 := by
      unfold u32; exact Nat.mod_eq_of_lt (by omega)
    rw [hu, he, pushHandles_eq 128 _ b s.HandleQueue (by norm_num) (by omega)]
    rfl
  constructor
  · intro b hm
    rw [alloc_handle_block_ok al s b hm, hpush b hm]
    exact ⟨rfl, rfl, batchSlots_length b⟩
  · have take : ∀ (x : State) (c : Bool) (n : Nat), x.HandleQueue ≠ [] →
        ∃ r, NewHandle_take al c n x = some r := by
      intro x c n hx
      cases hq : x.HandleQueue with
      | nil => exact absurd hq hx
      | cons hh rest =>
        by_cases hn : n = 0
        · subst hn
          exact ⟨_, NewHandle_take_empty al c x hh rest hq⟩
        · cases hm : al.malloc x.pool n with
          | none => exact ⟨_, NewHandle_take_fail al c n x hh rest hq hn hm⟩
          | some p => exact ⟨_, NewHandle_take_ok al c n x hh rest p hq hn hm⟩
    by_cases hq : s.HandleQueue = []
    · cases hm : al.malloc s.pool (4 * HandleCount) with
      | none => exact ⟨_, NewHandle_grow_fail al trap s hq hm⟩
      | some b =>
        rw [NewHandle_grow_ok al trap s b hq hm, hpush b hm]
        apply take
        obtain ⟨rest, hrest⟩ := batchSlots_head b
        simp [hq, hrest]
    · rw [NewHandle_nonempty al trap s hq]
      exact take s _ _ hq

set_option maxRecDepth 4000 in
/-- Witness for C20: the state with an empty queue reached after `Init` and 128
allocations; the pool hands out the next batch at offset 0x10200. -/
theorem C20_never_empty_front_witness :
    (∀ b, bumpAllocator.malloc drained.pool (4 * HandleCount) = some b →
      (alloc_handle_block bumpAllocator drained).1 = true
      ∧ (alloc_handle_block bumpAllocator drained).2.HandleQueue
          = drained.HandleQueue ++ batchSlots b
      ∧ (batchSlots b).length = 128)
    ∧ ∃ r, NewHandle bumpAllocator 0x122 drained = some r :=
  C20_never_empty_front bumpAllocator 0x122 drained (by decide)
    (fun b hb => by
      have h : b = 0x10200 := by
        have h2 : bumpAllocator.malloc drained.pool (4 * HandleCount) = some 0x10200 := by
          decide
        rw [h2] at hb
        exact (Option.some.inj hb).symm
      rw [h]
      decide)

set_option maxRecDepth 4000 in
/-- Without the proviso of C20 the trap can run into the undefined `front()`:
a batch 4 bytes below `2 ^ 32` makes the 32-bit end of the loop wrap, no identity
is enqueued, and `NewHandle` on the empty queue has no defined result. -/
theorem NewHandle_undefined_on_wrap :
    (alloc_handle_block wrapAllocator startup).1 = true
    ∧ (alloc_handle_block wrapAllocator startup).2.HandleQueue = []
    ∧ (NewHandle wrapAllocator 0x122 startup).isNone = true := by
  decide

/-! ### The pool region never changes -/

theorem SameRegion.of_eq {s' s : State} (h1 : s'.pool.start = s.pool.start)
    (h2 : s'.pool.len = s.pool.len) (h3 : s'.MemorySize = s.MemorySize) : SameRegion s' s :=
  ⟨h1, h2, h3⟩

theorem SameRegion.trans {a b c : State} (h1 : SameRegion a b) (h2 : SameRegion b c) :
    SameRegion a c :=
  ⟨h1.1.trans h2.1, h1.2.1.trans h2.2.1, h1.2.2.trans h2.2.2⟩

theorem NewPtr_region (al : Allocator) (t : Nat) (s : State) :
    SameRegion (NewPtr al t s).2 s := by
  by_cases h0 : cpuGetDReg s 0 = 0
  · rw [NewPtr_zero al t s h0]
    exact SameRegion.of_eq (by simp) (by simp) (by simp)
  · cases hm : al.malloc s.pool (cpuGetDReg s 0) with
    | none =>
      rw [NewPtr_fail al t s h0 hm]
      exact SameRegion.of_eq (by simp) (by simp) (by simp)
    | some p =>
      rw [NewPtr_ok al t s p h0 hm]
      exact SameRegion.of_eq (by simp) (by simp) (by simp)

theorem DisposePtr_region (t : Nat) (s : State) : SameRegion (DisposePtr t s).2 s := by
  cases hf : mapFind s.PtrMap (cpuGetAReg s 0) with
  | none =>
    rw [DisposePtr_absent t s hf]
    exact SameRegion.of_eq (by simp) (by simp) (by simp)
  | some sz =>
    rw [DisposePtr_present t s sz hf]
    exact SameRegion.of_eq (by simp) (by simp) (by simp)

theorem DisposeHandle_region (t : Nat) (s : State) : SameRegion (DisposeHandle t s).2 s := by
  cases hf : mapFind s.HandleMap (cpuGetAReg s 0) with
  | none =>
    rw [DisposeHandle_absent t s hf]
    exact SameRegion.of_eq (by simp) (by simp) (by simp)
  | some info =>
    rw [DisposeHandle_present t s info hf]
    exact SameRegion.of_eq (by simp) (by simp) (by simp)

theorem NewHandle_take_region (al : Allocator) (c : Bool) (n : Nat) (s : State)
    (r : Nat × State) (hr : NewHandle_take al c n s = some r) : SameRegion r.2 s := by
  cases hq : s.HandleQueue with
  | nil => simp [NewHandle_take, hq] at hr
  | cons hh rest =>
    by_cases hn : n = 0
    · subst hn
      rw [NewHandle_take_empty al c s hh rest hq] at hr
      cases hr
      exact SameRegion.of_eq (by simp) (by simp) (by simp)
    · cases hm : al.malloc s.pool n with
      | none =>
        rw [NewHandle_take_fail al c n s hh rest hq hn hm] at hr
        cases hr
        exact SameRegion.of_eq (by simp) (by simp) (by simp)
      | some p =>
        rw [NewHandle_take_ok al c n s hh rest p hq hn hm] at hr
        cases hr
        exact SameRegion.of_eq (by simp) (by simp) (by simp)

theorem NewHandle_region (al : Allocator) (t : Nat) (s : State) (r : Nat × State)
    (hr : NewHandle al t s = some r) : SameRegion r.2 s := by
  by_cases hq : s.HandleQueue = []
  · cases hm : al.malloc s.pool (4 * HandleCount) with
    | none =>
      rw [NewHandle_grow_fail al t s hq hm] at hr
      cases hr
      exact SameRegion.of_eq (by simp) (by simp) (by simp)
    | some b =>
      rw [NewHandle_grow_ok al t s b hq hm] at hr
      exact (NewHandle_take_region al _ _ _ r hr).trans (SameRegion.of_eq rfl rfl rfl)
  · rw [NewHandle_nonempty al t s hq] at hr
    exact NewHandle_take_region al _ _ s r hr

theorem runOp_region (al : Allocator) (op : Op) (s : State) (r : Nat × State)
    (hrun : runOp al op s = some r) : SameRegion r.2 s := by
  cases op with
  | NewPtr trap size =>
    simp only [runOp, Option.some.injEq] at hrun
    subst hrun
    exact (NewPtr_region al _ _).trans (SameRegion.of_eq rfl rfl rfl)
  | NewHandle trap size =>
    exact (NewHandle_region al _ _ r hrun).trans (SameRegion.of_eq rfl rfl rfl)
  | DisposePtr trap ptr =>
    simp only [runOp, Option.some.injEq] at hrun
    subst hrun
    exact (DisposePtr_region _ _).trans (SameRegion.of_eq rfl rfl rfl)
  | DisposeHandle trap hh =>
    simp only [runOp, Option.some.injEq] at hrun
    subst hrun
    exact (DisposeHandle_region _ _).trans (SameRegion.of_eq rfl rfl rfl)
  | BlockMove trap source dest count =>
    simp only [runOp, Option.some.injEq] at hrun
    subst hrun
    exact SameRegion.of_eq rfl rfl rfl

/-- In a reached state the pool region starts at `reserved` and the arena has
`memorySize` bytes. -/
theorem ReachableBy.region {al : Allocator} {memorySize reserved : Nat}
    {ok : State → Op → Prop} {s : State} (hr : ReachableBy al memorySize reserved ok s) :
    s.pool.start = reserved ∧ s.MemorySize = memorySize := by
  induction hr with
  | init memory s hinit =>
    unfold Init at hinit
    split at hinit
    · cases hm : al.malloc (⟨reserved, u32 (memorySize + 2 ^ 32 - reserved), []⟩ : Pool)
        (4 * HandleCount) with
      | none =>
        rw [alloc_handle_block_fail al _ hm] at hinit
        simp at hinit
      | some b =>
        rw [alloc_handle_block_ok al _ b hm] at hinit
        simp only [Prod.mk.injEq, true_and] at hinit
        subst hinit
        exact ⟨rfl, rfl⟩
    · simp at hinit
  | step s op code s' _ _ hrun ih =>
    have h := runOp_region al op s (code, s') hrun
    exact ⟨h.1.trans ih.1, h.2.2.trans ih.2⟩

theorem memoryWriteLong_zero_Memory (s : State) (addr a : Nat) (hin : addr + 3 < s.MemorySize)
    (h1 : addr ≤ a) (h2 : a < addr + 4) : (memoryWriteLong s 0 addr).Memory a = 0 := by
  unfold memoryWriteLong
  rw [if_pos hin]
  simp only [Nat.zero_div, Nat.zero_mod]
  have : a = addr ∨ a = addr + 1 ∨ a = addr + 2 ∨ a = addr + 3 := by omega
  rcases this with h | h | h | h <;> simp [h]

/-- Reading the cell of the new handle back after lines 292-297 of `NewHandle`,
when the cell lies inside the arena and clear of the error cell. -/
theorem NewHandle_record_cell (z : State) (hh a n : Nat) (hin : hh + 3 < z.MemorySize)
    (ha : a < 2 ^ 32) (hlo : 0x222 ≤ hh ∨ hh + 4 ≤ 0x220) :
    memoryReadLong (NewHandle_record z hh a n).2 hh = a := by
  rw [NewHandle_record_eq]
  have hcell := memoryReadLong_write
    { z with HandleMap := mapEmplace z.HandleMap hh ⟨a, n⟩ } a hh hin ha
  refine Eq.trans ?_ hcell
  apply memoryReadLong_congr
  intro x hx1 hx2
  exact memoryWriteWord_Memory_out
    (cpuSetAReg (memoryWriteLong { z with HandleMap := mapEmplace z.HandleMap hh ⟨a, n⟩ } a hh)
      0 hh) 0 0x220 x (by omega)

/-- The four bytes of the cell of the new handle after lines 292-297 of
`NewHandle`, when the recorded address is 0 and the cell lies inside the arena. -/
theorem NewHandle_record_zero (z : State) (hh n : Nat) (hin : hh + 3 < z.MemorySize) :
    (∀ a, hh ≤ a → a < hh + 4 → (NewHandle_record z hh 0 n).2.Memory a = 0)
    ∧ memoryReadLong (NewHandle_record z hh 0 n).2 hh = 0 := by
  have hbytes : ∀ a, hh ≤ a → a < hh + 4 → (NewHandle_record z hh 0 n).2.Memory a = 0 := by
    intro a ha1 ha2
    rw [NewHandle_record_eq]
    apply SetMemError_zero_Memory
    simp only [cpuSetAReg_Memory]
    exact memoryWriteLong_zero_Memory _ hh a hin ha1 ha2
  refine ⟨hbytes, ?_⟩
  unfold memoryReadLong
  rw [hbytes hh (by omega) (by omega), hbytes (hh + 1) (by omega) (by omega),
    hbytes (hh + 2) (by omega) (by omega), hbytes (hh + 3) (by omega) (by omega)]
  norm_num

theorem pair_of_fst_true (p : Bool × State) (h : p.1 = true) : p = (true, p.2) :=
  Prod.ext h rfl

theorem patternState_reachable : Reachable bumpAllocator 0x100000 0x10000 patternState := by
  unfold patternState
  exact ReachableBy.init (fun a => a % 251) _ (pair_of_fst_true _ (by decide))

theorem lowState_reachable : Reachable bumpAllocator 0x100000 0x0200 lowState := by
  unfold lowState
  exact Reachable.afterOps _ _
    (ReachableBy.init (fun _ => 0) _ (pair_of_fst_true _ (by decide)))

set_option maxRecDepth 4000 in
/-- C12 fails as stated when the pool region starts below the error cell: the
state `lowState` is reached from a successful `Init` with the pool region at
offset 0x0200, its free queue has the front identity 0x0220, and the pool answers
a request for 16 bytes with offset 0x10400. `NewHandle` with `D0 = 16` returns 0
with `A0 = 0x0220`, takes 0x0220 from the queue and records it with address
0x10400 and size 16; but the 32-bit value at offset 0x0220 is 0x0400, not
0x10400: `SetMemError(0)` has stored 0 over the two upper bytes of the cell. -/
theorem C12_counterexample :
    AllocOK bumpAllocator
    ∧ (Init bumpAllocator (fun _ => 0) 0x100000 0x0200).1 = true
    ∧ Reachable bumpAllocator 0x100000 0x0200 lowState
    ∧ lowState.HandleQueue.head? = some 0x0220
    ∧ bumpAllocator.malloc lowState.pool 16 = some 0x10400
    ∧ traceOut bumpAllocator [Op.NewHandle 0x122 16] lowState = some [(0, 0x0220)]
    ∧ (afterOps bumpAllocator [Op.NewHandle 0x122 16] lowState).HandleQueue
        = lowState.HandleQueue.tail
    ∧ mapFind (afterOps bumpAllocator [Op.NewHandle 0x122 16] lowState).HandleMap 0x0220
        = some ⟨0x10400, 16⟩
    ∧ memoryReadLong (afterOps bumpAllocator [Op.NewHandle 0x122 16] lowState) 0x0220 = 0x0400
    ∧ (0x0400 : Nat) ≠ 0x10400 :=
  ⟨bumpAllocator_ok, by decide, lowState_reachable, by decide, by decide, by decide,
    by decide, by decide, by decide, by decide⟩

/-- C12, amended: in a state reached from a successful `Init` (pool that keeps its
contract, pool region starting past offset 0, arena smaller than 2^32 bytes)
whose free queue is `h :: rest`, `NewHandle` with `D0 = size`, `size` not 0, for
which the pool answers with offset `p`: the trap returns 0 with `A0 = h`, the free
queue is `rest`, the Handle Table is the old table, which had no record for `h`,
plus the record of `h` with address `p` and size `size`; and the 32-bit value at
offset `h` is `p` when the four bytes of the cell of `h` include neither byte of
the error cell (0x0220 and 0x0221), which is so for every `h` when the pool
region starts at or above offset 0x0222. -/
theorem C12_new_handle_success (al : Allocator) (hal : AllocOK al)
    (memorySize reserved : Nat)
    (hres : 0 < reserved) (hle : reserved ≤ memorySize) (hms : memorySize < 2 ^ 32)
    (s : State) (hr : Reachable al memorySize reserved s) (trap size h p : Nat)
    (rest : List Nat) (hsize : size ≠ 0) (hq : s.HandleQueue = h :: rest)
    (hm : al.malloc s.pool size = some p) :
    ∃ s', NewHandle al trap (cpuSetDReg s 0 size) = some (0, s')
      ∧ cpuGetAReg s' 0 = h
      ∧ s'.HandleQueue = rest
      ∧ mapFind s.HandleMap h = none
      ∧ s'.HandleMap = (h, ⟨p, size⟩) :: s.HandleMap
      ∧ (∀ k, mapFind s'.HandleMap k
          = if k = h then some ⟨p, size⟩ else mapFind s.HandleMap k)
      ∧ ((0x0222 ≤ reserved ∨ 0x0222 ≤ h ∨ h + 4 ≤ 0x0220) → memoryReadLong s' h = p) := by
  obtain ⟨B, hB⟩ := ReachableBy.inv hal hres hle hms hr
  have hreg := ReachableBy.region hr
  have hB0 : Inv (cpuSetDReg s 0 size) B := hB.setD 0 size
  have hidn := hB.ids_nodup
  rw [hq] at hidn
  have hnew : h ∉ mapKeys s.HandleMap := fun hx =>
    (List.nodup_cons.mp hidn).1 (List.mem_append_right _ hx)
  have hslot : h ∈ B.flatMap batchSlots :=
    hB.queue_slot h (by rw [hq]; exact List.mem_cons_self _ _)
  have hbounds := hB.slot_bounds h hslot
  have hregion := hB.region
  have hu : u32 p = p := hB.u32_offset hal hm
  have hplt : p < 2 ^ 32 := by rw [← hu]; exact Nat.mod_lt _ (by decide)
  have hne : (cpuSetDReg s 0 size).HandleQueue ≠ [] := by
    show s.HandleQueue ≠ []
    rw [hq]; simp
  have hD : cpuGetDReg (cpuSetDReg s 0 size) 0 = size := by simp [cpuGetDReg]
  rw [NewHandle_nonempty al trap _ hne, hD,
    NewHandle_take_ok al _ size (cpuSetDReg s 0 size) h rest p hq hsize hm, hu]
  refine ⟨_, rfl, by simp [cpuGetAReg], by simp, (mapFind_none_iff _ _).mpr hnew, ?_, ?_, ?_⟩
  · simp [mapEmplace_of_not_mem _ _ _ hnew]
  · intro k
    simpa using mapFind_emplace_new s.HandleMap h ⟨p, size⟩ hnew k
  · intro hcell
    exact NewHandle_record_cell _ h p size (by simp; omega) hplt (by omega)

set_option maxRecDepth 4000 in
/-- Witness for C12: a request of 16 bytes right after `Init` with the pool region
at offset 0x10000; the front of the queue is 0x10000 and the pool answers with
offset 0x10200. -/
theorem C12_new_handle_success_witness :
    ∃ s', NewHandle bumpAllocator 0x122 (cpuSetDReg bootState 0 16) = some (0, s')
      ∧ cpuGetAReg s' 0 = 0x10000
      ∧ s'.HandleQueue = (batchSlots 0x10000).tail
      ∧ mapFind bootState.HandleMap 0x10000 = none
      ∧ s'.HandleMap = (0x10000, ⟨0x10200, 16⟩) :: bootState.HandleMap
      ∧ (∀ k, mapFind s'.HandleMap k
          = if k = 0x10000 then some ⟨0x10200, 16⟩ else mapFind bootState.HandleMap k)
      ∧ memoryReadLong s' 0x10000 = 0x10200 :=
  (C12_new_handle_success bumpAllocator bumpAllocator_ok 0x100000 0x10000 (by decide)
    (by decide) (by decide) bootState bootState_reachable 0x122 16 0x10000 0x10200
    (batchSlots 0x10000).tail (by decide) (by decide) (by decide)).imp
    (fun _ h => ⟨h.1, h.2.1, h.2.2.1, h.2.2.2.1, h.2.2.2.2.1, h.2.2.2.2.2.1,
      h.2.2.2.2.2.2 (Or.inl (by decide))⟩)

/-- C13: in a state reached from a successful `Init` (pool that keeps its contract,
pool region starting past offset 0, arena smaller than 2^32 bytes) whose free
queue is `h :: rest`, `NewHandle` with `D0 = 0` sends no request to the pool,
returns 0 with `A0 = h`, takes `h` from the queue, records `h` with address 0 and
size 0 in the Handle Table, which had no record for `h`, and stores 0 in the four
bytes at offset `h`. -/
theorem C13_new_handle_empty (al : Allocator) (hal : AllocOK al) (memorySize reserved : Nat)
    (hres : 0 < reserved) (hle : reserved ≤ memorySize) (hms : memorySize < 2 ^ 32)
    (s : State) (hr : Reachable al memorySize reserved s) (trap h : Nat)
    (rest : List Nat) (hq : s.HandleQueue = h :: rest) :
    ∃ s', NewHandle al trap (cpuSetDReg s 0 0) = some (0, s')
      ∧ cpuGetAReg s' 0 = h
      ∧ s'.pool = s.pool
      ∧ s'.HandleQueue = rest
      ∧ mapFind s.HandleMap h = none
      ∧ s'.HandleMap = (h, ⟨0, 0⟩) :: s.HandleMap
      ∧ mapFind s'.HandleMap h = some ⟨0, 0⟩
      ∧ (∀ a, h ≤ a → a < h + 4 → s'.Memory a = 0)
      ∧ memoryReadLong s' h = 0 := by
  obtain ⟨B, hB⟩ := ReachableBy.inv hal hres hle hms hr
  have hidn := hB.ids_nodup
  rw [hq] at hidn
  have hnew : h ∉ mapKeys s.HandleMap := fun hx =>
    (List.nodup_cons.mp hidn).1 (List.mem_append_right _ hx)
  have hslot : h ∈ B.flatMap batchSlots :=
    hB.queue_slot h (by rw [hq]; exact List.mem_cons_self _ _)
  have hbounds := hB.slot_bounds h hslot
  have hregion := hB.region
  have hne : (cpuSetDReg s 0 0).HandleQueue ≠ [] := by
    show s.HandleQueue ≠ []
    rw [hq]; simp
  have hD : cpuGetDReg (cpuSetDReg s 0 0) 0 = 0 := by simp [cpuGetDReg]
  rw [NewHandle_nonempty al trap _ hne, hD,
    NewHandle_take_empty al _ (cpuSetDReg s 0 0) h rest hq]
  have hzero := NewHandle_record_zero { (cpuSetDReg s 0 0) with HandleQueue := rest } h 0
    (by simp; omega)
  refine ⟨_, rfl, by simp [cpuGetAReg], by simp, by simp,
    (mapFind_none_iff _ _).mpr hnew, ?_, ?_, hzero.1, hzero.2⟩
  · simp [mapEmplace_of_not_mem _ _ _ hnew]
  · simp [mapEmplace_of_not_mem _ _ _ hnew, mapFind_cons]

set_option maxRecDepth 4000 in
/-- Witness for C13: right after `Init` on an arena filled with the pattern
`a % 251`; the front of the queue is 0x10000. -/
theorem C13_new_handle_empty_witness :
    ∃ s', NewHandle bumpAllocator 0x122 (cpuSetDReg patternState 0 0) = some (0, s')
      ∧ cpuGetAReg s' 0 = 0x10000
      ∧ s'.pool = patternState.pool
      ∧ s'.HandleQueue = (batchSlots 0x10000).tail
      ∧ mapFind patternState.HandleMap 0x10000 = none
      ∧ s'.HandleMap = (0x10000, ⟨0, 0⟩) :: patternState.HandleMap
      ∧ mapFind s'.HandleMap 0x10000 = some ⟨0, 0⟩
      ∧ (∀ a, 0x10000 ≤ a → a < 0x10000 + 4 → s'.Memory a = 0)
      ∧ memoryReadLong s' 0x10000 = 0 :=
  C13_new_handle_empty bumpAllocator bumpAllocator_ok 0x100000 0x10000 (by decide)
    (by decide) (by decide) patternState patternState_reachable
    0x122 0x10000 (batchSlots 0x10000).tail (by decide)

/-- C16: in a state reached from a successful `Init` (pool that keeps its contract,
pool region starting past offset 0, arena smaller than 2^32 bytes), for a live
handle `h` in `A0` whose recorded address `a` is not 0, `DisposeHandle` returns 0,
sends the pool the one request `free a`, erases the record of `h` and no other,
leaves the Direct-Block Map alone and appends `h` to the free queue. The batch
that holds the cell of `h` is a block of the pool other than `a`, allocated before
the call and still allocated after it. -/
theorem C16_dispose_handle (al : Allocator) (hal : AllocOK al) (memorySize reserved : Nat)
    (hres : 0 < reserved) (hle : reserved ≤ memorySize) (hms : memorySize < 2 ^ 32)
    (s : State) (hr : Reachable al memorySize reserved s) (trap h : Nat) (info : HandleInfo)
    (hA : cpuGetAReg s 0 = h) (hlive : mapFind s.HandleMap h = some info)
    (haddr : info.address ≠ 0) :
    (DisposeHandle trap s).1 = 0
    ∧ (DisposeHandle trap s).2.pool.calls = PoolCall.free info.address :: s.pool.calls
    ∧ mapFind (DisposeHandle trap s).2.HandleMap h = none
    ∧ (∀ k, k ≠ h → mapFind (DisposeHandle trap s).2.HandleMap k = mapFind s.HandleMap k)
    ∧ (DisposeHandle trap s).2.PtrMap = s.PtrMap
    ∧ (DisposeHandle trap s).2.HandleQueue = s.HandleQueue ++ [h]
    ∧ ∃ b, b ≤ h ∧ h + 4 ≤ b + 4 * HandleCount ∧ b ≠ info.address
        ∧ (b, 4 * HandleCount) ∈ liveSpans s.pool.calls
        ∧ (b, 4 * HandleCount) ∈ liveSpans (DisposeHandle trap s).2.pool.calls := by
  obtain ⟨B, hB⟩ := ReachableBy.inv hal hres hle hms hr
  have hB' := DisposeHandle_inv hB trap
  subst hA
  have hkey := mapFind_some_key _ _ _ hlive
  obtain ⟨b, hb, i, hi, hhb⟩ := hB.slot_batch _ (hB.key_slot _ hkey)
  have hown : info.address ∈ ownedBlocks s.HandleMap := by
    unfold ownedBlocks
    rw [List.mem_filter]
    exact ⟨List.mem_map.mpr ⟨_, mapFind_some_mem _ _ _ hlive, rfl⟩, by simpa using haddr⟩
  have hba : b ≠ info.address := by
    intro e
    exact List.disjoint_of_nodup_append hB.held_nodup hb
      (List.mem_append_right _ (e ▸ hown))
  have hlive' := hB'.batches_live b hb
  rw [DisposeHandle_present trap s info hlive] at hlive' ⊢
  refine ⟨rfl, by simp, by simp [mapFind_erase_self], ?_, by simp, by simp, ?_⟩
  · intro k hk
    simp [mapFind_erase_ne _ _ _ hk]
  · refine ⟨b, by omega, ?_, hba, hB.batches_live b hb, hlive'⟩
    unfold HandleCount at *
    omega

set_option maxRecDepth 4000 in
/-- Witness for C16: the handle 0x10000 of `handleState`, which owns the block at
offset 0x10200 and is still in `A0`. -/
theorem C16_dispose_handle_witness :
    (DisposeHandle 0x23 handleState).1 = 0
    ∧ (DisposeHandle 0x23 handleState).2.pool.calls
        = PoolCall.free (⟨0x10200, 16⟩ : HandleInfo).address :: handleState.pool.calls
    ∧ mapFind (DisposeHandle 0x23 handleState).2.HandleMap 0x10000 = none
    ∧ (∀ k, k ≠ 0x10000 →
        mapFind (DisposeHandle 0x23 handleState).2.HandleMap k = mapFind handleState.HandleMap k)
    ∧ (DisposeHandle 0x23 handleState).2.PtrMap = handleState.PtrMap
    ∧ (DisposeHandle 0x23 handleState).2.HandleQueue = handleState.HandleQueue ++ [0x10000]
    ∧ ∃ b, b ≤ 0x10000 ∧ 0x10000 + 4 ≤ b + 4 * HandleCount
        ∧ b ≠ (⟨0x10200, 16⟩ : HandleInfo).address
        ∧ (b, 4 * HandleCount) ∈ liveSpans handleState.pool.calls
        ∧ (b, 4 * HandleCount) ∈ liveSpans (DisposeHandle 0x23 handleState).2.pool.calls :=
  C16_dispose_handle bumpAllocator bumpAllocator_ok 0x100000 0x10000 (by decide) (by decide)
    (by decide) handleState (Reachable.afterOps _ _ bootState_reachable)
    0x23 0x10000 ⟨0x10200, 16⟩ (by decide) (by decide) (by decide)

/-! ### Growth of the handle table -/

/-- The state a successful `Init` leaves: one batch request in the pool history,
answered with `b`, and the 128 cells of that batch in the queue. -/
theorem Init_state {al : Allocator} (hal : AllocOK al) (memory : Nat → Nat)
    (memorySize reserved : Nat) (hres : 0 < reserved) (hle : reserved ≤ memorySize)
    (hms : memorySize < 2 ^ 32) (s : State)
    (hinit : Init al memory memorySize reserved = (true, s)) :
    ∃ b, Inv s [b] ∧ s.HandleQueue = batchSlots b
      ∧ s.pool.calls = [PoolCall.malloc (4 * HandleCount) (some b)]
      ∧ s.HandleMap = [] := by
  have h0 := Inv.at_startup memory memorySize reserved hres hle hms
  unfold Init at hinit
  split at hinit
  · cases hm : al.malloc (⟨reserved, u32 (memorySize + 2 ^ 32 - reserved), []⟩ : Pool)
      (4 * HandleCount) with
    | none =>
      rw [alloc_handle_block_fail al _ hm] at hinit
      simp at hinit
    | some b =>
      have hb := alloc_handle_block_inv h0 hal b hm
      rw [h0.alloc_handle_block_eq hal b hm] at hinit hb
      simp only [Prod.mk.injEq, true_and] at hinit
      subst hinit
      refine ⟨b, hb.1, rfl, ?_, rfl⟩
      show [PoolCall.malloc (4 * HandleCount)
        (al.malloc (⟨reserved, u32 (memorySize + 2 ^ 32 - reserved), []⟩ : Pool)
          (4 * HandleCount))] = _
      rw [hm]
  · simp at hinit

/-- On a queue `hh :: rest`, `NewHandle_take` returns, leaves at least the
identities of `rest` in the queue, and succeeds when the size is 0. -/
theorem NewHandle_take_queue (al : Allocator) (c : Bool) (n : Nat) (x : State) (hh : Nat)
    (rest : List Nat) (hq : x.HandleQueue = hh :: rest) :
    ∃ r, NewHandle_take al c n x = some r
      ∧ rest.length ≤ r.2.HandleQueue.length
      ∧ (n = 0 → r.1 = 0) := by
  by_cases hn : n = 0
  · subst hn
    exact ⟨_, NewHandle_take_empty al c x hh rest hq, by simp, fun _ => rfl⟩
  · cases hm : al.malloc x.pool n with
    | none =>
      exact ⟨_, NewHandle_take_fail al c n x hh rest hq hn hm, by simp,
        fun h => absurd h hn⟩
    | some p =>
      exact ⟨_, NewHandle_take_ok al c n x hh rest p hq hn hm, by simp,
        fun h => absurd h hn⟩

/-- A run of `NewHandle` traps no longer than the free queue returns, whatever
the pool answers; and every trap of the run succeeds when all sizes are 0. -/
theorem runTrace_NewHandle_returns (al : Allocator) : ∀ (args : List (Nat × Nat)) (s : State),
    args.length ≤ s.HandleQueue.length →
    ∃ rs, runTrace al (args.map (fun a => Op.NewHandle a.1 a.2)) s = some rs
      ∧ ((∀ a ∈ args, u32 a.2 = 0) → ∀ r ∈ rs.1, r.1 = 0) := by
  intro args
  induction args with
  | nil =>
    intro s _
    exact ⟨([], s), rfl, fun _ r hr => by simp at hr⟩
  | cons a args ih =>
    intro s hlen
    cases hq : s.HandleQueue with
    | nil => rw [hq] at hlen; simp at hlen
    | cons hh rest =>
      have hne : (cpuSetDReg s 0 (u32 a.2)).HandleQueue ≠ [] := by
        show s.HandleQueue ≠ []
        rw [hq]; simp
      obtain ⟨r, hr, hrlen, hr0⟩ := NewHandle_take_queue al (clearFlag (u16 a.1))
        (cpuGetDReg (cpuSetDReg s 0 (u32 a.2)) 0) (cpuSetDReg s 0 (u32 a.2)) hh rest hq
      have hop : runOp al (Op.NewHandle a.1 a.2) s = some r := by
        show NewHandle al (u16 a.1) (cpuSetDReg s 0 (u32 a.2)) = some r
        rw [NewHandle_nonempty al _ _ hne]
        exact hr
      have hlen2 : args.length ≤ r.2.HandleQueue.length := by
        rw [hq] at hlen
        simp only [List.length_cons] at hlen
        omega
      obtain ⟨rs2, hrs2, hz2⟩ := ih r.2 hlen2
      refine ⟨((r.1, cpuGetAReg r.2 0) :: rs2.1, rs2.2), ?_, ?_⟩
      · rw [List.map_cons, runTrace_cons al _ _ s r hop, hrs2]
        rfl
      · intro hz x hx
        rcases List.mem_cons.mp hx with h | h
        · rw [h]
          exact hr0 (by simpa [cpuGetDReg] using hz a (List.mem_cons_self _ _))
        · exact hz2 (fun b hb => hz b (List.mem_cons_of_mem _ hb)) x h

/-- `NewHandle` on an empty free queue when the pool keeps its contract and hands
out a batch at offset `b2`: the trap takes `b2`, the first cell of the batch, as
the handle identity. With size 0 it records `b2` with address 0; with a size for
which the pool hands out a block at `p` it records `b2` with address `p`; in both
cases it returns 0 with `A0 = b2` and leaves `b2 + 4, ..., b2 + 508` in the
queue. When the pool refuses the block it returns `memFullErr` with `A0 = 0`,
and puts `b2` back at the end of the queue. -/
theorem NewHandle_grow_outcome {s : State} {B : List Nat} (h : Inv s B) {al : Allocator}
    (hal : AllocOK al) (t b2 : Nat) (hq : s.HandleQueue = [])
    (hm : al.malloc s.pool (4 * HandleCount) = some b2) :
    ∃ r, NewHandle al t s = some r
      ∧ (cpuGetDReg s 0 = 0 →
          r.1 = 0 ∧ cpuGetAReg r.2 0 = b2
          ∧ mapFind r.2.HandleMap b2 = some ⟨0, 0⟩
          ∧ r.2.HandleQueue = (batchSlots b2).tail
          ∧ r.2.pool.calls = PoolCall.malloc 512 (some b2) :: s.pool.calls)
      ∧ (∀ p, cpuGetDReg s 0 ≠ 0 →
          al.malloc ⟨s.pool.start, s.pool.len, PoolCall.malloc 512 (some b2) :: s.pool.calls⟩
            (cpuGetDReg s 0) = some p →
          r.1 = 0 ∧ cpuGetAReg r.2 0 = b2
          ∧ mapFind r.2.HandleMap b2 = some ⟨p, cpuGetDReg s 0⟩
          ∧ r.2.HandleQueue = (batchSlots b2).tail
          ∧ r.2.pool.calls = PoolCall.malloc (cpuGetDReg s 0) (some p)
              :: PoolCall.malloc 512 (some b2) :: s.pool.calls)
      ∧ (cpuGetDReg s 0 ≠ 0 →
          al.malloc ⟨s.pool.start, s.pool.len, PoolCall.malloc 512 (some b2) :: s.pool.calls⟩
            (cpuGetDReg s 0) = none →
          r.1 = memFullErr ∧ cpuGetAReg r.2 0 = 0
          ∧ r.2.HandleMap = s.HandleMap
          ∧ r.2.HandleQueue = (batchSlots b2).tail ++ [b2]
          ∧ r.2.pool.calls = PoolCall.malloc (cpuGetDReg s 0) none
              :: PoolCall.malloc 512 (some b2) :: s.pool.calls) := by
  have hx := alloc_handle_block_inv h hal b2 hm
  rw [h.alloc_handle_block_eq hal b2 hm] at hx
  have hB2 : Inv ({ (mplite_malloc al s (4 * HandleCount)).2 with
      HandleQueue := s.HandleQueue ++ batchSlots b2 } : State) (B ++ [b2]) := hx.1
  obtain ⟨rest, hrest⟩ := batchSlots_head b2
  have htail : (batchSlots b2).tail = rest := by rw [hrest]; rfl
  have hxq : ({ (mplite_malloc al s (4 * HandleCount)).2 with
      HandleQueue := s.HandleQueue ++ batchSlots b2 } : State).HandleQueue = b2 :: rest := by
    show s.HandleQueue ++ batchSlots b2 = b2 :: rest
    rw [hq, hrest]; rfl
  have hxpool : ({ (mplite_malloc al s (4 * HandleCount)).2 with
      HandleQueue := s.HandleQueue ++ batchSlots b2 } : State).pool
        = ⟨s.pool.start, s.pool.len, PoolCall.malloc 512 (some b2) :: s.pool.calls⟩ := by
    have hp := mplite_malloc_pool s al (4 * HandleCount)
    rw [hm] at hp
    exact hp
  have hm' : al.malloc s.pool 512 = some b2 := hm
  have hidn := hB2.ids_nodup
  rw [hxq] at hidn
  have hnew : b2 ∉ mapKeys s.HandleMap := fun hk =>
    (List.nodup_cons.mp hidn).1 (List.mem_append_right _ hk)
  rw [NewHandle_grow_ok al t s b2 hq hm, h.pushHandles_batch hal hm s.HandleQueue]
  by_cases hn : cpuGetDReg s 0 = 0
  · rw [hn, NewHandle_take_empty al _ _ b2 rest hxq]
    refine ⟨_, rfl, fun _ => ⟨rfl, by simp [cpuGetAReg], ?_, by simp [htail], ?_⟩,
      fun p hp => absurd rfl hp, fun hp => absurd rfl hp⟩
    · simpa using mapFind_emplace_new s.HandleMap b2 ⟨0, 0⟩ hnew b2
    · simp [hm', HandleCount]
  · cases hmb : al.malloc (⟨s.pool.start, s.pool.len,
        PoolCall.malloc 512 (some b2) :: s.pool.calls⟩ : Pool) (cpuGetDReg s 0) with
    | none =>
      have hmb2 := hmb
      rw [← hxpool] at hmb2
      rw [NewHandle_take_fail al _ _ _ b2 rest hxq hn hmb2]
      refine ⟨_, rfl, fun h0 => absurd h0 hn, (fun p _ hp => by cases hp),
        fun _ _ => ⟨rfl, by simp [cpuGetAReg], by simp, by simp [htail], ?_⟩⟩
      have hmb3 : al.malloc
          ⟨s.pool.start, s.pool.len, PoolCall.malloc 512 (some b2) :: s.pool.calls⟩
          (s.dReg 0) = none := hmb
      simp [hm', HandleCount, hmb3, cpuGetDReg]
    | some p =>
      have hmb2 := hmb
      rw [← hxpool] at hmb2
      have hu : u32 p = p := hB2.u32_offset hal hmb2
      rw [NewHandle_take_ok al _ _ _ b2 rest p hxq hn hmb2, hu]
      refine ⟨_, rfl, fun h0 => absurd h0 hn,
        fun p2 _ hp2 => ⟨rfl, by simp [cpuGetAReg], ?_, by simp [htail], ?_⟩,
        (fun _ hp => by cases hp)⟩
      · have hpp : p = p2 := Option.some.inj hp2
        subst hpp
        simpa using mapFind_emplace_new s.HandleMap b2 ⟨p, cpuGetDReg s 0⟩ hnew b2
      · have hpp : p = p2 := Option.some.inj hp2
        subst hpp
        have hmb3 : al.malloc
            ⟨s.pool.start, s.pool.len, PoolCall.malloc 512 (some b2) :: s.pool.calls⟩
            (s.dReg 0) = some p := hmb
        simp [hm', HandleCount, hmb3, cpuGetDReg]

set_option maxRecDepth 4000 in
/-- C14 fails as stated in its last clause: after `Init` and 128 `NewHandle` traps
that all succeed and return 0x10000, 0x10004, ..., 0x101FC the free queue is
empty, and the pool would answer a request for a batch of 512 bytes with offset
0x10200. The 129th `NewHandle`, with `D0 = 0x100000`, sends that request and gets
the batch, but the pool has no block of 0x100000 bytes: the trap returns
`memFullErr` with `A0 = 0`, 0x10200 is not the identity of a handle, and it is
back in the free queue, behind the other 127 identities of the new batch. -/
theorem C14_counterexample :
    AllocOK bumpAllocator
    ∧ (Init bumpAllocator (fun _ => 0) 0x100000 0x10000).1 = true
    ∧ traceOut bumpAllocator (List.replicate 128 (Op.NewHandle 0 0)) bootState
        = some ((List.range 128).map (fun i => (0, 0x10000 + 4 * i)))
    ∧ drained.HandleQueue = []
    ∧ bumpAllocator.malloc drained.pool 512 = some 0x10200
    ∧ traceOut bumpAllocator [Op.NewHandle 0 0x100000] drained = some [(memFullErr, 0)]
    ∧ (afterOps bumpAllocator [Op.NewHandle 0 0x100000] drained).pool.calls
        = PoolCall.malloc 0x100000 none :: PoolCall.malloc 512 (some 0x10200)
            :: drained.pool.calls
    ∧ mapFind (afterOps bumpAllocator [Op.NewHandle 0 0x100000] drained).HandleMap 0x10200
        = none
    ∧ (afterOps bumpAllocator [Op.NewHandle 0 0x100000] drained).HandleQueue
        = (batchSlots 0x10200).tail ++ [0x10200] :=
  ⟨bumpAllocator_ok, by decide, by decide, by decide, by decide, by decide, by decide,
    by decide, by decide⟩

/-- C14, amended: a successful `Init` (pool that keeps its contract, pool region
starting past offset 0, arena smaller than 2^32 bytes) has sent the pool one
request, for 512 bytes, answered with a batch at offset `b`, and leaves the free
queue holding exactly the 128 identities `b, b + 4, ..., b + 508` in ascending
order. Any 128 `NewHandle` traps in a row then return, and all of them succeed
when all sizes are 0. When all 128 succeed, they return these identities in that
order and leave the free queue empty. The 129th `NewHandle` then returns and
sends the pool a further request for a batch of 512 bytes; when that request is
answered with offset `b2`, the trap takes `b2` as the handle identity: with size
0, or with a size for which the pool hands out a block at `p`, it returns 0 with
`A0 = b2`, records `b2` with that address and leaves `b2 + 4, ..., b2 + 508` in
the queue; when the pool refuses the block it returns `memFullErr` with
`A0 = 0`, leaves the Handle Table as it was and puts `b2` back at the end of the
queue. -/
theorem C14_table_growth (al : Allocator) (hal : AllocOK al) (memory : Nat → Nat)
    (memorySize reserved : Nat) (hres : 0 < reserved) (hle : reserved ≤ memorySize)
    (hms : memorySize < 2 ^ 32) (s0 : State)
    (hinit : Init al memory memorySize reserved = (true, s0))
    (args : List (Nat × Nat)) (hlen : args.length = 128) :
    ∃ b, s0.pool.calls = [PoolCall.malloc 512 (some b)]
      ∧ s0.HandleQueue = (List.range 128).map (fun i => b + 4 * i)
      ∧ ∃ rs, runTrace al (args.map (fun a => Op.NewHandle a.1 a.2)) s0 = some rs
        ∧ ((∀ a ∈ args, u32 a.2 = 0) → ∀ r ∈ rs.1, r.1 = 0)
        ∧ ((∀ r ∈ rs.1, r.1 = 0) →
          rs.1.map Prod.snd = (List.range 128).map (fun i => b + 4 * i)
          ∧ rs.2.HandleQueue = []
          ∧ ∀ (trap size : Nat), ∃ r,
              runOp al (Op.NewHandle trap size) rs.2 = some r
              ∧ (∃ pre, r.2.pool.calls
                  = pre ++ PoolCall.malloc 512 (al.malloc rs.2.pool 512) :: rs.2.pool.calls)
              ∧ ∀ b2, al.malloc rs.2.pool 512 = some b2 →
                (u32 size = 0 →
                  r.1 = 0 ∧ cpuGetAReg r.2 0 = b2
                  ∧ mapFind r.2.HandleMap b2 = some ⟨0, 0⟩
                  ∧ r.2.HandleQueue = (batchSlots b2).tail
                  ∧ r.2.pool.calls = PoolCall.malloc 512 (some b2) :: rs.2.pool.calls)
                ∧ (∀ p, u32 size ≠ 0 →
                  al.malloc ⟨rs.2.pool.start, rs.2.pool.len,
                    PoolCall.malloc 512 (some b2) :: rs.2.pool.calls⟩ (u32 size) = some p →
                  r.1 = 0 ∧ cpuGetAReg r.2 0 = b2
                  ∧ mapFind r.2.HandleMap b2 = some ⟨p, u32 size⟩
                  ∧ r.2.HandleQueue = (batchSlots b2).tail
                  ∧ r.2.pool.calls = PoolCall.malloc (u32 size) (some p)
                      :: PoolCall.malloc 512 (some b2) :: rs.2.pool.calls)
                ∧ (u32 size ≠ 0 →
                  al.malloc ⟨rs.2.pool.start, rs.2.pool.len,
                    PoolCall.malloc 512 (some b2) :: rs.2.pool.calls⟩ (u32 size) = none →
                  r.1 = memFullErr ∧ cpuGetAReg r.2 0 = 0
                  ∧ r.2.HandleMap = rs.2.HandleMap
                  ∧ r.2.HandleQueue = (batchSlots b2).tail ++ [b2]
                  ∧ r.2.pool.calls = PoolCall.malloc (u32 size) none
                      :: PoolCall.malloc 512 (some b2) :: rs.2.pool.calls)) := by
  obtain ⟨b, hB0, hq0, hcalls0, _⟩ :=
    Init_state hal memory memorySize reserved hres hle hms s0 hinit
  refine ⟨b, hcalls0, hq0, ?_⟩
  have hqlen : s0.HandleQueue.length = 128 := by rw [hq0]; exact batchSlots_length b
  obtain ⟨rs, hrun, hz⟩ := runTrace_NewHandle_returns al args s0 (by omega)
  refine ⟨rs, hrun, hz, ?_⟩
  intro hok
  have hfifo := fifo_run al args s0 rs hrun hok (by omega)
  have hreach0 : Reachable al memorySize reserved s0 := ReachableBy.init memory s0 hinit
  have hreach : Reachable al memorySize reserved rs.2 :=
    ReachableBy.runTrace _ s0 rs hreach0 hrun
  obtain ⟨B, hB⟩ := ReachableBy.inv hal hres hle hms hreach
  have hempty : rs.2.HandleQueue = [] := by
    rw [hfifo.2, hlen, ← hqlen]
    exact List.drop_length _
  refine ⟨?_, hempty, ?_⟩
  · rw [hfifo.1, hlen, ← hqlen, List.take_length, hq0]
    rfl
  · intro trap size
    have hBd : Inv (cpuSetDReg rs.2 0 (u32 size)) B := hB.setD 0 (u32 size)
    have hD : cpuGetDReg (cpuSetDReg rs.2 0 (u32 size)) 0 = u32 size := by simp [cpuGetDReg]
    show ∃ r, NewHandle al (u16 trap) (cpuSetDReg rs.2 0 (u32 size)) = some r ∧ _
    cases hm : al.malloc rs.2.pool (4 * HandleCount) with
    | none =>
      have hm' : al.malloc rs.2.pool 512 = none := hm
      rw [NewHandle_grow_fail al _ (cpuSetDReg rs.2 0 (u32 size)) hempty hm]
      refine ⟨_, rfl, ⟨[], ?_⟩, ?_⟩
      · simp [hm', HandleCount]
      · intro b2 hb2
        rw [hm'] at hb2
        cases hb2
    | some b2 =>
      have hm' : al.malloc rs.2.pool 512 = some b2 := hm
      obtain ⟨r, hr, h1, h2, h3⟩ := NewHandle_grow_outcome hBd hal (u16 trap) b2 hempty hm
      rw [hD] at h1 h2 h3
      refine ⟨r, hr, ?_, ?_⟩
      · rw [hm']
        by_cases hn : u32 size = 0
        · exact ⟨[], by rw [(h1 hn).2.2.2.2]; rfl⟩
        · cases hmb : al.malloc (⟨rs.2.pool.start, rs.2.pool.len,
              PoolCall.malloc 512 (some b2) :: rs.2.pool.calls⟩ : Pool) (u32 size) with
          | none => exact ⟨[PoolCall.malloc (u32 size) none], by rw [(h3 hn hmb).2.2.2.2]; rfl⟩
          | some p =>
            exact ⟨[PoolCall.malloc (u32 size) (some p)], by rw [(h2 p hn hmb).2.2.2.2]; rfl⟩
      · intro b3 hb3
        rw [hm'] at hb3
        cases hb3
        exact ⟨h1, h2, h3⟩

set_option maxRecDepth 4000 in
/-- Witness for C14: `Init` on a zeroed arena of 1 MiB with 64 KiB reserved, 128
`NewHandle` traps of size 0, and a 129th `NewHandle` of 16 bytes: the run
returns, all 128 traps succeed, the new batch is at offset 0x10200 and the
block at offset 0x10400. -/
theorem C14_table_growth_witness :
    bootState.pool.calls = [PoolCall.malloc 512 (some 0x10000)]
    ∧ bootState.HandleQueue = (List.range 128).map (fun i => 0x10000 + 4 * i)
    ∧ ∃ rs, runTrace bumpAllocator
          ((List.replicate 128 ((0 : Nat), (0 : Nat))).map (fun a => Op.NewHandle a.1 a.2))
          bootState = some rs
      ∧ (∀ r ∈ rs.1, r.1 = 0)
      ∧ rs.1.map Prod.snd = (List.range 128).map (fun i => 0x10000 + 4 * i)
      ∧ rs.2.HandleQueue = []
      ∧ ∃ r, runOp bumpAllocator (Op.NewHandle 0x122 16) rs.2 = some r
        ∧ (∃ pre, r.2.pool.calls
            = pre ++ PoolCall.malloc 512 (some 0x10200) :: rs.2.pool.calls)
        ∧ r.1 = 0 ∧ cpuGetAReg r.2 0 = 0x10200
        ∧ mapFind r.2.HandleMap 0x10200 = some ⟨0x10400, 16⟩
        ∧ r.2.HandleQueue = (batchSlots 0x10200).tail
        ∧ r.2.pool.calls = PoolCall.malloc 16 (some 0x10400)
            :: PoolCall.malloc 512 (some 0x10200) :: rs.2.pool.calls := by
  obtain ⟨b, hc, hq, rs, hrun, hz, himp⟩ :=
    C14_table_growth bumpAllocator bumpAllocator_ok (fun _ => 0) 0x100000 0x10000
      (by decide) (by decide) (by decide) bootState (pair_of_fst_true _ (by decide))
      (List.replicate 128 (0, 0)) (by decide)
  have hb : b = 0x10000 := by
    have h0 : bootState.pool.calls = [PoolCall.malloc 512 (some 0x10000)] := by decide
    rw [h0] at hc
    simpa using hc.symm
  subst hb
  have hok := hz (by decide)
  obtain ⟨hids, hempty, h129⟩ := himp hok
  have hd : drained = rs.2 := by
    have hrun2 : runTrace bumpAllocator (List.replicate 128 (Op.NewHandle 0 0)) bootState
        = some rs := hrun
    unfold drained afterOps
    rw [hrun2]
  obtain ⟨r, hr, hpre, hout⟩ := h129 0x122 16
  have hm : bumpAllocator.malloc rs.2.pool 512 = some 0x10200 := by
    rw [← hd]; decide
  have hmb : bumpAllocator.malloc ⟨rs.2.pool.start, rs.2.pool.len,
      PoolCall.malloc 512 (some 0x10200) :: rs.2.pool.calls⟩ (u32 16) = some 0x10400 := by
    rw [← hd]; decide
  rw [hm] at hpre
  exact ⟨hc, hq, rs, hrun, hok, hids, hempty, r, hr, hpre,
    (hout 0x10200 hm).2.1 0x10400 (by decide) hmb⟩

/-! ### Result codes -/

theorem NewHandle_take_code (al : Allocator) (c : Bool) (n : Nat) (x : State)
    (hsize : 0x0222 ≤ x.MemorySize) (r : Nat × State)
    (hr : NewHandle_take al c n x = some r) :
    memoryReadWord r.2 0x0220 = r.1
    ∧ (r.1 = 0 ↔ (n = 0 ∨ (al.malloc x.pool n).isSome = true)) := by
  cases hq : x.HandleQueue with
  | nil => simp [NewHandle_take, hq] at hr
  | cons hh rest =>
    by_cases hn : n = 0
    · subst hn
      rw [NewHandle_take_empty al c x hh rest hq, NewHandle_record_eq] at hr
      cases hr
      exact ⟨SetMemError_cell _ 0 (by simpa using hsize) (by decide), by simp⟩
    · cases hm : al.malloc x.pool n with
      | none =>
        rw [NewHandle_take_fail al c n x hh rest hq hn hm] at hr
        cases hr
        refine ⟨SetMemError_cell _ memFullErr (by simpa using hsize) (by decide), ?_⟩
        simp [hn, memFullErr]
      | some p =>
        rw [NewHandle_take_ok al c n x hh rest p hq hn hm, NewHandle_record_eq] at hr
        cases hr
        exact ⟨SetMemError_cell _ 0 (by simpa using hsize) (by decide), by simp⟩

/-- C18: in an arena that holds the error cell (at least 0x0222 bytes), each of
`NewPtr`, `DisposePtr`, `NewHandle` and `DisposeHandle` leaves in the 16-bit word
at offset 0x0220 the code it returns, on every path, and that code is 0 exactly
when the trap succeeds: when `NewPtr` and `NewHandle` get the memory they ask the
pool for, and when `DisposePtr` and `DisposeHandle` are given a key of their map.
Otherwise the code is `memFullErr` for the first two and `memWZErr` for the last
two. `NewPtr`, `DisposePtr` and `DisposeHandle` are total; `NewHandle` returns
whenever its free queue is not empty or the batch it obtains does not wrap around
`2 ^ 32` (in every other state it calls `front()` on an empty queue and has no
return). -/
theorem C18_result_code (al : Allocator) (t1 t2 t3 t4 : Nat) (s : State)
    (hsize : 0x0222 ≤ s.MemorySize) :
    (memoryReadWord (NewPtr al t1 s).2 0x0220 = (NewPtr al t1 s).1
      ∧ ((NewPtr al t1 s).1 = 0 ↔ NewPtr_succeeds al s)
      ∧ ((NewPtr al t1 s).1 = 0 ∨ (NewPtr al t1 s).1 = memFullErr))
    ∧ (memoryReadWord (DisposePtr t2 s).2 0x0220 = (DisposePtr t2 s).1
      ∧ ((DisposePtr t2 s).1 = 0 ↔ DisposePtr_succeeds s)
      ∧ ((DisposePtr t2 s).1 = 0 ∨ (DisposePtr t2 s).1 = memWZErr))
    ∧ ((s.HandleQueue ≠ []
          ∨ ∀ b, al.malloc s.pool (4 * HandleCount) = some b → u32 b < u32 (u32 b + 128 * 4)) →
        ∃ r, NewHandle al t3 s = some r
          ∧ memoryReadWord r.2 0x0220 = r.1
          ∧ (r.1 = 0 ↔ NewHandle_succeeds al s)
          ∧ (r.1 = 0 ∨ r.1 = memFullErr))
    ∧ (memoryReadWord (DisposeHandle t4 s).2 0x0220 = (DisposeHandle t4 s).1
      ∧ ((DisposeHandle t4 s).1 = 0 ↔ DisposeHandle_succeeds s)
      ∧ ((DisposeHandle t4 s).1 = 0 ∨ (DisposeHandle t4 s).1 = memWZErr)) := by
  refine ⟨?_, ?_, ?_, ?_⟩
  · unfold NewPtr_succeeds
    by_cases h0 : cpuGetDReg s 0 = 0
    · rw [NewPtr_zero al t1 s h0]
      exact ⟨SetMemError_cell _ 0 hsize (by decide), by simp [h0], Or.inl rfl⟩
    · cases hm : al.malloc s.pool (cpuGetDReg s 0) with
      | none =>
        rw [NewPtr_fail al t1 s h0 hm]
        exact ⟨SetMemError_cell _ memFullErr hsize (by decide), by simp [h0, memFullErr],
          Or.inr rfl⟩
      | some p =>
        rw [NewPtr_ok al t1 s p h0 hm]
        exact ⟨SetMemError_cell _ 0 (by simpa using hsize) (by decide), by simp, Or.inl rfl⟩
  · unfold DisposePtr_succeeds
    cases hf : mapFind s.PtrMap (cpuGetAReg s 0) with
    | none =>
      rw [DisposePtr_absent t2 s hf]
      exact ⟨SetMemError_cell _ memWZErr hsize (by decide), by simp [memWZErr], Or.inr rfl⟩
    | some sz =>
      rw [DisposePtr_present t2 s sz hf]
      exact ⟨SetMemError_cell _ 0 hsize (by decide), by simp, Or.inl rfl⟩
  · intro hdef
    obtain ⟨r, hr⟩ := NewHandle_returns al t3 s hdef
    refine ⟨r, hr, ?_⟩
    have hcodes : ∀ (x : State), 0x0222 ≤ x.MemorySize →
        NewHandle_take al (clearFlag t3) (cpuGetDReg s 0) x = some r →
        r.1 = 0 ∨ r.1 = memFullErr := by
      intro x hx hxr
      have h := (NewHandle_take_code al _ _ x hx r hxr).2
      by_cases hc : r.1 = 0
      · exact Or.inl hc
      · right
        cases hq : x.HandleQueue with
        | nil => simp [NewHandle_take, hq] at hxr
        | cons hh rest =>
          by_cases hn : cpuGetDReg s 0 = 0
          · exact absurd (h.mpr (Or.inl hn)) hc
          · cases hm : al.malloc x.pool (cpuGetDReg s 0) with
            | none =>
              rw [NewHandle_take_fail al _ _ x hh rest hq hn hm] at hxr
              cases hxr
              rfl
            | some p => exact absurd (h.mpr (Or.inr (by simp [hm]))) hc
    unfold NewHandle_succeeds
    by_cases hq : s.HandleQueue = []
    · rw [if_pos hq]
      cases hm : al.malloc s.pool (4 * HandleCount) with
      | none =>
        rw [NewHandle_grow_fail al t3 s hq hm] at hr
        cases hr
        exact ⟨SetMemError_cell _ memFullErr hsize (by decide), by simp [memFullErr],
          Or.inr rfl⟩
      | some b =>
        rw [NewHandle_grow_ok al t3 s b hq hm] at hr
        have h := NewHandle_take_code al _ _ _ (by simpa using hsize) r hr
        refine ⟨h.1, ?_, hcodes _ (by simpa using hsize) hr⟩
        rw [h.2]
        simp
    · rw [if_neg hq]
      rw [NewHandle_nonempty al t3 s hq] at hr
      have h := NewHandle_take_code al _ _ s hsize r hr
      exact ⟨h.1, h.2, hcodes s hsize hr⟩
  · unfold DisposeHandle_succeeds
    cases hf : mapFind s.HandleMap (cpuGetAReg s 0) with
    | none =>
      rw [DisposeHandle_absent t4 s hf]
      exact ⟨SetMemError_cell _ memWZErr hsize (by decide), by simp [memWZErr], Or.inr rfl⟩
    | some info =>
      rw [DisposeHandle_present t4 s info hf]
      exact ⟨SetMemError_cell _ 0 (by simpa using hsize) (by decide), by simp, Or.inl rfl⟩

set_option maxRecDepth 4000 in
/-- Witness for C18: the state after `Init` and a `NewHandle` of 16 bytes, with
`D0 = 16` and the live handle 0x10000 in `A0`; its free queue is not empty, and
`NewHandle` returns. -/
theorem C18_result_code_witness :
    (memoryReadWord (NewPtr bumpAllocator 0x11E handleState).2 0x0220
        = (NewPtr bumpAllocator 0x11E handleState).1
      ∧ ((NewPtr bumpAllocator 0x11E handleState).1 = 0 ↔ NewPtr_succeeds bumpAllocator handleState)
      ∧ ((NewPtr bumpAllocator 0x11E handleState).1 = 0
        ∨ (NewPtr bumpAllocator 0x11E handleState).1 = memFullErr))
    ∧ (memoryReadWord (DisposePtr 0x1F handleState).2 0x0220 = (DisposePtr 0x1F handleState).1
      ∧ ((DisposePtr 0x1F handleState).1 = 0 ↔ DisposePtr_succeeds handleState)
      ∧ ((DisposePtr 0x1F handleState).1 = 0 ∨ (DisposePtr 0x1F handleState).1 = memWZErr))
    ∧ (∃ r, NewHandle bumpAllocator 0x122 handleState = some r
        ∧ memoryReadWord r.2 0x0220 = r.1
        ∧ (r.1 = 0 ↔ NewHandle_succeeds bumpAllocator handleState)
        ∧ (r.1 = 0 ∨ r.1 = memFullErr))
    ∧ (memoryReadWord (DisposeHandle 0x23 handleState).2 0x0220
        = (DisposeHandle 0x23 handleState).1
      ∧ ((DisposeHandle 0x23 handleState).1 = 0 ↔ DisposeHandle_succeeds handleState)
      ∧ ((DisposeHandle 0x23 handleState).1 = 0
        ∨ (DisposeHandle 0x23 handleState).1 = memWZErr)) := by
  have h := C18_result_code bumpAllocator 0x11E 0x1F 0x122 0x23 handleState (by decide)
  exact ⟨h.1, h.2.1, h.2.2.1 (Or.inl (by decide)), h.2.2.2⟩

/-! ### Counting the handle identities -/

theorem length_flatMap_batchSlots (B : List Nat) :
    (B.flatMap batchSlots).length = 128 * B.length := by
  induction B with
  | nil => rfl
  | cons b B ih =>
    rw [List.flatMap_cons, List.length_append, ih, batchSlots_length, List.length_cons]
    ring

/-- The invariant after a trap, with the list of batches it leaves: the old list,
with one more batch exactly when the trap minted one. -/
theorem runOp_inv_minted {s : State} {B : List Nat} (h : Inv s B) {al : Allocator}
    (hal : AllocOK al) (op : Op) (r : Nat × State) (hr : runOp al op s = some r) :
    ∃ B', Inv r.2 B' ∧ B'.length = B.length + minted al op s
      ∧ (minted al op s = 0 → B' = B) := by
  cases op with
  | NewPtr trap size =>
    simp only [runOp, Option.some.injEq] at hr
    subst hr
    exact ⟨B, NewPtr_inv (h.setD _ _) hal _, rfl, fun _ => rfl⟩
  | DisposePtr trap ptr =>
    simp only [runOp, Option.some.injEq] at hr
    subst hr
    exact ⟨B, DisposePtr_inv (h.setA _ _) _, rfl, fun _ => rfl⟩
  | DisposeHandle trap hh =>
    simp only [runOp, Option.some.injEq] at hr
    subst hr
    exact ⟨B, DisposeHandle_inv (h.setA _ _) _, rfl, fun _ => rfl⟩
  | BlockMove trap source dest count =>
    simp only [runOp, Option.some.injEq] at hr
    subst hr
    exact ⟨B, BlockMove_inv (((h.setA _ _).setA _ _).setD _ _) _, rfl, fun _ => rfl⟩
  | NewHandle trap size =>
    have h0 : Inv (cpuSetDReg s 0 (u32 size)) B := h.setD 0 (u32 size)
    have hr' : NewHandle al (u16 trap) (cpuSetDReg s 0 (u32 size)) = some r := hr
    by_cases hq : s.HandleQueue = []
    · cases hm : al.malloc s.pool (4 * HandleCount) with
      | none =>
        have hmint : minted al (Op.NewHandle trap size) s = 0 := by simp [minted, hm]
        have hm0 : al.malloc (cpuSetDReg s 0 (u32 size)).pool (4 * HandleCount) = none := hm
        rw [NewHandle_grow_fail al _ (cpuSetDReg s 0 (u32 size)) hq hm0] at hr'
        cases hr'
        refine ⟨B, ?_, by rw [hmint]; rfl, fun _ => rfl⟩
        exact h0.of_perm (by simp) (by simp) (by simp [hm, liveSpans_malloc_none]) (by simp)
          (by simp) (by simp) (by simp)
      | some b =>
        have hmint : minted al (Op.NewHandle trap size) s = 1 := by simp [minted, hm, hq]
        have hm0 : al.malloc (cpuSetDReg s 0 (u32 size)).pool (4 * HandleCount) = some b := hm
        have hgrow := (alloc_handle_block_inv h0 hal b hm0).1
        rw [alloc_handle_block_ok al (cpuSetDReg s 0 (u32 size)) b hm0] at hgrow
        rw [NewHandle_grow_ok al _ (cpuSetDReg s 0 (u32 size)) b hq hm0] at hr'
        refine ⟨B ++ [b], NewHandle_take_inv hgrow hal _ _ r hr', by rw [hmint]; simp, ?_⟩
        intro h1
        rw [hmint] at h1
        cases h1
    · have hmint : minted al (Op.NewHandle trap size) s = 0 := by simp [minted, hq]
      rw [NewHandle_nonempty al _ (cpuSetDReg s 0 (u32 size)) hq] at hr'
      exact ⟨B, NewHandle_take_inv h0 hal _ _ r hr', by rw [hmint]; rfl, fun _ => rfl⟩

theorem ReachableCount.inv_count {al : Allocator} (hal : AllocOK al) {memorySize reserved : Nat}
    (hres : 0 < reserved) (hle : reserved ≤ memorySize) (hms : memorySize < 2 ^ 32)
    {n : Nat} {s : State} (hr : ReachableCount al memorySize reserved n s) :
    ∃ B, Inv s B ∧ B.length = n := by
  induction hr with
  | init memory s hinit =>
    obtain ⟨b, hb, _⟩ := Init_inv hal memory memorySize reserved hres hle hms s hinit
    exact ⟨[b], hb, rfl⟩
  | step n s op code s' _ hrun ih =>
    obtain ⟨B, hB, hlen⟩ := ih
    obtain ⟨B', hB', hlen', _⟩ := runOp_inv_minted hB hal op (code, s') hrun
    exact ⟨B', hB', by rw [hlen', hlen]⟩

/-- C19: in every state reached from a successful `Init` (pool that keeps its
contract, pool region starting past offset 0, arena smaller than 2^32 bytes) the
number of identities in the free queue plus the number of keys of the Handle
Table, which are pairwise different, is 128 times the number of batches minted
so far. A trap that does not mint a batch, whatever it is and whether it fails or
not, leaves the identities of the free queue and the keys of the Handle Table,
taken together, the same: the new ones are a rearrangement of the old ones. -/
theorem C19_conservation (al : Allocator) (hal : AllocOK al) (memorySize reserved : Nat)
    (hres : 0 < reserved) (hle : reserved ≤ memorySize) (hms : memorySize < 2 ^ 32)
    (n : Nat) (s : State) (hr : ReachableCount al memorySize reserved n s) :
    s.HandleQueue.length + (mapKeys s.HandleMap).length = 128 * n
    ∧ (mapKeys s.HandleMap).Nodup
    ∧ ∀ (op : Op) (r : Nat × State), runOp al op s = some r → minted al op s = 0 →
        (r.2.HandleQueue ++ mapKeys r.2.HandleMap).Perm (s.HandleQueue ++ mapKeys s.HandleMap)
        ∧ ∀ x, x ∈ r.2.HandleQueue ∨ x ∈ mapKeys r.2.HandleMap
            ↔ x ∈ s.HandleQueue ∨ x ∈ mapKeys s.HandleMap := by
  obtain ⟨B, hB, hlen⟩ := ReachableCount.inv_count hal hres hle hms hr
  refine ⟨?_, hB.handle_keys_nodup, ?_⟩
  · rw [← List.length_append, hB.ids.length_eq, length_flatMap_batchSlots, hlen]
  · intro op r hrun hmint
    obtain ⟨B', hB', _, hsame⟩ := runOp_inv_minted hB hal op r hrun
    rw [hsame hmint] at hB'
    have hperm := hB'.ids.trans hB.ids.symm
    refine ⟨hperm, ?_⟩
    intro x
    rw [← List.mem_append, ← List.mem_append]
    exact hperm.mem_iff

set_option maxRecDepth 4000 in
/-- Witness for C19: the state right after `Init`, one batch minted. -/
theorem C19_conservation_witness :
    bootState.HandleQueue.length + (mapKeys bootState.HandleMap).length = 128 * 1
    ∧ (mapKeys bootState.HandleMap).Nodup
    ∧ ∀ (op : Op) (r : Nat × State), runOp bumpAllocator op bootState = some r →
        minted bumpAllocator op bootState = 0 →
        (r.2.HandleQueue ++ mapKeys r.2.HandleMap).Perm
          (bootState.HandleQueue ++ mapKeys bootState.HandleMap)
        ∧ ∀ x, x ∈ r.2.HandleQueue ∨ x ∈ mapKeys r.2.HandleMap
            ↔ x ∈ bootState.HandleQueue ∨ x ∈ mapKeys bootState.HandleMap :=
  C19_conservation bumpAllocator bumpAllocator_ok 0x100000 0x10000 (by decide) (by decide)
    (by decide) 1 bootState
    (ReachableCount.init (fun _ => 0) bootState (pair_of_fst_true _ (by decide)))

/-! ### `memmove` and byte loops -/

theorem copyUp_spec (m : Nat → Nat) (dest source : Nat) (hle : dest ≤ source) (n : Nat) :
    ∀ a, copyUp m dest source n a
      = if dest ≤ a ∧ a < dest + n then m (source + (a - dest)) else m a := by
  induction n with
  | zero =>
    intro a
    have : ¬ (dest ≤ a ∧ a < dest + 0) := by omega
    rw [if_neg this]
    rfl
  | succ n ih =>
    intro a
    simp only [copyUp]
    by_cases ha : a = dest + n
    · subst ha
      have h1 : ¬ (dest ≤ source + n ∧ source + n < dest + n) := by omega
      have h2 : dest ≤ dest + n ∧ dest + n < dest + (n + 1) := by omega
      rw [if_pos rfl, ih, if_neg h1, if_pos h2, Nat.add_sub_cancel_left]
    · rw [if_neg ha, ih]
      by_cases hin : dest ≤ a ∧ a < dest + n
      · have h2 : dest ≤ a ∧ a < dest + (n + 1) := by omega
        rw [if_pos hin, if_pos h2]
      · have h2 : ¬ (dest ≤ a ∧ a < dest + (n + 1)) := by omega
        rw [if_neg hin, if_neg h2]

theorem copyDown_spec (dest source : Nat) (hle : source ≤ dest) (n : Nat) :
    ∀ (m : Nat → Nat) (a : Nat), copyDown m dest source n a
      = if dest ≤ a ∧ a < dest + n then m (source + (a - dest)) else m a := by
  induction n with
  | zero =>
    intro m a
    have : ¬ (dest ≤ a ∧ a < dest + 0) := by omega
    rw [if_neg this]
    rfl
  | succ n ih =>
    intro m a
    simp only [copyDown]
    rw [ih]
    by_cases hin : dest ≤ a ∧ a < dest + n
    · have h2 : dest ≤ a ∧ a < dest + (n + 1) := by omega
      have h3 : source + (a - dest) ≠ dest + n := by omega
      rw [if_pos hin, if_pos h2, if_neg h3]
    · rw [if_neg hin]
      by_cases ha : a = dest + n
      · subst ha
        have h2 : dest ≤ dest + n ∧ dest + n < dest + (n + 1) := by omega
        rw [if_pos rfl, if_pos h2, Nat.add_sub_cancel_left]
      · have h2 : ¬ (dest ≤ a ∧ a < dest + (n + 1)) := by omega
        rw [if_neg ha, if_neg h2]

/-- The region move that models `std::memmove` is what a byte loop in the safe
direction computes: ascending when the destination lies below the source,
descending when it lies above. -/
theorem memmove_eq_byte_loop (s : State) (dest source count : Nat) :
    (dest ≤ source → (memmove s dest source count).Memory = copyUp s.Memory dest source count)
    ∧ (source ≤ dest →
        (memmove s dest source count).Memory = copyDown s.Memory dest source count) := by
  constructor
  · intro h
    funext a
    rw [copyUp_spec s.Memory dest source h count a]
    rfl
  · intro h
    funext a
    rw [copyDown_spec dest source h count s.Memory a]
    rfl

set_option maxRecDepth 4000 in
/-- On the overlapping ranges of `moveArgs` (6 bytes from 0x20000 to 0x20002) the
ascending byte loop gives another result than `BlockMove`: at offset 0x20004 it
leaves the byte of offset 0x20000, where `BlockMove` puts the byte of offset
0x20002. -/
theorem naive_copy_differs :
    (BlockMove 0x2E moveArgs).2.Memory 0x20004 = moveArgs.Memory 0x20002
    ∧ copyUp moveArgs.Memory 0x20002 0x20000 6 0x20004 = moveArgs.Memory 0x20000
    ∧ moveArgs.Memory 0x20002 ≠ moveArgs.Memory 0x20000 := by
  decide

/-- C17: `BlockMove` with `A0 = source`, `A1 = dest`, `D0 = count`, both ranges
inside the arena, overlapping or not: it returns 0; the byte at `dest + i` is the
byte that was at `source + i` before the call, for every `i < count`; every byte
outside `[dest, dest + count)` is unchanged; the pool, the Direct-Block Map, the
Handle Table and the free queue are unchanged. The memory it leaves is the one a
byte loop leaves when it runs in the direction that is safe for the overlap. -/
theorem C17_block_move (trap source dest count : Nat) (s : State)
    (hsrc : cpuGetAReg s 0 = source) (hdst : cpuGetAReg s 1 = dest)
    (hcnt : cpuGetDReg s 0 = count)
    (_hin1 : source + count ≤ s.MemorySize) (_hin2 : dest + count ≤ s.MemorySize) :
    (BlockMove trap s).1 = 0
    ∧ (∀ i, i < count → (BlockMove trap s).2.Memory (dest + i) = s.Memory (source + i))
    ∧ (∀ a, a < dest ∨ dest + count ≤ a → (BlockMove trap s).2.Memory a = s.Memory a)
    ∧ (BlockMove trap s).2.pool = s.pool
    ∧ (BlockMove trap s).2.PtrMap = s.PtrMap
    ∧ (BlockMove trap s).2.HandleMap = s.HandleMap
    ∧ (BlockMove trap s).2.HandleQueue = s.HandleQueue
    ∧ (dest ≤ source → (BlockMove trap s).2.Memory = copyUp s.Memory dest source count)
    ∧ (source ≤ dest → (BlockMove trap s).2.Memory = copyDown s.Memory dest source count) := by
  subst hsrc hdst hcnt
  refine ⟨rfl, ?_, ?_, rfl, rfl, rfl, rfl,
    (memmove_eq_byte_loop s _ _ _).1, (memmove_eq_byte_loop s _ _ _).2⟩
  · intro i hi
    have h1 : cpuGetAReg s 1 ≤ cpuGetAReg s 1 + i ∧
        cpuGetAReg s 1 + i < cpuGetAReg s 1 + cpuGetDReg s 0 := by omega
    simp only [BlockMove, memmove, if_pos h1, Nat.add_sub_cancel_left]
  · intro a ha
    exact memmove_Memory_out s _ _ _ a ha

set_option maxRecDepth 4000 in
/-- Witness for C17: 6 bytes moved from offset 0x20000 to offset 0x20002, two
overlapping ranges, in an arena filled with the pattern `a % 251`. -/
theorem C17_block_move_witness :
    (BlockMove 0x2E moveArgs).1 = 0
    ∧ (∀ i, i < 6 → (BlockMove 0x2E moveArgs).2.Memory (0x20002 + i)
        = moveArgs.Memory (0x20000 + i))
    ∧ (∀ a, a < 0x20002 ∨ 0x20002 + 6 ≤ a → (BlockMove 0x2E moveArgs).2.Memory a
        = moveArgs.Memory a)
    ∧ (BlockMove 0x2E moveArgs).2.pool = moveArgs.pool
    ∧ (BlockMove 0x2E moveArgs).2.PtrMap = moveArgs.PtrMap
    ∧ (BlockMove 0x2E moveArgs).2.HandleMap = moveArgs.HandleMap
    ∧ (BlockMove 0x2E moveArgs).2.HandleQueue = moveArgs.HandleQueue
    ∧ (0x20002 ≤ 0x20000 →
        (BlockMove 0x2E moveArgs).2.Memory = copyUp moveArgs.Memory 0x20002 0x20000 6)
    ∧ (0x20000 ≤ 0x20002 →
        (BlockMove 0x2E moveArgs).2.Memory = copyDown moveArgs.Memory 0x20002 0x20000 6) :=
  C17_block_move 0x2E 0x20000 0x20002 6 moveArgs (by decide) (by decide) (by decide)
    (by decide) (by decide)

end MM
